import Mathlib

/-!
# aws-cvpn-pki-manager: certificate lifecycle and CRL reconciliation

A shallow embedding of `pkg/operations` (`types.go`, `users.go`,
`certificates.go`, `crl.go`).

* Go `string` and `[]byte` values are Lean `String`s, a Go `error` is an
  `Error`, a `(value, error)` result is an `Except Error value` and a bare
  `error` result is an `Option Error` (`none` is `nil`).
* A function that can fault (nil dereference, failed type assertion) has a
  `Result`: a value, an error, or the fault.
* The remote systems (the Vault PKI backend and the AWS Client VPN endpoint) are
  a `State` threaded through every operation, together with an `Env` of
  responses: what each remote call answers in a given state.  Every remote call
  is appended to `State.trace`, whether it succeeds or not.
* Library functions whose code is outside the repository (`pem.Decode`,
  `x509.ParseCertificate`, `x509.ParseRevocationList`, `sort.Slice`) are the
  fields of `Lib`; the iteration order of a Go map is an explicit parameter.
-/

namespace PKIManager

/-! ## Basic types -/

/-- A Go `error` value. -/
abbrev Error := String

/- Results are compared in the samples. -/
deriving instance DecidableEq for Except

/-- How a function of the program ends: it returns a value with a nil error
(`ok`; for a function that returns only an error, `ok ()`), it returns an error,
or it faults (nil dereference, failed type assertion). -/
inductive Result (α : Type) where
  | ok (a : α)
  | error (err : Error)
  | fault
  deriving DecidableEq, Repr

/-- What `Logical().List` or `Logical().Read` gives back: a secret holding the
data the program reads from it (`ok`), an error (`error`), or, with a nil error,
no such data (`absent`): a nil secret, which is what the client returns when Vault
answers 404 (nothing stored under the path), or a secret without the field. -/
inductive Answer (α : Type) where
  | ok (a : α)
  | error (err : Error)
  | absent
  deriving DecidableEq, Repr

/-- One byte. -/
abbrev Byte := Fin 256

/-- A `time.Time`, as the instant it denotes (nanoseconds since the epoch). -/
abbrev Time := Int

/-- The method `Time.Local` only changes the location used for printing, not the instant. -/
def Time.Local (t : Time) : Time := t

/-- The method `t.Before(u)`: the instant `t` is strictly before `u`. -/
def Time.Before (t u : Time) : Bool := decide (t < u)

/-- Certificate represents a certificate stored in the vault cvpn-pki secret
engine (`types.go`). -/
structure Certificate where
  SerialNumber : String
  IssuerCN : String
  SubjectCN : String
  NotBefore : Time
  NotAfter : Time
  Revoked : Bool
  CertificatePEM : String
  deriving DecidableEq, Repr

/-- A `map[string][]Certificate`, as the list of its entries in order of first
insertion; the nil map and the empty map are both `[]`. -/
abbrev UserMap := List (String × List Certificate)

/-- The lookup `users[k]`: the sequence stored under `k`, the nil slice when absent. -/
def UserMap.get (users : UserMap) (k : String) : List Certificate :=
  match users with
  | [] => []
  | (k', v) :: rest => if k' = k then v else UserMap.get rest k

/-- The update `users[k] = append(users[k], c)`. -/
def UserMap.append (users : UserMap) (k : String) (c : Certificate) : UserMap :=
  match users with
  | [] => [(k, [c])]
  | (k', v) :: rest =>
    if k' = k then (k', v ++ [c]) :: rest else (k', v) :: UserMap.append rest k c

/-! ## The library -/

/-- A `pem.Block`. -/
structure Block where
  Type_ : String
  Bytes : List Byte
  deriving DecidableEq, Repr

/-- A `big.Int`, as far as the program looks at it: the result of `Bytes()`. -/
structure BigInt where
  Bytes : List Byte
  deriving DecidableEq, Repr

/-- An `x509.ExtKeyUsage`. -/
abbrev ExtKeyUsage := Nat

/-- The constant `x509.ExtKeyUsageServerAuth`. -/
def ExtKeyUsageServerAuth : ExtKeyUsage := 1

/-- The constant `x509.ExtKeyUsageClientAuth`. -/
def ExtKeyUsageClientAuth : ExtKeyUsage := 2

/-- The fields of `pkix.Name` the program reads. -/
structure Name where
  CommonName : String
  deriving DecidableEq, Repr

/-- The fields of `x509.Certificate` the program reads. -/
structure X509Certificate where
  SerialNumber : BigInt
  Issuer : Name
  Subject : Name
  NotBefore : Time
  NotAfter : Time
  IsCA : Bool
  ExtKeyUsage : List ExtKeyUsage
  deriving DecidableEq, Repr

/-- An `x509.RevocationListEntry`. -/
structure RevocationListEntry where
  SerialNumber : BigInt
  deriving DecidableEq, Repr

/-- An `x509.RevocationList`. -/
structure RevocationList where
  RevokedCertificateEntries : List RevocationListEntry
  deriving DecidableEq, Repr

/-- The library functions the program calls and whose code is not part of the
repository.  `sortSlice less crts` is `sort.Slice(crts, less)`, the closure
`less(i, j)` being given as a function of the elements at the indexes `i` and
`j`. -/
structure Lib where
  pemDecode : String → Option Block
  ParseCertificate : List Byte → Except Error X509Certificate
  ParseRevocationList : List Byte → Except Error RevocationList
  sortSlice : (Certificate → Certificate → Bool) → List Certificate → List Certificate

/-- What `sort.Slice` requires of `less` (the requirements of
`sort.Interface.Less`): nothing sorts before itself, `less` is transitive, and
when neither `less a b` nor `less b c` holds then `less a c` does not hold. -/
def LessContract (less : Certificate → Certificate → Bool) : Prop :=
  (∀ a, less a a = false) ∧
  (∀ a b c, less a b = true → less b c = true → less a c = true) ∧
  (∀ a b c, less a b = false → less b c = false → less a c = false)

/-- The contract of `sort.Slice`, for every `less` that meets its requirements:
the result is a permutation of the input in which no element is `less` than an
earlier one.  The sort is not stable, so nothing is said about the order of
elements of which neither is `less` than the other. -/
def Lib.SliceContract (lib : Lib) : Prop :=
  ∀ less : Certificate → Certificate → Bool, LessContract less →
    ∀ crts : List Certificate,
      (lib.sortSlice less crts).Perm crts ∧
      (lib.sortSlice less crts).Pairwise (fun a b => less b a = false)

/-! ## The remote systems -/

/-- A value of a request payload (`map[string]interface{}`). -/
inductive Value where
  | str (s : String)
  | map (m : List (String × String))
  deriving DecidableEq, Repr

/-- A request payload. -/
abbrev Payload := List (String × Value)

/-- A remote call. -/
inductive Call where
  | vaultList (path : String)
  | vaultRead (path : String)
  | vaultReadRaw (path : String)
  | vaultWrite (path : String) (payload : Payload)
  | awsLoadConfig
  | awsDescribe (endpoint : String)
  | awsExport (endpoint : String)
  | awsImport (endpoint : String) (crl : String)
  deriving DecidableEq, Repr

/-- The state of the remote systems: the calls made so far (oldest first), the
serial numbers the PKI backend has revoked, and the CRL the VPN endpoint has
imported (`none` when it has none). -/
structure State where
  trace : List Call
  revoked : List String
  gateway : Option String
  deriving DecidableEq, Repr

/-- What the remote systems answer in a given state.
* `vaultList s path`: the `keys` of the secret of `Logical().List(path)`, its
  error, or `absent` for a nil secret or a secret without a list of keys;
* `vaultRead s path`: the `certificate` field of the secret of
  `Logical().Read(path)`, its error, or `absent` for a nil secret or a secret
  without that string;
* `vaultReadRaw s path`: `ReadRawWithContext(path)` followed by `io.ReadAll` of
  the body: the request error, or else the bytes read and the error of the read;
* `vaultWrite s path payload`: the `Data` of the secret `Logical().Write(path,
  payload)` returns, or its error;
* `awsDescribe s endpoint`: the DNS names of the endpoints that
  `DescribeClientVpnEndpoints` returns, or its error;
* `awsLoadConfig`, `awsExport`, `awsImport`: the error of the AWS call. -/
structure Env where
  vaultList : State → String → Answer (List String)
  vaultRead : State → String → Answer String
  vaultReadRaw : State → String → Except Error (String × Option Error)
  vaultWrite : State → String → Payload → Except Error (List (String × String))
  awsLoadConfig : State → Option Error
  awsDescribe : State → String → Except Error (List String)
  awsExport : State → String → Option Error
  awsImport : State → String → String → Option Error

/-- Append a call to the trace. -/
def State.record (s : State) (c : Call) : State :=
  { s with trace := s.trace ++ [c] }

/-- Whether `path` is the revoke operation of a PKI mount, `{pki}/revoke`. -/
def isRevokePath (path : String) : Bool :=
  "/revoke".data.isSuffixOf path.data

/-- The effect of a successful `Write` on the backend: a revoke request adds its
serial number to the revoked set. -/
def writeEffect (path : String) (payload : Payload) (s : State) : State :=
  if isRevokePath path then
    match payload.lookup "serial_number" with
    | some (.str serial) => { s with revoked := s.revoked ++ [serial] }
    | _ => s
  else s

/-- The call `client.Logical().Write(path, payload)`. -/
def vaultWrite (env : Env) (path : String) (payload : Payload) (s : State) :
    Except Error (List (String × String)) × State :=
  match env.vaultWrite s path payload with
  | .error err => (.error err, s.record (.vaultWrite path payload))
  | .ok data => (.ok data, writeEffect path payload (s.record (.vaultWrite path payload)))

/-! ## `certificates.go`: revokeUserCertificates -/

/-- The payload of the revoke request for `crt`. -/
def revokePayload (crt : Certificate) : Payload :=
  [("serial_number", .str crt.SerialNumber)]

/-- The loop of `revokeUserCertificates`, from index `n` on: `len` is
`len(crts)` and the list is `crts[n:]`. -/
def revokeUserCertificatesLoop (env : Env) (pki : String) (len : Nat) (revokeAll : Bool) :
    Nat → List Certificate → State → Option Error × State
  | _, [], s => (none, s)
  | n, crt :: rest, s =>
    -- Do not revoke the last certificate
    if (n : Int) = (len : Int) - 1 ∧ revokeAll = false then (none, s)
    else if crt.Revoked = false then
      match vaultWrite env (pki ++ "/revoke") (revokePayload crt) s with
      | (.error err, s') => (some err, s')
      | (.ok _, s') => revokeUserCertificatesLoop env pki len revokeAll (n + 1) rest s'
    else revokeUserCertificatesLoop env pki len revokeAll (n + 1) rest s

/-- The function `revokeUserCertificates` receives a list of certificates, sorted
from oldest to newest, and revokes all but the latest if `revokeAll` is false and
all of them if `revokeAll` is true. -/
def revokeUserCertificates (env : Env) (pki : String) (crts : List Certificate)
    (revokeAll : Bool) (s : State) : Option Error × State :=
  revokeUserCertificatesLoop env pki crts.length revokeAll 0 crts s

/-! ## `users.go` -/

/-- One hexadecimal digit, in lower case. -/
def hexDigit (n : Nat) : Char :=
  if n < 10 then Char.ofNat (48 + n) else Char.ofNat (87 + n)

/-- The verb `%02x` applied to a byte: two lower-case hexadecimal digits. -/
def fmt02x (cur : Byte) : String :=
  String.mk [hexDigit (cur.val / 16), hexDigit (cur.val % 16)]

/-- The function `getHexFormatted`: the bytes in hexadecimal, joined by `-`. -/
def getHexFormatted (buf : List Byte) : String :=
  buf.foldl (fun ret cur => (if ret.length > 0 then ret ++ "-" else ret) ++ fmt02x cur) ""

/-- The predicate `unicode.IsSpace`. -/
def isSpace (c : Char) : Bool :=
  let n := c.toNat
  (9 ≤ n && n ≤ 13) || n = 32 || n = 0x85 || n = 0xA0 || n = 0x1680 ||
  (0x2000 ≤ n && n ≤ 0x200A) || n = 0x2028 || n = 0x2029 || n = 0x202F ||
  n = 0x205F || n = 0x3000

/-- The function `strings.TrimSpace`: drop the leading and trailing white space. -/
def TrimSpace (s : String) : String :=
  String.mk ((s.data.dropWhile isSpace).reverse.dropWhile isSpace).reverse

/-- Split a character sequence around each occurrence of `sep`. -/
def splitChars (sep : Char) : List Char → List (List Char)
  | [] => [[]]
  | c :: cs =>
    if c = sep then [] :: splitChars sep cs
    else
      match splitChars sep cs with
      | [] => [[c]]
      | h :: t => (c :: h) :: t

/-- The function `strings.Split(s, sep)` for a one-character separator. -/
def Split (s : String) (sep : Char) : List String :=
  (splitChars sep s.data).map String.mk

/-- The function `isRevoked`: whether the CRL `crlPEM` has an entry for `serial`. -/
def isRevoked (lib : Lib) (serial : String) (crlPEM : String) : Except Error Bool :=
  -- PEM to DER
  let crl : List Byte :=
    match lib.pemDecode crlPEM with
    | some block => if block.Type_ = "X509 CRL" then block.Bytes else []
    | none => []
  -- Parse CRL
  match lib.ParseRevocationList crl with
  | .error err => .error err
  | .ok list =>
    .ok (list.RevokedCertificateEntries.any fun entry =>
      decide (serial = TrimSpace (getHexFormatted entry.SerialNumber.Bytes)))

/-- The function `isServerCertificate`: whether server authentication is among
the extended key usages. -/
def isServerCertificate (cert : X509Certificate) : Bool :=
  cert.ExtKeyUsage.foldl (fun flag use => if use = ExtKeyUsageServerAuth then true else flag)
    false

/-! ## `crl.go`: GetCRL -/

/-- The function `GetCRL` returns the Client Revocation List PEM.  An error of
`io.ReadAll` is logged and the bytes read so far are returned with a nil error. -/
def GetCRL (env : Env) (VaultPKIPath : String) (s : State) : Except Error String × State :=
  let path := "/" ++ VaultPKIPath ++ "/crl/pem"
  match env.vaultReadRaw s path with
  | .error err => (.error err, s.record (.vaultReadRaw path))
  | .ok (data, _) => (.ok data, s.record (.vaultReadRaw path))

/-! ## `users.go`: ListUsers -/

/-- ListUsersRequest is the structure containing the required data to list the
users (the client is the `Env`). -/
structure ListUsersRequest where
  VaultPKIPath : String
  ClientVPNEndpointID : String
  deriving DecidableEq, Repr

/-- How the loop over the keys ends: with a `return` of the function, or by
reaching the end of the keys with the map built so far. -/
inductive LoopExit where
  | returned (result : Result UserMap)
  | finished (users : UserMap)

/-- The loop of `ListUsers` over the keys of the stored certificates. -/
def listUsersLoop (lib : Lib) (env : Env) (pki : String) (crl : String) :
    List String → UserMap → State → LoopExit × State
  | [], users, s => (.finished users, s)
  | key :: rest, users, s =>
    let path := pki ++ "/cert/" ++ key
    match env.vaultRead s path with
    | .error err => (.returned (.error err), s.record (.vaultRead path))
    -- `secret.Data["certificate"].(string)` without a secret or without the string
    | .absent => (.returned .fault, s.record (.vaultRead path))
    | .ok rawCert =>
      let s1 := s.record (.vaultRead path)
      match lib.pemDecode rawCert with
      -- `return nil, err` with the nil `err` of the read above
      | none => (.returned (.ok []), s1)
      | some block =>
        match lib.ParseCertificate block.Bytes with
        | .error err => (.returned (.error err), s1)
        | .ok cert =>
          if cert.IsCA || isServerCertificate cert then
            -- Do not list the CA
            listUsersLoop lib env pki crl rest users s1
          else
            let notBefore := cert.NotBefore.Local
            let notAfter := cert.NotAfter.Local
            let serial := TrimSpace (getHexFormatted cert.SerialNumber.Bytes)
            match isRevoked lib serial crl with
            | .error err => (.returned (.error err), s1)
            | .ok revoked =>
              let username := (Split cert.Subject.CommonName '@').headD ""
              listUsersLoop lib env pki crl rest
                (users.append username
                  { SerialNumber := serial
                    IssuerCN := cert.Issuer.CommonName
                    SubjectCN := cert.Subject.CommonName
                    NotBefore := notBefore
                    NotAfter := notAfter
                    Revoked := revoked
                    CertificatePEM := rawCert })
                s1

/-- The closure that `ListUsers` hands to `sort.Slice`,
`crts[i].NotBefore.Before(crts[j].NotBefore)`, as a function of the elements at
`i` and `j`. -/
def ListUsers.less (ci cj : Certificate) : Bool :=
  ci.NotBefore.Before cj.NotBefore

/-- ListUsers retrieves the list of all Client VPN users and certificates. -/
def ListUsers (lib : Lib) (env : Env) (r : ListUsersRequest) (s : State) :
    Result UserMap × State :=
  let path := r.VaultPKIPath ++ "/certs"
  match env.vaultList s path with
  | .error err => (.error err, s.record (.vaultList path))
  | .absent =>
    -- Get the updated CRL
    match GetCRL env r.VaultPKIPath (s.record (.vaultList path)) with
    | (.error err, s1) => (.error err, s1)
    -- `secret.Data["keys"].([]any)` without a secret or without the keys
    | (.ok _, s1) => (.fault, s1)
  | .ok keys =>
    -- Get the updated CRL
    match GetCRL env r.VaultPKIPath (s.record (.vaultList path)) with
    | (.error err, s1) => (.error err, s1)
    | (.ok crl, s1) =>
      match listUsersLoop lib env r.VaultPKIPath crl keys [] s1 with
      | (.returned result, s2) => (result, s2)
      | (.finished users, s2) =>
        -- Sort the arrays by notBefore date
        (.ok (users.map fun kv => (kv.1, lib.sortSlice ListUsers.less kv.2)), s2)

/-! ## `crl.go`: UpdateCRL, RotateCRL -/

/-- The call `ExportClientVpnClientCertificateRevocationList`: the
`CertificateRevocationList` field of its output is the CRL the endpoint has
imported, nil when it has none. -/
def awsExport (env : Env) (endpoint : String) (s : State) :
    Except Error (Option String) × State :=
  match env.awsExport s endpoint with
  | some err => (.error err, s.record (.awsExport endpoint))
  | none => (.ok s.gateway, s.record (.awsExport endpoint))

/-- The call `ImportClientVpnClientCertificateRevocationList`: on success the
endpoint holds `crl`. -/
def awsImport (env : Env) (endpoint : String) (crl : String) (s : State) :
    Option Error × State :=
  match env.awsImport s endpoint crl with
  | some err => (some err, s.record (.awsImport endpoint crl))
  | none => (none, { s.record (.awsImport endpoint crl) with gateway := some crl })

/-- UpdateCRLRequest is the structure containing the required data to update the
CRL (the client is the `Env`). -/
structure UpdateCRLRequest where
  VaultPKIPath : String
  ClientVPNEndpointID : String
  deriving DecidableEq, Repr

/-- The loop of `UpdateCRL` over the users, in the order the map is ranged over. -/
def updateCRLLoop (env : Env) (pki : String) : UserMap → State → Option Error × State
  | [], s => (none, s)
  | (_, crts) :: rest, s =>
    match revokeUserCertificates env pki crts false s with
    | (some err, s') => (some err, s')
    | (none, s') => updateCRLLoop env pki rest s'

/-- The order in which `range` visits the entries of a map: some permutation of
the entries. -/
def RangeOrder (order : UserMap → UserMap) : Prop :=
  ∀ users : UserMap, (order users).Perm users

/-- UpdateCRL maintains the CRL to keep just one active certificate per VPN user:
the one emitted at a later date.  `order` is the order in which the map of users
is ranged over. -/
def UpdateCRL (lib : Lib) (order : UserMap → UserMap) (env : Env) (r : UpdateCRLRequest)
    (s : State) : Result String × State :=
  -- Get the list of users
  match ListUsers lib env
      { VaultPKIPath := r.VaultPKIPath, ClientVPNEndpointID := r.ClientVPNEndpointID } s with
  | (.error err, s1) => (.error err, s1)
  | (.fault, s1) => (.fault, s1)
  | (.ok users, s1) =>
    -- For each user, get the list of certificates, and revoke all of them but the latest
    match updateCRLLoop env r.VaultPKIPath (order users) s1 with
    | (some err, s2) => (.error err, s2)
    | (none, s2) =>
      -- Get the updated CRL
      match GetCRL env r.VaultPKIPath s2 with
      | (.error err, s3) => (.error err, s3)
      | (.ok crl, s3) =>
        -- Upload new CRL to AWS Client VPN endpoint
        match env.awsLoadConfig s3 with
        | some err => (.error err, s3.record .awsLoadConfig)
        | none =>
          match awsExport env r.ClientVPNEndpointID (s3.record .awsLoadConfig) with
          | (.error err, s4) => (.error err, s4)
          | (.ok (some current), s4) =>
            if current ≠ crl then
              -- CRL needs update
              match awsImport env r.ClientVPNEndpointID crl s4 with
              | (some err, s5) => (.error err, s5)
              | (none, s5) => (.ok crl, s5)
            else (.ok crl, s4)
          | (.ok none, s4) =>
            -- CRL first time import
            match awsImport env r.ClientVPNEndpointID crl s4 with
            | (some err, s5) => (.error err, s5)
            | (none, s5) => (.ok crl, s5)

/-- RotateCRLRequest is the structure containing the required data to rotate the
Client Revocation List. -/
structure RotateCRLRequest where
  VaultPKIPath : String
  ClientVPNEndpointID : String
  deriving DecidableEq, Repr

/-- The function `RotateCRL`: ask the backend to rotate its CRL, then update. -/
def RotateCRL (lib : Lib) (order : UserMap → UserMap) (env : Env) (r : RotateCRLRequest)
    (s : State) : Result String × State :=
  let path := "/" ++ r.VaultPKIPath ++ "/crl/rotate"
  match env.vaultReadRaw s path with
  | .error err => (.error err, s.record (.vaultReadRaw path))
  | .ok _ =>
    UpdateCRL lib order env
      { VaultPKIPath := r.VaultPKIPath, ClientVPNEndpointID := r.ClientVPNEndpointID }
      (s.record (.vaultReadRaw path))

/-! ## `users.go`: RevokeUser -/

/-- RevokeUserRequest is the structure containing the required data to revoke a
user. -/
structure RevokeUserRequest where
  VaultPKIPath : String
  Username : String
  ClientVPNEndpointID : String
  deriving DecidableEq, Repr

/-- RevokeUser revokes all the issued certificates for a given user. -/
def RevokeUser (lib : Lib) (order : UserMap → UserMap) (env : Env) (r : RevokeUserRequest)
    (s : State) : Result Unit × State :=
  -- Get the list of users
  match ListUsers lib env
      { VaultPKIPath := r.VaultPKIPath, ClientVPNEndpointID := r.ClientVPNEndpointID } s with
  | (.error err, s1) => (.error err, s1)
  | (.fault, s1) => (.fault, s1)
  | (.ok users, s1) =>
    match revokeUserCertificates env r.VaultPKIPath (users.get r.Username) true s1 with
    | (some err, s2) => (.error err, s2)
    | (none, s2) =>
      -- Call UpdateCRL to revoke all other certificates
      match UpdateCRL lib order env
          { VaultPKIPath := r.VaultPKIPath, ClientVPNEndpointID := r.ClientVPNEndpointID } s2 with
      | (.error err, s3) => (.error err, s3)
      | (.fault, s3) => (.fault, s3)
      | (.ok _, s3) => (.ok (), s3)

/-! ## `certificates.go`: IssueClientCertificate -/

/-- IssueCertificateRequest is the structure containing the required data to
issue a new certificate (the client is the `Env`).  The declaration in
`certificates.go` has no field `VaultKVConfigKey`; it is listed here because
`issueClientCertificateHandler` sets it, to the option `vault-kv-config-key`
(`server.go`, line 273), when it builds the request. -/
structure IssueCertificateRequest where
  VaultPKIPaths : List String
  Username : String
  VaultPKIRole : String
  ClientVPNEndpointID : String
  VaultKVPath : String
  VaultKVConfigKey : String
  CfgTplPath : String
  deriving DecidableEq, Repr

/-- The struct passed to the `config.ovpn.tpl` template. -/
structure TemplateData where
  DNSName : String
  Username : String
  CA : String
  Certificate : String
  PrivateKey : String
  deriving DecidableEq, Repr

/-- The template library and the file it reads: `ParseFiles path` is
`template.New(path.Base(path)).ParseFiles(path)`, a parsed template being kept as
a `String`, and `Execute tpl data` is the text `tpl.Execute` writes. -/
structure TemplateLib where
  ParseFiles : String → Except Error String
  Execute : String → TemplateData → Except Error String

/-- How a block of statements ends: it goes on with a value, it makes the
function return an error, or it faults (index out of range, failed type
assertion). -/
inductive StepResult (α : Type) where
  | ok (a : α)
  | failed (err : Error)
  | fault
  deriving DecidableEq, Repr

/-- What `IssueClientCertificate` does: it returns a text and an error (nil when
`none`), or it faults. -/
inductive IssueResult where
  | returned (config : String) (err : Option Error)
  | fault
  deriving DecidableEq, Repr

/-- The function `strings.SplitN(s, sep, 2)` for a one-character separator: `s`
split at the first `sep`, if any. -/
def SplitN2 (s : String) (sep : Char) : List String :=
  match s.data.dropWhile (fun c => decide (c ≠ sep)) with
  | [] => [s]
  | _ :: rest => [String.mk (s.data.takeWhile fun c => decide (c ≠ sep)), String.mk rest]

/-- The call `DescribeClientVpnEndpoints`: the DNS names of the endpoints found. -/
def awsDescribe (env : Env) (endpoint : String) (s : State) :
    Except Error (List String) × State :=
  (env.awsDescribe s endpoint, s.record (.awsDescribe endpoint))

/-- Issue a new certificate: the write to `{pki}/issue/{role}` on the last PKI
path; the result is the certificate and the private key of the response. -/
def issueCertificate (env : Env) (r : IssueCertificateRequest) (s : State) :
    StepResult (String × String) × State :=
  match r.VaultPKIPaths.getLast? with
  | none => (.fault, s)
  | some pki =>
    match vaultWrite env (pki ++ "/issue/" ++ r.VaultPKIRole)
        [("common_name", .str r.Username)] s with
    | (.error err, s1) => (.failed err, s1)
    | (.ok crt, s1) =>
      match crt.lookup "certificate", crt.lookup "private_key" with
      | some certificate, some privateKey => (.ok (certificate, privateKey), s1)
      | _, _ => (.fault, s1)

/-- The loop over the PKI paths that reads the CA certificate of each. -/
def fetchCAChainLoop (env : Env) : List String → List String → State →
    StepResult (List String) × State
  | [], caCerts, s => (.ok caCerts, s)
  | path :: rest, caCerts, s =>
    match env.vaultReadRaw s ("/" ++ path ++ "/ca/pem") with
    | .error err => (.failed err, s.record (.vaultReadRaw ("/" ++ path ++ "/ca/pem")))
    | .ok (_, some err) => (.failed err, s.record (.vaultReadRaw ("/" ++ path ++ "/ca/pem")))
    | .ok (ca, none) =>
      fetchCAChainLoop env rest (caCerts ++ [ca])
        (s.record (.vaultReadRaw ("/" ++ path ++ "/ca/pem")))

/-- Get the full CA chain of certificates from Vault, joined by newlines. -/
def fetchCAChain (env : Env) (r : IssueCertificateRequest) (s : State) :
    StepResult String × State :=
  match fetchCAChainLoop env r.VaultPKIPaths [] s with
  | (.ok caCerts, s1) => (.ok (String.intercalate "\n" caCerts), s1)
  | (.failed err, s1) => (.failed err, s1)
  | (.fault, s1) => (.fault, s1)

/-- Get the DNS name of the VPN from the EC2 API and strip its first label. -/
def resolveDNSName (env : Env) (r : IssueCertificateRequest) (s : State) :
    StepResult String × State :=
  match env.awsLoadConfig s with
  | some err => (.failed err, s.record .awsLoadConfig)
  | none =>
    match awsDescribe env r.ClientVPNEndpointID (s.record .awsLoadConfig) with
    | (.error err, s1) => (.failed err, s1)
    | (.ok endpoints, s1) =>
      match endpoints.head? with
      | none => (.fault, s1)
      | some dnsName =>
        match (SplitN2 dnsName '.').get? 1 with
        | none => (.fault, s1)
        | some name => (.ok name, s1)

/-- Resolve the `config.ovpn.tpl` template. -/
def renderConfig (tl : TemplateLib) (r : IssueCertificateRequest) (data : TemplateData) :
    StepResult String :=
  match tl.ParseFiles r.CfgTplPath with
  | .error err => .failed err
  | .ok tpl =>
    match tl.Execute tpl data with
    | .error err => .failed err
    | .ok config => .ok config

/-- Create or update the VPN config in the kv store.  The payload is the map of
the issue request with the key `data` added. -/
def persistConfig (env : Env) (r : IssueCertificateRequest) (config : String) (s : State) :
    StepResult Unit × State :=
  match vaultWrite env (r.VaultKVPath ++ "/data/users/" ++ r.Username ++ "/config.ovpn")
      [("common_name", .str r.Username), ("data", .map [("content", config)])] s with
  | (.error err, s1) => (.failed err, s1)
  | (.ok _, s1) => (.ok (), s1)

/-- IssueClientCertificate generates a new certificate for a given user, causing
the revocation of other certificates emitted for that same user. -/
def IssueClientCertificate (tl : TemplateLib) (lib : Lib) (order : UserMap → UserMap)
    (env : Env) (r : IssueCertificateRequest) (s : State) : IssueResult × State :=
  -- Issue a new certificate
  match issueCertificate env r s with
  | (.failed err, s1) => (.returned "" (some err), s1)
  | (.fault, s1) => (.fault, s1)
  | (.ok (certificate, privateKey), s1) =>
    -- Get the full CA chain of certificates from Vault
    match fetchCAChain env r s1 with
    | (.failed err, s2) => (.returned "" (some err), s2)
    | (.fault, s2) => (.fault, s2)
    | (.ok ca, s2) =>
      -- Get the VPN's DNS name from EC2 API
      match resolveDNSName env r s2 with
      | (.failed err, s3) => (.returned "" (some err), s3)
      | (.fault, s3) => (.fault, s3)
      | (.ok dnsName, s3) =>
        -- Resolve the config.ovpn.tpl template
        match renderConfig tl r
            { DNSName := dnsName, Username := r.Username, CA := ca,
              Certificate := certificate, PrivateKey := privateKey } with
        | .failed err => (.returned "" (some err), s3)
        | .fault => (.fault, s3)
        | .ok config =>
          -- create/update the vpn config in the kv store
          match persistConfig env r config s3 with
          | (.failed err, s4) => (.returned "" (some err), s4)
          | (.fault, s4) => (.fault, s4)
          | (.ok _, s4) =>
            -- Call UpdateCRL to revoke all other certificates
            match UpdateCRL lib order env
                { VaultPKIPath := r.VaultPKIPaths.getLastD "",
                  ClientVPNEndpointID := r.ClientVPNEndpointID } s4 with
            | (.error err, s5) => (.returned "" (some err), s5)
            | (.fault, s5) => (.fault, s5)
            | (.ok _, s5) => (.returned config none, s5)

/-! ## `vault/client.go`: the approle login loop -/

/-- The part of `api.SecretAuth` that the loop reads. -/
structure SecretAuth where
  Renewable : Bool
  deriving DecidableEq, Repr

/-- The part of `api.Secret` that the loop reads; `Auth` is a pointer, nil when
`none`. -/
structure Secret where
  Auth : Option SecretAuth
  deriving DecidableEq, Repr

/-- What a lifetime watcher sends: a value on `DoneCh` (an error, nil when
`none`) or a renewal on `RenewCh`. -/
inductive WatcherEvent where
  | done (err : Option Error)
  | renew
  deriving DecidableEq, Repr

/-- The Vault server as the login loop sees it during one iteration.  `Login` is
the pair `(authInfo, err)` of `client.Auth().Login`, and a lifetime watcher is the
sequence of events it sends; after the last one it sends nothing more. -/
structure AuthBackend where
  NewAppRoleAuth : Option Error
  Login : Option Secret × Option Error
  NewLifetimeWatcher : Secret → Except Error (List WatcherEvent)

/-- A line written by the logger. -/
inductive LogLine where
  | error (err : Option Error) (msg : String)
  | info (msg : String)
  deriving DecidableEq, Repr

/-- How a call ends: it returns, it faults (nil dereference), or it waits for
ever. -/
inductive Ending (α : Type) where
  | returned (a : α)
  | fault
  | blocked
  deriving DecidableEq, Repr

/-- The method `login`: request a new token using the approle auth backend. -/
def login (b : AuthBackend) : (Option Secret × Option Error) × List LogLine :=
  match b.NewAppRoleAuth with
  | some err => ((none, some ("unable to initialize AppRole auth method: " ++ err)), [])
  | none =>
    match b.Login with
    | (_, some err) => ((none, some ("unable to login to AppRole auth method: " ++ err)), [])
    | (none, none) => ((none, some "no auth info was returned after login"), [])
    | (some authInfo, none) =>
      ((some authInfo, none), [.info "Successfully logged into Vault using AppRole auth"])

/-- The `for`/`select` loop of `manageTokenLifecycle` over the events of the
watcher (the log line of a renewal is kept without the printed renewal). -/
def watchLoop : List WatcherEvent → Ending (Option Error) × List LogLine
  | [] => (.blocked, [])
  | .done (some err) :: _ =>
    (.returned none, [.error (some err) "failed to renew token, re-attempting login"])
  | .done none :: _ =>
    (.returned none, [.info "token can no longer be renewed, re-attempting login"])
  | .renew :: rest =>
    let (res, logs) := watchLoop rest
    (res, .info "Successfully renewed" :: logs)

/-- The method `manageTokenLifecycle` starts token lifecycle management.  It
returns only fatal errors as errors, otherwise nil so that login is attempted
again.  Its first statement reads `token.Auth.Renewable`. -/
def manageTokenLifecycle (b : AuthBackend) (token : Option Secret) :
    Ending (Option Error) × List LogLine :=
  match token with
  | none => (.fault, [])
  | some secret =>
    match secret.Auth with
    | none => (.fault, [])
    | some auth =>
      if !auth.Renewable then
        (.returned none, [.info "Token is not configured to be renewable. Re-attempting login."])
      else
        match b.NewLifetimeWatcher secret with
        | .error err =>
          (.returned (some
            ("unable to initialize new lifetime watcher for renewing auth token: " ++ err)), [])
        | .ok events => watchLoop events

/-- One iteration of the loop that `GetClient` starts: `returned ()` means the
iteration is over and the loop goes on with the next login. -/
def loginLoopIteration (b : AuthBackend) : Ending Unit × List LogLine :=
  match login b with
  | ((vaultLoginResp, err), logs1) =>
    let logs2 : List LogLine :=
      match err with
      | some e => [.error (some e) "unable to authenticate to Vault"]
      | none => []
    match manageTokenLifecycle b vaultLoginResp with
    | (.fault, logs3) => (.fault, logs1 ++ logs2 ++ logs3)
    | (.blocked, logs3) => (.blocked, logs1 ++ logs2 ++ logs3)
    | (.returned tokenErr, logs3) =>
      let logs4 : List LogLine :=
        match tokenErr with
        | some e => [.error (some e) "unable to start managing token lifecycle"]
        | none => []
      (.returned (), logs1 ++ logs2 ++ logs3 ++ logs4)

/-- The loop that `GetClient` starts, given the server as seen by each of the
coming iterations: the number of logins attempted, how the loop ends (`returned`
when all the given iterations are over and the loop goes on), and the log. -/
def loginLoop : List AuthBackend → Nat × Ending Unit × List LogLine
  | [] => (0, .returned (), [])
  | b :: rest =>
    match loginLoopIteration b with
    | (.returned _, logs) =>
      let (n, res, logs2) := loginLoop rest
      (n + 1, res, logs ++ logs2)
    | (.fault, logs) => (1, .fault, logs)
    | (.blocked, logs) => (1, .blocked, logs)

/-! ## `server.go`: routes, authMiddleware, reportHttpError -/

/-- The part of an `http.Request` that the middleware and the router read; the
header `Authorization` is `""` when absent. -/
structure Request where
  Method : String
  Path : String
  Authorization : String
  deriving DecidableEq, Repr

/-- The options read through viper by the middleware; `viper.IsSet` holds of an
option when it is `some`. -/
structure Config where
  authGithubOrg : Option String
  authGithubUsers : Option (List String)
  authGithubTeams : Option (List String)
  deriving DecidableEq, Repr

/-- The struct `githubAuthOpts` configures the GitHub auth backend. -/
structure githubAuthOpts where
  Token : String
  Organization : String
  AllowedUsers : List String
  AllowedTeams : List String
  deriving DecidableEq, Repr

/-- A response written with `http.Error`: the status code and the map whose
`jsonOutput` is the body. -/
structure HttpResponse where
  statusCode : Nat
  rsp : List (String × String)
  deriving DecidableEq, Repr

/-- The handlers registered on the router, with the value of `{user}`. -/
inductive Handler where
  | getCRLHandler
  | updateCRLHandler
  | rotateCRLHandler
  | issueClientCertificateHandler (user : String)
  | revokeUserHandler (user : String)
  | listUsersHandler
  | healthzHandler
  | readyzHandler
  deriving DecidableEq, Repr

/-- The value of the variable of a route template `{pfx}{user}`, a variable
matching one or more characters other than `/`. -/
def pathVar (pfx : String) (path : String) : Option String :=
  if pfx.data.isPrefixOf path.data then
    let v := path.data.drop pfx.data.length
    if v ≠ [] ∧ '/' ∉ v then some (String.mk v) else none
  else none

/-- The router built in `start`: the first registered route that matches the
path and the method. -/
def route (r : Request) : Option Handler :=
  if r.Path = "/crl" ∧ r.Method = "GET" then some .getCRLHandler
  else if r.Path = "/crl" ∧ r.Method = "POST" then some .updateCRLHandler
  else if r.Path = "/crl/rotate" ∧ r.Method = "POST" then some .rotateCRLHandler
  else if (pathVar "/issue/" r.Path).isSome ∧ r.Method = "POST" then
    (pathVar "/issue/" r.Path).map .issueClientCertificateHandler
  else if (pathVar "/revoke/" r.Path).isSome ∧ r.Method = "POST" then
    (pathVar "/revoke/" r.Path).map .revokeUserHandler
  else if r.Path = "/users" ∧ r.Method = "GET" then some .listUsersHandler
  else if r.Path = "/healthz" ∧ r.Method = "GET" then some .healthzHandler
  else if r.Path = "/readyz" ∧ r.Method = "GET" then some .readyzHandler
  else none

/-- The pattern `(.*)z$` matched at the start of `text`: characters other than
newline, then `z`, then the end of the text. -/
def matchDotStarZ : List Char → Bool
  | [] => false
  | c :: rest => (c == 'z' && rest.isEmpty) || (c != '\n' && matchDotStarZ rest)

/-- The test `regexp.MatchString("(.*)z$", path)`: the pattern matches at some
position of the path. -/
def zEndpoint (path : String) : Bool :=
  path.data.tails.any matchDotStarZ

/-- The assignment `rsp[k] = v` on a map. -/
def setKey (rsp : List (String × String)) (k v : String) : List (String × String) :=
  match rsp with
  | [] => [(k, v)]
  | (k0, v0) :: rest => if k0 = k then (k, v) :: rest else (k0, v0) :: setKey rest k v

/-- The loop of `reportHttpError` over `keys`, from index `i` on (`ks` is
`keys[i:]`); `none` when `keys[i+1]` is out of range. -/
def reportHttpErrorLoop (keys : List String) :
    Nat → List String → List (String × String) → Option (List (String × String))
  | _, [], rsp => some rsp
  | i, k :: ks, rsp =>
    if i % 2 ≠ 0 then
      match keys.get? (i + 1) with
      | none => none
      | some v => reportHttpErrorLoop keys (i + 1) ks (setKey rsp k v)
    else reportHttpErrorLoop keys (i + 1) ks rsp

/-- The function `reportHttpError`: answer with `statusCode` and a JSON object
holding `msg`, the text of `err` and the extra keys.  It faults on an odd number
of keys, on a nil `err` (the call `err.Error()`), and on an index out of range. -/
def reportHttpError (msg : String) (err : Option Error) (statusCode : Nat)
    (keys : List String) : Ending HttpResponse :=
  if keys.length % 2 ≠ 0 then .fault
  else
    match err with
    | none => .fault
    | some e =>
      match reportHttpErrorLoop keys 0 keys [("msg", msg), ("error", e)] with
      | none => .fault
      | some rsp => .returned ⟨statusCode, rsp⟩

/-- What the middleware does with a request: it hands it to the next handler, it
answers it itself, or it faults. -/
inductive Served where
  | next
  | answered (response : HttpResponse)
  | fault
  deriving DecidableEq, Repr

/-- The answer of the middleware through `reportHttpError`. -/
def Served.report (res : Ending HttpResponse) : Served :=
  match res with
  | .returned response => .answered response
  | _ => .fault

/-- The function `authMiddleware`, with `githubAuth` (which talks to the GitHub
API) as a parameter; the result comes with the calls made to `githubAuth`. -/
def authMiddleware (cfg : Config) (githubAuth : githubAuthOpts → Option Error)
    (r : Request) : Served × List githubAuthOpts :=
  -- Check if this is a z endpoint (ie /healthz) in which case auth should be not enforced
  if !zEndpoint r.Path && cfg.authGithubOrg.isSome then
    let token : Option String :=
      if r.Authorization ≠ "" then
        -- Header should be: "Authorization: Bearer <token>"
        let h := Split r.Authorization ' '
        if h.length = 2 ∧ h.get? 0 = some "Bearer" then h.get? 1 else none
      else some ""
    match token with
    | none => (Served.report (reportHttpError "unauthenticated" none 401 []), [])
    | some token =>
      let gh : githubAuthOpts :=
        { Organization := cfg.authGithubOrg.getD ""
          Token := token
          AllowedUsers := cfg.authGithubUsers.getD []
          AllowedTeams := cfg.authGithubTeams.getD [] }
      match githubAuth gh with
      | some err => (Served.report (reportHttpError "unauthenticated" (some err) 401 []), [gh])
      | none => (.next, [gh])
  else (.next, [])

/-- The handler that serves a request, if any: the middleware first, then the
router. -/
def servedBy (cfg : Config) (githubAuth : githubAuthOpts → Option Error) (r : Request) :
    Option Handler :=
  match (authMiddleware cfg githubAuth r).1 with
  | .next => route r
  | _ => none

/-- The function `healthzHandler`: `getClient` is the error of `vc.GetClient`
(nil when `none`) and `vaultPKIPaths` the option `vault-pki-paths`.  A healthy
server answers 200 with `status: ok`. -/
def healthzHandler (lib : Lib) (env : Env) (getClient : Option Error)
    (vaultPKIPaths : List String) (s : State) : Ending HttpResponse × State :=
  match getClient with
  | some err => (reportHttpError "/healthz failed" (some err) 500 ["status", "ko"], s)
  | none =>
    -- Try to do a ListUsers to check health
    match vaultPKIPaths.getLast? with
    | none => (.fault, s)
    | some pki =>
      match ListUsers lib env { VaultPKIPath := pki, ClientVPNEndpointID := "" } s with
      | (.error err, s1) =>
        (reportHttpError "/healthz failed" (some err) 500 ["status", "ko"], s1)
      | (.fault, s1) => (.fault, s1)
      | (.ok _, s1) => (.returned ⟨200, [("status", "ok")]⟩, s1)

/-! ## Specification vocabulary -/

/-- The revoke call issued for `crt`: a write to `{pki}/revoke` keyed by the
serial number. -/
def revokeCall (pki : String) (crt : Certificate) : Call :=
  .vaultWrite (pki ++ "/revoke") [("serial_number", .str crt.SerialNumber)]

/-- The state after one successful revoke call for `crt`. -/
def revokedOk (pki : String) (s : State) (crt : Certificate) : State :=
  { s with trace := s.trace ++ [revokeCall pki crt], revoked := s.revoked ++ [crt.SerialNumber] }

/-- The state after successful revoke calls for `crts`, in order. -/
def afterRevokes (pki : String) (s : State) (crts : List Certificate) : State :=
  crts.foldl (revokedOk pki) s

/-- The certificates a run of `revokeUserCertificates` has to revoke: those not
yet revoked, the last position left out unless `revokeAll`. -/
def toRevoke (crts : List Certificate) (revokeAll : Bool) : List Certificate :=
  (if revokeAll then crts else crts.dropLast).filter fun c => !c.Revoked

/-- Revoke calls for `crts` in order, stopping at the first that fails. -/
def runRevokes (env : Env) (pki : String) : List Certificate → State → Option Error × State
  | [], s => (none, s)
  | crt :: rest, s =>
    match vaultWrite env (pki ++ "/revoke") (revokePayload crt) s with
    | (.error err, s') => (some err, s')
    | (.ok _, s') => runRevokes env pki rest s'

/-- The certificates `crts` with the `Revoked` flag read again from the revoked
set of the backend in state `s`. -/
def refresh (s : State) (crts : List Certificate) : List Certificate :=
  crts.map fun c => { c with Revoked := decide (c.SerialNumber ∈ s.revoked) }

/-- The serial numbers of the revoke calls in a trace, in order. -/
def revokeCalls : List Call → List String
  | [] => []
  | .vaultWrite path payload :: rest =>
    if isRevokePath path then
      match payload.lookup "serial_number" with
      | some (.str serial) => serial :: revokeCalls rest
      | _ => revokeCalls rest
    else revokeCalls rest
  | _ :: rest => revokeCalls rest

/-- The CRLs of the import calls in a trace, in order. -/
def importCalls : List Call → List String
  | [] => []
  | .awsImport _ crl :: rest => crl :: importCalls rest
  | _ :: rest => importCalls rest

/-- A step of the program that leaves the backend and the gateway as they are:
same revoked set, same gateway CRL, no revoke call and no import call added. -/
def Quiet (s s' : State) : Prop :=
  s'.revoked = s.revoked ∧ s'.gateway = s.gateway ∧
  importCalls s'.trace = importCalls s.trace ∧ revokeCalls s'.trace = revokeCalls s.trace

/-- A step of the program that may revoke but does not touch the gateway: the
revoked set only grows, the gateway CRL is the same and no import call is added. -/
def Grow (s s' : State) : Prop :=
  (∀ x ∈ s.revoked, x ∈ s'.revoked) ∧ s'.gateway = s.gateway ∧
  importCalls s'.trace = importCalls s.trace

/-- The `Certificate` that `ListUsers` builds from a stored certificate `rawCert`
parsed as `cert`, with the given revocation flag. -/
def certificateOf (rawCert : String) (cert : X509Certificate) (revoked : Bool) : Certificate :=
  { SerialNumber := TrimSpace (getHexFormatted cert.SerialNumber.Bytes)
    IssuerCN := cert.Issuer.CommonName
    SubjectCN := cert.Subject.CommonName
    NotBefore := cert.NotBefore.Local
    NotAfter := cert.NotAfter.Local
    Revoked := revoked
    CertificatePEM := rawCert }

/-- The username `ListUsers` files a certificate under. -/
def usernameOf (cert : X509Certificate) : String :=
  (Split cert.Subject.CommonName '@').headD ""

/-- The entries `(username, certificate)` that the loop of `ListUsers` appends to
the map, in key order, for as long as reading, decoding and parsing succeed. -/
def appended (lib : Lib) (env : Env) (pki : String) (crl : String) :
    List String → State → List (String × Certificate)
  | [], _ => []
  | key :: rest, s =>
    match env.vaultRead s (pki ++ "/cert/" ++ key) with
    | .error _ => []
    | .absent => []
    | .ok rawCert =>
      match lib.pemDecode rawCert with
      | none => []
      | some block =>
        match lib.ParseCertificate block.Bytes with
        | .error _ => []
        | .ok cert =>
          if cert.IsCA || isServerCertificate cert then
            appended lib env pki crl rest (s.record (.vaultRead (pki ++ "/cert/" ++ key)))
          else
            match isRevoked lib (TrimSpace (getHexFormatted cert.SerialNumber.Bytes)) crl with
            | .error _ => []
            | .ok revoked =>
              (usernameOf cert, certificateOf rawCert cert revoked) ::
                appended lib env pki crl rest (s.record (.vaultRead (pki ++ "/cert/" ++ key)))

/-- The certificates appended for the user `u`, in key order. -/
def appendedFor (entries : List (String × Certificate)) (u : String) : List Certificate :=
  (entries.filter fun p => p.1 = u).map (·.2)

/-- The map built by appending the entries one after the other. -/
def buildMap (entries : List (String × Certificate)) (users : UserMap) : UserMap :=
  entries.foldl (fun m p => m.append p.1 p.2) users

/-- The entries `ListUsers` appends when started in state `s`: those of the keys
listed, with the CRL fetched right after the listing. -/
def catalogEntries (lib : Lib) (env : Env) (r : ListUsersRequest) (s : State) :
    List (String × Certificate) :=
  match env.vaultList s (r.VaultPKIPath ++ "/certs") with
  | .error _ => []
  | .absent => []
  | .ok keys =>
    match GetCRL env r.VaultPKIPath (s.record (.vaultList (r.VaultPKIPath ++ "/certs"))) with
    | (.error _, _) => []
    | (.ok crl, s1) => appended lib env r.VaultPKIPath crl keys s1

/-- The backend as the set of its revoked serial numbers, read side: in every
state, the CRL it serves for `pki` lists only serial numbers of the revoked set. -/
def CRLSound (lib : Lib) (env : Env) (pki : String) : Prop :=
  ∀ (st : State) (raw : String) (rerr : Option Error),
    env.vaultReadRaw st ("/" ++ pki ++ "/crl/pem") = .ok (raw, rerr) →
    ∀ serial, isRevoked lib serial raw = .ok true → serial ∈ st.revoked

/-- The contract of `sort.Slice` at the closure of `ListUsers`: the result is a
permutation of the input in which no element is `Before` an earlier one.  The
sort is not stable, so nothing is said about elements with equal `NotBefore`. -/
def Lib.SortContract (lib : Lib) : Prop :=
  ∀ crts : List Certificate,
    (lib.sortSlice ListUsers.less crts).Perm crts ∧
    (lib.sortSlice ListUsers.less crts).Pairwise
      (fun a b => b.NotBefore.Before a.NotBefore = false)

/-- The library sort looks at the certificates only through `less`, that is
through `NotBefore`: it commutes with every change of the certificates that keeps
`NotBefore`. -/
def Lib.SortByKey (lib : Lib) : Prop :=
  ∀ (f : Certificate → Certificate) (crts : List Certificate),
    (∀ c, (f c).NotBefore = c.NotBefore) →
    lib.sortSlice ListUsers.less (crts.map f) = (lib.sortSlice ListUsers.less crts).map f

/-- The certificate `c` with the flag `isRevoked` computes from the CRL `crl`. -/
def reflag (lib : Lib) (crl : String) (c : Certificate) : Certificate :=
  { c with
    Revoked :=
      match isRevoked lib c.SerialNumber crl with
      | .ok revoked => revoked
      | .error _ => false }

/-- The DER bytes that `isRevoked` hands to `x509.ParseRevocationList`: those of
the PEM block of the CRL when it decodes to a block of type `X509 CRL`, none
otherwise. -/
def crlDER (lib : Lib) (crlPEM : String) : List Byte :=
  match lib.pemDecode crlPEM with
  | some block => if block.Type_ = "X509 CRL" then block.Bytes else []
  | none => []

/-- The text `getHexFormatted` writes after the first byte: for every further
byte a `-` and its two digits. -/
def hexTail : List Byte → List Char
  | [] => []
  | c :: cs => '-' :: hexDigit (c.val / 16) :: hexDigit (c.val % 16) :: hexTail cs

/-- Serial numbers are unique, as far as the newest certificates go: the newest
(last) certificate of a user shares its serial number with no older (non-last)
certificate of any user and with no certificate of another user. -/
def NewestSerialUnique (users : UserMap) : Prop :=
  ∀ p ∈ users, ∀ l, p.2.getLast? = some l → ∀ q ∈ users,
    (∀ c ∈ q.2.dropLast, c.SerialNumber ≠ l.SerialNumber) ∧
    (q.1 ≠ p.1 → ∀ c ∈ q.2, c.SerialNumber ≠ l.SerialNumber)

/-- The configuration documents written by the calls of a trace: the path and the
`content` of every write whose payload has a `data` map with that key. -/
def configWrites : List Call → List (String × String)
  | [] => []
  | .vaultWrite path payload :: rest =>
    match payload.lookup "data" with
    | some (.map m) =>
      match m.lookup "content" with
      | some content => (path, content) :: configWrites rest
      | none => configWrites rest
    | _ => configWrites rest
  | _ :: rest => configWrites rest

/-- The key the caller asks for: `{kv}/data/users/{username}/{configKey}`. -/
def configuredKey (r : IssueCertificateRequest) : String :=
  r.VaultKVPath ++ "/data/users/" ++ r.Username ++ "/" ++ r.VaultKVConfigKey

/-- The calls that read the CA certificates of the given PKI paths. -/
def caReads (paths : List String) : List Call :=
  paths.map fun path => .vaultReadRaw ("/" ++ path ++ "/ca/pem")

/-- The call that issues the certificate of a request. -/
def issueCall (r : IssueCertificateRequest) : Call :=
  .vaultWrite (r.VaultPKIPaths.getLastD "" ++ "/issue/" ++ r.VaultPKIRole)
    [("common_name", .str r.Username)]

/-- The call that persists the rendered configuration `config` of a request. -/
def persistCall (r : IssueCertificateRequest) (config : String) : Call :=
  .vaultWrite (r.VaultKVPath ++ "/data/users/" ++ r.Username ++ "/config.ovpn")
    [("common_name", .str r.Username), ("data", .map [("content", config)])]

/-- The header has the form `Bearer <token>`: exactly two fields separated by one
space, the first being `Bearer`. -/
def bearerForm (authorization : String) : Prop :=
  (Split authorization ' ').length = 2 ∧ (Split authorization ' ').get? 0 = some "Bearer"

instance (authorization : String) : Decidable (bearerForm authorization) := by
  unfold bearerForm
  infer_instance

/-- The state in which the loop of `ListUsers` starts when the function is
called in `s`: after the listing and the fetch of the CRL. -/
def loopStart (r : ListUsersRequest) (s : State) : State :=
  (s.record (.vaultList (r.VaultPKIPath ++ "/certs"))).record
    (.vaultReadRaw ("/" ++ r.VaultPKIPath ++ "/crl/pem"))

/-- The state after the entries `keys` have been read, one after the other. -/
def afterReads (pki : String) : List String → State → State
  | [], s => s
  | key :: rest, s => afterReads pki rest (s.record (.vaultRead (pki ++ "/cert/" ++ key)))

/-- The entry `key`, read in state `s`, is one that `ListUsers` leaves out: it
reads, decodes and parses as a CA or server-auth certificate. -/
def IsLeftOut (lib : Lib) (env : Env) (pki key : String) (s : State) : Prop :=
  ∃ raw block cert, env.vaultRead s (pki ++ "/cert/" ++ key) = .ok raw ∧
    lib.pemDecode raw = some block ∧ lib.ParseCertificate block.Bytes = .ok cert ∧
    (cert.IsCA || isServerCertificate cert) = true

/-- The entry `key`, read in state `s`, is a client certificate: it reads, decodes
and parses as a certificate that is neither a CA nor a server-auth certificate. -/
def IsClient (lib : Lib) (env : Env) (pki key : String) (s : State) : Prop :=
  ∃ raw block cert, env.vaultRead s (pki ++ "/cert/" ++ key) = .ok raw ∧
    lib.pemDecode raw = some block ∧ lib.ParseCertificate block.Bytes = .ok cert ∧
    (cert.IsCA || isServerCertificate cert) = false

/-- The entry `key`, read in state `s`, fails with `err`: the read returns `err`,
or the entry reads and decodes and its parse returns `err`. -/
def FailsWith (lib : Lib) (env : Env) (pki key : String) (s : State) (err : Error) : Prop :=
  env.vaultRead s (pki ++ "/cert/" ++ key) = .error err ∨
  ∃ raw block, env.vaultRead s (pki ++ "/cert/" ++ key) = .ok raw ∧
    lib.pemDecode raw = some block ∧ lib.ParseCertificate block.Bytes = .error err

/-- Each of the entries `keys`, read in turn from state `s`, is left out. -/
def AllLeftOut (lib : Lib) (env : Env) (pki : String) : List String → State → Prop
  | [], _ => True
  | key :: rest, s =>
    IsLeftOut lib env pki key s ∧
      AllLeftOut lib env pki rest (s.record (.vaultRead (pki ++ "/cert/" ++ key)))

/-! ## Sample data -/

/-- The state in which nothing has been called or revoked and the gateway has no
CRL. -/
def State.init : State := { trace := [], revoked := [], gateway := none }

/-- A certificate of alice with the given serial number, date and flag. -/
def aliceCrt (serial : String) (notBefore : Time) (revoked : Bool) : Certificate :=
  { SerialNumber := serial
    IssuerCN := "vpn-ca"
    SubjectCN := "alice@example.com"
    NotBefore := notBefore
    NotAfter := notBefore + 1000
    Revoked := revoked
    CertificatePEM := "" }

/-- A backend and gateway that answer every call successfully, with an empty
list of keys and an empty CRL document. -/
def okEnv : Env where
  vaultList := fun _ _ => .ok []
  vaultRead := fun _ _ => .ok ""
  vaultReadRaw := fun _ _ => .ok ("", none)
  vaultWrite := fun _ _ _ => .ok []
  awsLoadConfig := fun _ => none
  awsDescribe := fun _ _ => .ok []
  awsExport := fun _ _ => none
  awsImport := fun _ _ _ => none

/-- A backend that refuses to revoke the serial number `02`. -/
def failEnv : Env :=
  { okEnv with
    vaultWrite := fun _ _ payload =>
      if payload = [("serial_number", .str "02")] then .error "permission denied" else .ok [] }

/-- A parsed certificate of the sample library. -/
def demoCert (serial : Byte) (cn : String) (notBefore : Time) (isCA : Bool)
    (usage : List ExtKeyUsage) : X509Certificate :=
  { SerialNumber := ⟨[serial]⟩
    Issuer := ⟨"vpn-ca"⟩
    Subject := ⟨cn⟩
    NotBefore := notBefore
    NotAfter := notBefore + 1000
    IsCA := isCA
    ExtKeyUsage := usage }

/-- A small library: documents are decoded by table, a CRL is the byte 48
followed by one-byte serial numbers, and the sort is an insertion sort. -/
def demoLib : Lib where
  pemDecode := fun raw =>
    if raw = "alice-1" then some ⟨"CERTIFICATE", [1]⟩
    else if raw = "alice-2" then some ⟨"CERTIFICATE", [2]⟩
    else if raw = "alice-3" then some ⟨"CERTIFICATE", [3]⟩
    else if raw = "ca" then some ⟨"CERTIFICATE", [4]⟩
    else if raw = "server" then some ⟨"CERTIFICATE", [5]⟩
    else if raw = "crl:" then some ⟨"X509 CRL", [48]⟩
    else if raw = "crl:01-02" then some ⟨"X509 CRL", [48, 1, 2]⟩
    else none
  ParseCertificate := fun der =>
    if der = [1] then .ok (demoCert 1 "alice@example.com" 100 false [ExtKeyUsageClientAuth])
    else if der = [2] then .ok (demoCert 2 "alice@example.com" 200 false [ExtKeyUsageClientAuth])
    else if der = [3] then .ok (demoCert 3 "alice@example.com" 300 false [ExtKeyUsageClientAuth])
    else if der = [4] then .ok (demoCert 4 "vpn-ca" 50 true [])
    else if der = [5] then .ok (demoCert 5 "vpn.example.com" 60 false [ExtKeyUsageServerAuth])
    else .error "x509: malformed certificate"
  ParseRevocationList := fun der =>
    match der with
    | 48 :: serials => .ok ⟨serials.map fun b => ⟨⟨[b]⟩⟩⟩
    | _ => .error "x509: malformed certificate revocation list"
  sortSlice := fun less => List.insertionSort fun a b => less b a = false

/-- A backend that stores three certificates of alice (listed newest-but-one
first), the CA and a server certificate, serves a CRL listing `01` and `02` once
both are revoked and an empty CRL before, and accepts every call. -/
def demoEnv : Env where
  vaultList := fun _ _ => .ok ["02", "04", "03", "05", "01"]
  vaultRead := fun _ path =>
    if path = "pki/cert/01" then .ok "alice-1"
    else if path = "pki/cert/02" then .ok "alice-2"
    else if path = "pki/cert/03" then .ok "alice-3"
    else if path = "pki/cert/04" then .ok "ca"
    else if path = "pki/cert/05" then .ok "server"
    else .ok "garbage"
  vaultReadRaw := fun st _ =>
    if "01" ∈ st.revoked ∧ "02" ∈ st.revoked then .ok ("crl:01-02", none) else .ok ("crl:", none)
  vaultWrite := fun _ _ _ => .ok []
  awsLoadConfig := fun _ => none
  awsDescribe := fun _ _ => .ok []
  awsExport := fun _ _ => none
  awsImport := fun _ _ _ => none

/-- A backend that lists two entries: the first stores a client certificate of
alice, the second stores text that is not PEM. -/
def slipEnv : Env :=
  { demoEnv with vaultList := fun _ _ => .ok ["01", "06"] }

/-- The request of the samples. -/
def demoRequest : UpdateCRLRequest := { VaultPKIPath := "pki", ClientVPNEndpointID := "cvpn-1" }

/-- A backend that lists only the CA and a server certificate and serves, as its
CRL, text that is not PEM. -/
def badCrlEnv : Env :=
  { demoEnv with
    vaultList := fun _ _ => .ok ["04", "05"]
    vaultReadRaw := fun _ _ => .ok ("garbage", none) }

/-- A backend that lists no key and whose CRL response breaks off: the request
succeeds, reading the body fails after the bytes `crl:`. -/
def eofEnv : Env :=
  { okEnv with vaultReadRaw := fun _ _ => .ok ("crl:", some "unexpected EOF") }

/-- The sample library with one more document: a client certificate of bob. -/
def demoLib2 : Lib :=
  { demoLib with
    pemDecode := fun raw =>
      if raw = "bob-1" then some ⟨"CERTIFICATE", [7]⟩ else demoLib.pemDecode raw
    ParseCertificate := fun der =>
      if der = [7] then .ok (demoCert 7 "bob@example.com" 150 false [ExtKeyUsageClientAuth])
      else demoLib.ParseCertificate der }

/-- The sample backend with one more stored certificate, of bob. -/
def demoEnv2 : Env :=
  { demoEnv with
    vaultList := fun _ _ => .ok ["02", "07", "04", "03", "05", "01"]
    vaultRead := fun st path =>
      if path = "pki/cert/07" then .ok "bob-1" else demoEnv.vaultRead st path }

/-- The catalog of the second sample backend while nothing is revoked. -/
def demoCatalog2 : UserMap :=
  [("alice", [certificateOf "alice-1" (demoCert 1 "alice@example.com" 100 false [2]) false,
              certificateOf "alice-2" (demoCert 2 "alice@example.com" 200 false [2]) false,
              certificateOf "alice-3" (demoCert 3 "alice@example.com" 300 false [2]) false]),
   ("bob", [certificateOf "bob-1" (demoCert 7 "bob@example.com" 150 false [2]) false])]

/-- A template library with one file: the rendered text lists the five fields. -/
def demoTemplates : TemplateLib where
  ParseFiles := fun path =>
    if path = "./config.ovpn.tpl" then .ok "tpl" else .error "open: no such file or directory"
  Execute := fun _ data =>
    .ok (String.intercalate "|"
      ["remote " ++ data.Username ++ "." ++ data.DNSName, data.CA, data.Certificate,
        data.PrivateKey])

/-- The backend `demoEnv` with an issuing role, the CA certificates of two PKI
paths, and one VPN endpoint. -/
def issueEnv : Env :=
  { demoEnv with
    vaultWrite := fun _ path _ =>
      if path = "pki/issue/client" then
        .ok [("certificate", "CERT"), ("private_key", "KEY"), ("serial_number", "08")]
      else .ok []
    vaultReadRaw := fun st path =>
      if path = "/root-pki/ca/pem" then .ok ("ROOT-CA", none)
      else if path = "/pki/ca/pem" then .ok ("PKI-CA", none)
      else demoEnv.vaultReadRaw st path
    awsDescribe := fun _ _ => .ok ["*.cvpn-1.prod.clientvpn.eu-west-1.amazonaws.com"] }

/-- The backend `issueEnv` with a kv store that refuses writes. -/
def kvDownEnv : Env :=
  { issueEnv with
    vaultWrite := fun st path payload =>
      if path = "secret/data/users/alice/config.ovpn" then .error "permission denied"
      else issueEnv.vaultWrite st path payload }

/-- An issue request for alice whose caller asks for the config key `client.ovpn`. -/
def issueRequest : IssueCertificateRequest :=
  { VaultPKIPaths := ["root-pki", "pki"]
    Username := "alice"
    VaultPKIRole := "client"
    ClientVPNEndpointID := "cvpn-1"
    VaultKVPath := "secret"
    VaultKVConfigKey := "client.ovpn"
    CfgTplPath := "./config.ovpn.tpl" }

/-- A Vault server that refuses the login: `Login` gives an error and no secret. -/
def downBackend : AuthBackend where
  NewAppRoleAuth := none
  Login := (none, some "connection refused")
  NewLifetimeWatcher := fun _ => .ok []

/-- A Vault server that accepts the login and hands out a token that is not
renewable. -/
def upBackend : AuthBackend where
  NewAppRoleAuth := none
  Login := (some ⟨some ⟨false⟩⟩, none)
  NewLifetimeWatcher := fun _ => .ok []

/-- A configuration with GitHub authorization enabled. -/
def orgConfig : Config :=
  { authGithubOrg := some "3scale", authGithubUsers := none, authGithubTeams := none }

/-- A GitHub that refuses every token. -/
def denyAll : githubAuthOpts → Option Error :=
  fun _ => some "401 Bad credentials"

/-- A backend whose Vault is sealed: listing the certificates fails. -/
def sealedEnv : Env :=
  { okEnv with vaultList := fun _ _ => .error "Vault is sealed" }

/-- A GitHub that accepts every token. -/
def allowAll : githubAuthOpts → Option Error :=
  fun _ => none

/-- The backend `badCrlEnv` with a read of the server certificate that is
refused. -/
def badCrlDeniedEnv : Env :=
  { badCrlEnv with
    vaultRead := fun st path =>
      if path = "pki/cert/05" then .error "permission denied" else demoEnv.vaultRead st path }

/-- A backend that lists the CA, a client certificate of alice and then an entry
that is not PEM, and serves, as its CRL, text that is not PEM. -/
def badCrlTailEnv : Env :=
  { demoEnv with
    vaultList := fun _ _ => .ok ["04", "01", "06"]
    vaultReadRaw := fun _ _ => .ok ("garbage", none) }

theorem isRevokePath_revoke (pki : String) : isRevokePath (pki ++ "/revoke") = true := by
  unfold isRevokePath
  rw [String.data_append]
  simp

theorem writeEffect_revoke (pki : String) (crt : Certificate) (s : State) :
    writeEffect (pki ++ "/revoke") (revokePayload crt) s =
      { s with revoked := s.revoked ++ [crt.SerialNumber] } := by
  simp [writeEffect, isRevokePath_revoke, revokePayload, List.lookup]

theorem vaultWrite_revoke_ok (env : Env) (pki : String) (crt : Certificate) (s : State)
    (data : List (String × String))
    (h : env.vaultWrite s (pki ++ "/revoke") (revokePayload crt) = .ok data) :
    vaultWrite env (pki ++ "/revoke") (revokePayload crt) s = (.ok data, revokedOk pki s crt) := by
  unfold vaultWrite
  rw [h, writeEffect_revoke]
  simp [revokedOk, State.record, revokeCall, revokePayload]

theorem vaultWrite_revoke_error (env : Env) (pki : String) (crt : Certificate) (s : State)
    (e : Error) (h : env.vaultWrite s (pki ++ "/revoke") (revokePayload crt) = .error e) :
    vaultWrite env (pki ++ "/revoke") (revokePayload crt) s =
      (.error e, s.record (revokeCall pki crt)) := by
  unfold vaultWrite
  rw [h]
  simp [revokeCall, revokePayload]

theorem afterRevokes_trace (pki : String) (crts : List Certificate) (s : State) :
    (afterRevokes pki s crts).trace = s.trace ++ crts.map (revokeCall pki) := by
  induction crts generalizing s with
  | nil => simp [afterRevokes]
  | cons c cs ih =>
    have := ih (revokedOk pki s c)
    simp only [afterRevokes, List.foldl_cons] at this ⊢
    rw [this]; simp [revokedOk]

theorem afterRevokes_revoked (pki : String) (crts : List Certificate) (s : State) :
    (afterRevokes pki s crts).revoked = s.revoked ++ crts.map (·.SerialNumber) := by
  induction crts generalizing s with
  | nil => simp [afterRevokes]
  | cons c cs ih =>
    have := ih (revokedOk pki s c)
    simp only [afterRevokes, List.foldl_cons] at this ⊢
    rw [this]; simp [revokedOk]

/-- The loop of `revokeUserCertificates` issues the revoke calls of `toRevoke`, in
order, and stops at the first failure. -/
theorem revokeLoop_eq_runRevokes (env : Env) (pki : String) (len : Nat) (revokeAll : Bool)
    (l : List Certificate) (n : Nat) (s : State) (hlen : n + l.length = len) :
    revokeUserCertificatesLoop env pki len revokeAll n l s =
      runRevokes env pki (toRevoke l revokeAll) s := by
  induction l generalizing n s with
  | nil => simp [revokeUserCertificatesLoop, toRevoke, runRevokes]
  | cons crt rest ih =>
    have hrest : n + 1 + rest.length = len := by simp at hlen; omega
    unfold revokeUserCertificatesLoop
    by_cases hbreak : (n : Int) = (len : Int) - 1 ∧ revokeAll = false
    · rw [if_pos hbreak]
      obtain ⟨hn, hra⟩ := hbreak
      have hnil : rest = [] := by
        apply List.eq_nil_of_length_eq_zero; omega
      subst hnil; subst hra
      simp [toRevoke, runRevokes]
    · rw [if_neg hbreak]
      have htr : toRevoke (crt :: rest) revokeAll =
          (if crt.Revoked = false then [crt] else []) ++ toRevoke rest revokeAll := by
        cases hra : revokeAll with
        | true => by_cases hc : crt.Revoked = false <;> simp [toRevoke, List.filter_cons, hc]
        | false =>
          have hne : rest ≠ [] := by
            intro hnil; apply hbreak; subst hnil
            refine ⟨?_, hra⟩
            simp at hlen; omega
          obtain ⟨x, xs, rfl⟩ := List.exists_cons_of_ne_nil hne
          by_cases hc : crt.Revoked = false <;>
            simp [toRevoke, List.dropLast, List.filter_cons, hc]
      rw [htr]
      by_cases hc : crt.Revoked = false
      · simp only [if_pos hc, List.singleton_append, runRevokes]
        cases hw : vaultWrite env (pki ++ "/revoke") (revokePayload crt) s with
        | mk r s' =>
          cases r with
          | error e => rfl
          | ok d => exact ih (n + 1) s' hrest
      · simp only [if_neg hc, List.nil_append]
        exact ih (n + 1) s hrest

theorem revokeUserCertificates_eq_runRevokes (env : Env) (pki : String)
    (crts : List Certificate) (revokeAll : Bool) (s : State) :
    revokeUserCertificates env pki crts revokeAll s =
      runRevokes env pki (toRevoke crts revokeAll) s :=
  revokeLoop_eq_runRevokes env pki crts.length revokeAll crts 0 s (by simp)

/-- When the calls for `done` succeed one after the other, running `done ++ rest`
comes down to running `rest` from the state after them. -/
theorem runRevokes_append_ok (env : Env) (pki : String) (pre rest : List Certificate)
    (s : State)
    (hpre : ∀ done c more, pre = done ++ c :: more →
      ∃ data, env.vaultWrite (afterRevokes pki s done) (pki ++ "/revoke") (revokePayload c)
        = .ok data) :
    runRevokes env pki (pre ++ rest) s = runRevokes env pki rest (afterRevokes pki s pre) := by
  induction pre generalizing s with
  | nil => simp [afterRevokes]
  | cons c cs ih =>
    obtain ⟨data, hd⟩ := hpre [] c cs rfl
    simp only [afterRevokes, List.foldl_nil] at hd
    have hstep : runRevokes env pki (c :: cs ++ rest) s =
        runRevokes env pki (cs ++ rest) (revokedOk pki s c) := by
      simp only [List.cons_append, runRevokes, vaultWrite_revoke_ok env pki c s data hd]
      rfl
    rw [hstep, ih (revokedOk pki s c)]
    · simp [afterRevokes]
    · intro done c' more hsplit
      have := hpre (c :: done) c' more (by simp [hsplit])
      simpa [afterRevokes] using this

/-- A run without error ends in the state after successful calls. -/
theorem runRevokes_none (env : Env) (pki : String) (l : List Certificate) (s s' : State)
    (h : runRevokes env pki l s = (none, s')) : s' = afterRevokes pki s l := by
  induction l generalizing s with
  | nil => simp [runRevokes] at h; simp [afterRevokes, h]
  | cons c cs ih =>
    simp only [runRevokes] at h
    cases hw : env.vaultWrite s (pki ++ "/revoke") (revokePayload c) with
    | error e =>
      rw [vaultWrite_revoke_error env pki c s e hw] at h
      simp at h
    | ok d =>
      rw [vaultWrite_revoke_ok env pki c s d hw] at h
      simpa [afterRevokes] using ih _ h

/-- When every revoke call succeeds, a run ends without error in the state after
the calls for `toRevoke`. -/
theorem revokeUserCertificates_ok (env : Env) (pki : String) (crts : List Certificate)
    (revokeAll : Bool) (s : State)
    (hok : ∀ st payload, ∃ data, env.vaultWrite st (pki ++ "/revoke") payload = .ok data) :
    revokeUserCertificates env pki crts revokeAll s =
      (none, afterRevokes pki s (toRevoke crts revokeAll)) := by
  rw [revokeUserCertificates_eq_runRevokes]
  have h := runRevokes_append_ok env pki (toRevoke crts revokeAll) [] s
    (fun done c _ _ => hok (afterRevokes pki s done) (revokePayload c))
  rw [List.append_nil] at h
  rw [h]; rfl

/-! ## RevocationPolicy: `revokeUserCertificates` -/

/-- C2: on a backend where every revoke call succeeds, `revokeUserCertificates`
with `revokeAll = false` returns no error and adds to the trace exactly the revoke
calls, keyed by serial number and in sequence order, of the certificates that are
not in the last position and have `Revoked = false`; nothing is issued for the last
certificate or for a revoked one, and nothing at all for the empty sequence. -/
theorem revokeUserCertificates_keeps_last (env : Env) (pki : String)
    (crts : List Certificate) (s : State)
    (hok : ∀ st payload, ∃ data, env.vaultWrite st (pki ++ "/revoke") payload = .ok data) :
    (revokeUserCertificates env pki crts false s).1 = none ∧
    (revokeUserCertificates env pki crts false s).2.trace =
      s.trace ++ (crts.dropLast.filter fun c => !c.Revoked).map
        (fun c => Call.vaultWrite (pki ++ "/revoke") [("serial_number", .str c.SerialNumber)]) ∧
    (revokeUserCertificates env pki crts false s).2.revoked =
      s.revoked ++ (crts.dropLast.filter fun c => !c.Revoked).map (·.SerialNumber) ∧
    revokeUserCertificates env pki [] false s = (none, s) := by
  rw [revokeUserCertificates_ok env pki crts false s hok]
  refine ⟨rfl, ?_, ?_, ?_⟩
  · rw [afterRevokes_trace]; rfl
  · rw [afterRevokes_revoked]; rfl
  · rfl

/-- Witness for C2: four certificates, the second already revoked; calls are
issued for the first and the third only. -/
theorem revokeUserCertificates_keeps_last_witness :
    (∀ st payload, ∃ data, okEnv.vaultWrite st ("pki" ++ "/revoke") payload = .ok data) ∧
    (revokeUserCertificates okEnv "pki"
      [aliceCrt "01" 1 false, aliceCrt "02" 2 true, aliceCrt "03" 3 false,
        aliceCrt "04" 4 false] false State.init).2.trace =
      [Call.vaultWrite "pki/revoke" [("serial_number", .str "01")],
       Call.vaultWrite "pki/revoke" [("serial_number", .str "03")]] :=
  ⟨fun _ _ => ⟨[], rfl⟩,
   (revokeUserCertificates_keeps_last okEnv "pki"
      [aliceCrt "01" 1 false, aliceCrt "02" 2 true, aliceCrt "03" 3 false,
        aliceCrt "04" 4 false] State.init (fun _ _ => ⟨[], rfl⟩)).2.1.trans (by decide)⟩

/-- C3: on a backend where every revoke call succeeds, `revokeUserCertificates`
with `revokeAll = true` returns no error and issues exactly the revoke calls of the
certificates with `Revoked = false`, the last one included, and none for those with
`Revoked = true`; the revoked set grows by exactly these serial numbers, so when
the `Revoked` flags were read from the backend (a flagged certificate is in the
revoked set) every certificate of the sequence is revoked afterwards. -/
theorem revokeUserCertificates_revokeAll (env : Env) (pki : String)
    (crts : List Certificate) (s : State)
    (hok : ∀ st payload, ∃ data, env.vaultWrite st (pki ++ "/revoke") payload = .ok data)
    (hflags : ∀ c ∈ crts, c.Revoked = true → c.SerialNumber ∈ s.revoked) :
    (revokeUserCertificates env pki crts true s).1 = none ∧
    (revokeUserCertificates env pki crts true s).2.trace =
      s.trace ++ (crts.filter fun c => !c.Revoked).map
        (fun c => Call.vaultWrite (pki ++ "/revoke") [("serial_number", .str c.SerialNumber)]) ∧
    (revokeUserCertificates env pki crts true s).2.revoked =
      s.revoked ++ (crts.filter fun c => !c.Revoked).map (·.SerialNumber) ∧
    ∀ c ∈ crts, c.SerialNumber ∈ (revokeUserCertificates env pki crts true s).2.revoked := by
  rw [revokeUserCertificates_ok env pki crts true s hok]
  refine ⟨rfl, ?_, ?_, ?_⟩
  · rw [afterRevokes_trace]; rfl
  · rw [afterRevokes_revoked]; rfl
  · intro c hc
    show c.SerialNumber ∈ (afterRevokes pki s (toRevoke crts true)).revoked
    rw [afterRevokes_revoked, List.mem_append]
    cases hr : c.Revoked with
    | true => exact Or.inl (hflags c hc hr)
    | false =>
      right
      refine List.mem_map.mpr ⟨c, ?_, rfl⟩
      simp [toRevoke, hc, hr]

/-- Witness for C3: a partially revoked sequence; the call for the last
certificate is issued and all three serial numbers end up revoked. -/
theorem revokeUserCertificates_revokeAll_witness :
    (∀ st payload, ∃ data, okEnv.vaultWrite st ("pki" ++ "/revoke") payload = .ok data) ∧
    (∀ c ∈ [aliceCrt "01" 1 true, aliceCrt "02" 2 false, aliceCrt "03" 3 false],
      c.Revoked = true → c.SerialNumber ∈ ({ State.init with revoked := ["01"] } : State).revoked) ∧
    (revokeUserCertificates okEnv "pki"
      [aliceCrt "01" 1 true, aliceCrt "02" 2 false, aliceCrt "03" 3 false] true
      { State.init with revoked := ["01"] }).2.revoked = ["01", "02", "03"] :=
  ⟨fun _ _ => ⟨[], rfl⟩, by decide,
   (revokeUserCertificates_revokeAll okEnv "pki"
      [aliceCrt "01" 1 true, aliceCrt "02" 2 false, aliceCrt "03" 3 false]
      { State.init with revoked := ["01"] } (fun _ _ => ⟨[], rfl⟩) (by decide)).2.2.1.trans
      (by decide)⟩

/-- C4: for either value of `revokeAll`, when a revoke call is due for the
certificate at index `k` (it is not revoked, and it is not the last one unless
`revokeAll`), the calls due before index `k` succeed and the call at index `k`
fails with `e`, then `revokeUserCertificates` returns exactly `e`; the trace ends
with the failed call, so no call is issued for a later index, and the revoked set
is the one the successful calls left: nothing is undone. -/
theorem revokeUserCertificates_first_failure (env : Env) (pki : String)
    (crts : List Certificate) (revokeAll : Bool) (s : State) (k : Nat) (crt : Certificate)
    (e : Error)
    (hk : crts.get? k = some crt)
    (hdue : crt.Revoked = false ∧ (k + 1 < crts.length ∨ revokeAll = true))
    (hpre : ∀ done c more, (crts.take k).filter (fun c => !c.Revoked) = done ++ c :: more →
      ∃ data, env.vaultWrite (afterRevokes pki s done) (pki ++ "/revoke")
        [("serial_number", .str c.SerialNumber)] = .ok data)
    (hfail : env.vaultWrite (afterRevokes pki s ((crts.take k).filter fun c => !c.Revoked))
      (pki ++ "/revoke") [("serial_number", .str crt.SerialNumber)] = .error e) :
    (revokeUserCertificates env pki crts revokeAll s).1 = some e ∧
    (revokeUserCertificates env pki crts revokeAll s).2.trace =
      s.trace ++ ((crts.take k).filter fun c => !c.Revoked).map (revokeCall pki)
        ++ [revokeCall pki crt] ∧
    (revokeUserCertificates env pki crts revokeAll s).2.revoked =
      s.revoked ++ ((crts.take k).filter fun c => !c.Revoked).map (·.SerialNumber) := by
  obtain ⟨hunrev, hpos⟩ := hdue
  have hklt : k < crts.length := by
    rcases Nat.lt_or_ge k crts.length with h | h
    · exact h
    · rw [List.get?_eq_none.mpr h] at hk; cases hk
  have hsplit : crts = crts.take k ++ crt :: crts.drop (k + 1) := by
    have hget : crts[k] = crt := by
      have := List.get?_eq_get hklt
      rw [hk] at this
      exact (Option.some.inj this).symm
    rw [← hget, ← List.drop_eq_getElem_cons hklt, List.take_append_drop]
  have htr : ∃ post, toRevoke crts revokeAll =
      (crts.take k).filter (fun c => !c.Revoked) ++ crt :: post := by
    cases hra : revokeAll with
    | true =>
      refine ⟨(crts.drop (k + 1)).filter fun c => !c.Revoked, ?_⟩
      simp only [toRevoke, if_true]
      conv_lhs => rw [hsplit]
      simp [List.filter_append, List.filter_cons, hunrev]
    | false =>
      have hlt : k + 1 < crts.length := by
        rcases hpos with h | h
        · exact h
        · rw [hra] at h; cases h
      have hne : crts.drop (k + 1) ≠ [] := by
        intro h
        have := congrArg List.length h
        simp at this; omega
      refine ⟨(crts.drop (k + 1)).dropLast.filter fun c => !c.Revoked, ?_⟩
      simp only [toRevoke, Bool.false_eq_true, if_false]
      conv_lhs => rw [hsplit]
      rw [List.dropLast_append_cons, List.dropLast_cons_of_ne_nil hne]
      simp [List.filter_append, List.filter_cons, hunrev]
  obtain ⟨post, hpost⟩ := htr
  have hrun : revokeUserCertificates env pki crts revokeAll s =
      (some e, (afterRevokes pki s ((crts.take k).filter fun c => !c.Revoked)).record
        (revokeCall pki crt)) := by
    rw [revokeUserCertificates_eq_runRevokes, hpost,
      runRevokes_append_ok env pki _ _ s hpre]
    simp only [runRevokes]
    rw [vaultWrite_revoke_error env pki crt _ e hfail]
  rw [hrun]
  refine ⟨rfl, ?_, ?_⟩
  · simp [State.record, afterRevokes_trace]
  · simp [State.record, afterRevokes_revoked]

/-- Witness for C4: the backend refuses serial `02`; of three unrevoked
certificates the first is revoked and stays so, the call for the second returns
the error, and no call is issued for the third. -/
theorem revokeUserCertificates_first_failure_witness :
    failEnv.vaultWrite (afterRevokes "pki" State.init [aliceCrt "01" 1 false]) "pki/revoke"
      [("serial_number", .str "02")] = .error "permission denied" ∧
    (revokeUserCertificates failEnv "pki"
      [aliceCrt "01" 1 false, aliceCrt "02" 2 false, aliceCrt "03" 3 false] true
      State.init).1 = some "permission denied" ∧
    (revokeUserCertificates failEnv "pki"
      [aliceCrt "01" 1 false, aliceCrt "02" 2 false, aliceCrt "03" 3 false] true
      State.init).2.trace =
      [Call.vaultWrite "pki/revoke" [("serial_number", .str "01")],
       Call.vaultWrite "pki/revoke" [("serial_number", .str "02")]] ∧
    (revokeUserCertificates failEnv "pki"
      [aliceCrt "01" 1 false, aliceCrt "02" 2 false, aliceCrt "03" 3 false] true
      State.init).2.revoked = ["01"] := by
  have h := revokeUserCertificates_first_failure failEnv "pki"
    [aliceCrt "01" 1 false, aliceCrt "02" 2 false, aliceCrt "03" 3 false] true State.init 1
    (aliceCrt "02" 2 false) "permission denied" rfl (by decide)
    (by
      intro done c more hsplit
      have hc : c = aliceCrt "01" 1 false := by
        have hfil : ([aliceCrt "01" 1 false, aliceCrt "02" 2 false, aliceCrt "03" 3 false].take
            1).filter (fun c => !c.Revoked) = [aliceCrt "01" 1 false] := by decide
        rw [hfil] at hsplit
        cases done with
        | nil => simp at hsplit; exact hsplit.1.symm
        | cons d ds =>
          have := congrArg List.length hsplit
          simp at this
      subst hc
      exact ⟨[], rfl⟩)
    rfl
  exact ⟨rfl, h.1, h.2.1.trans (by decide), h.2.2.trans (by decide)⟩

/-- C8: with the `Revoked` flags read from the revoked set of the backend before
each run, a run of `revokeUserCertificates` that succeeds (for either value of
`revokeAll`) is followed by a run that returns no error and leaves the whole state
as it is: it issues no revoke call and the revoked set is unchanged. -/
theorem revokeUserCertificates_idempotent (env : Env) (pki : String)
    (crts : List Certificate) (revokeAll : Bool) (s s1 : State)
    (h1 : revokeUserCertificates env pki (refresh s crts) revokeAll s = (none, s1)) :
    revokeUserCertificates env pki (refresh s1 crts) revokeAll s1 = (none, s1) := by
  rw [revokeUserCertificates_eq_runRevokes] at h1
  have hs1 := runRevokes_none env pki _ s s1 h1
  have hnil : toRevoke (refresh s1 crts) revokeAll = [] := by
    have hall : ∀ c ∈ (if revokeAll then crts else crts.dropLast),
        c.SerialNumber ∈ s1.revoked := by
      intro c hc
      rw [hs1, afterRevokes_revoked, List.mem_append]
      by_cases hin : c.SerialNumber ∈ s.revoked
      · exact Or.inl hin
      · right
        refine List.mem_map.mpr
          ⟨{ c with Revoked := decide (c.SerialNumber ∈ s.revoked) }, ?_, rfl⟩
        have hmem : ({ c with Revoked := decide (c.SerialNumber ∈ s.revoked) } : Certificate) ∈
            (if revokeAll then refresh s crts else (refresh s crts).dropLast) := by
          cases revokeAll with
          | true => exact List.mem_map.mpr ⟨c, by simpa using hc, rfl⟩
          | false =>
            simp only [refresh, Bool.false_eq_true, if_false] at hc ⊢
            rw [← List.map_dropLast]
            exact List.mem_map.mpr ⟨c, hc, rfl⟩
        simp only [toRevoke, List.mem_filter]
        exact ⟨hmem, by simp [hin]⟩
    have hcomm : (if revokeAll then refresh s1 crts else (refresh s1 crts).dropLast) =
        refresh s1 (if revokeAll then crts else crts.dropLast) := by
      cases revokeAll with
      | true => rfl
      | false => simp [refresh, List.map_dropLast]
    simp only [toRevoke]
    rw [hcomm, List.filter_eq_nil_iff]
    intro c hc
    obtain ⟨c0, hc0, rfl⟩ := List.mem_map.mp hc
    simp [hall c0 hc0]
  rw [revokeUserCertificates_eq_runRevokes, hnil]
  rfl

/-- Witness for C8: three certificates of which none is revoked at first; the
first run revokes two of them, the second run changes nothing. -/
theorem revokeUserCertificates_idempotent_witness :
    revokeUserCertificates okEnv "pki"
      (refresh State.init [aliceCrt "01" 1 false, aliceCrt "02" 2 false, aliceCrt "03" 3 false])
      false State.init =
      (none, afterRevokes "pki" State.init [aliceCrt "01" 1 false, aliceCrt "02" 2 false]) ∧
    revokeUserCertificates okEnv "pki"
      (refresh (afterRevokes "pki" State.init [aliceCrt "01" 1 false, aliceCrt "02" 2 false])
        [aliceCrt "01" 1 false, aliceCrt "02" 2 false, aliceCrt "03" 3 false])
      false (afterRevokes "pki" State.init [aliceCrt "01" 1 false, aliceCrt "02" 2 false]) =
      (none, afterRevokes "pki" State.init [aliceCrt "01" 1 false, aliceCrt "02" 2 false]) :=
  ⟨by decide,
   revokeUserCertificates_idempotent okEnv "pki"
     [aliceCrt "01" 1 false, aliceCrt "02" 2 false, aliceCrt "03" 3 false] false State.init
     (afterRevokes "pki" State.init [aliceCrt "01" 1 false, aliceCrt "02" 2 false]) (by decide)⟩

/-! ## Frame lemmas: what the read-only steps leave unchanged -/

theorem importCalls_append (t u : List Call) :
    importCalls (t ++ u) = importCalls t ++ importCalls u := by
  induction t with
  | nil => rfl
  | cons c cs ih => cases c <;> simp [importCalls, ih]

theorem revokeCalls_append (t u : List Call) :
    revokeCalls (t ++ u) = revokeCalls t ++ revokeCalls u := by
  induction t with
  | nil => rfl
  | cons c cs ih =>
    cases c with
    | vaultWrite path payload =>
      simp only [List.cons_append, revokeCalls]
      split
      · split <;> simp [ih]
      · exact ih
    | _ => simp [revokeCalls, ih]

theorem quiet_refl (s : State) : Quiet s s := ⟨rfl, rfl, rfl, rfl⟩

theorem quiet_trans {s s' s'' : State} (h : Quiet s s') (h' : Quiet s' s'') : Quiet s s'' :=
  ⟨h'.1.trans h.1, h'.2.1.trans h.2.1, h'.2.2.1.trans h.2.2.1, h'.2.2.2.trans h.2.2.2⟩

theorem quiet_record (s : State) (c : Call) (hi : importCalls [c] = [])
    (hr : revokeCalls [c] = []) : Quiet s (s.record c) := by
  refine ⟨rfl, rfl, ?_, ?_⟩
  · simp [State.record, importCalls_append, hi]
  · simp [State.record, revokeCalls_append, hr]

theorem GetCRL_quiet (env : Env) (pki : String) (s : State) :
    Quiet s (GetCRL env pki s).2 := by
  have hq : Quiet s (s.record (.vaultReadRaw ("/" ++ pki ++ "/crl/pem"))) :=
    quiet_record s (.vaultReadRaw ("/" ++ pki ++ "/crl/pem")) rfl rfl
  unfold GetCRL
  dsimp only
  split <;> exact hq

theorem listUsersLoop_quiet (lib : Lib) (env : Env) (pki crl : String) (keys : List String)
    (users : UserMap) (s : State) :
    Quiet s (listUsersLoop lib env pki crl keys users s).2 := by
  induction keys generalizing users s with
  | nil => exact quiet_refl s
  | cons key rest ih =>
    have hq : Quiet s (s.record (.vaultRead (pki ++ "/cert/" ++ key))) :=
      quiet_record s (.vaultRead (pki ++ "/cert/" ++ key)) rfl rfl
    unfold listUsersLoop
    dsimp only
    split
    · exact hq
    · exact hq
    · split
      · exact hq
      · split
        · exact hq
        · split
          · exact quiet_trans hq (ih _ _)
          · split
            · exact hq
            · exact quiet_trans hq (ih _ _)

theorem ListUsers_quiet (lib : Lib) (env : Env) (r : ListUsersRequest) (s : State) :
    Quiet s (ListUsers lib env r s).2 := by
  have h0 : Quiet s (s.record (.vaultList (r.VaultPKIPath ++ "/certs"))) :=
    quiet_record s (.vaultList (r.VaultPKIPath ++ "/certs")) rfl rfl
  unfold ListUsers
  dsimp only
  split
  · exact h0
  · have h1 := GetCRL_quiet env r.VaultPKIPath (s.record (.vaultList (r.VaultPKIPath ++ "/certs")))
    split
    · rename_i hg
      rw [hg] at h1
      exact quiet_trans h0 h1
    · rename_i hg
      rw [hg] at h1
      exact quiet_trans h0 h1
  · have h1 := GetCRL_quiet env r.VaultPKIPath (s.record (.vaultList (r.VaultPKIPath ++ "/certs")))
    split
    · rename_i hg
      rw [hg] at h1
      exact quiet_trans h0 h1
    · rename_i crl s1 hg
      rw [hg] at h1
      have h2 := listUsersLoop_quiet lib env r.VaultPKIPath crl ‹List String› [] s1
      split
      · rename_i hl
        rw [hl] at h2
        exact quiet_trans (quiet_trans h0 h1) h2
      · rename_i hl
        rw [hl] at h2
        exact quiet_trans (quiet_trans h0 h1) h2

theorem grow_refl (s : State) : Grow s s := ⟨fun _ h => h, rfl, rfl⟩

theorem grow_trans {s s' s'' : State} (h : Grow s s') (h' : Grow s' s'') : Grow s s'' :=
  ⟨fun x hx => h'.1 x (h.1 x hx), h'.2.1.trans h.2.1, h'.2.2.trans h.2.2⟩

theorem quiet_grow {s s' : State} (h : Quiet s s') : Grow s s' :=
  ⟨fun x hx => by rw [h.1]; exact hx, h.2.1, h.2.2.1⟩

theorem runRevokes_grow (env : Env) (pki : String) (l : List Certificate) (s : State) :
    Grow s (runRevokes env pki l s).2 := by
  induction l generalizing s with
  | nil => exact grow_refl s
  | cons c cs ih =>
    simp only [runRevokes]
    cases hw : env.vaultWrite s (pki ++ "/revoke") (revokePayload c) with
    | error e =>
      rw [vaultWrite_revoke_error env pki c s e hw]
      exact ⟨fun x hx => hx, rfl, by simp [State.record, importCalls_append, revokeCall, importCalls]⟩
    | ok d =>
      rw [vaultWrite_revoke_ok env pki c s d hw]
      dsimp only
      have hstep : Grow s (revokedOk pki s c) := by
        refine ⟨fun x hx => ?_, rfl, ?_⟩
        · simp [revokedOk, hx]
        · simp [revokedOk, importCalls_append, revokeCall, importCalls]
      exact grow_trans hstep (ih (revokedOk pki s c))

/-- A successful pass over the users leaves every certificate that had to be
revoked in the revoked set. -/
theorem updateCRLLoop_grow (env : Env) (pki : String) (l : UserMap) (s : State) :
    Grow s (updateCRLLoop env pki l s).2 := by
  induction l generalizing s with
  | nil => exact grow_refl s
  | cons kv rest ih =>
    obtain ⟨u, crts⟩ := kv
    have hg := runRevokes_grow env pki (toRevoke crts false) s
    rw [← revokeUserCertificates_eq_runRevokes] at hg
    unfold updateCRLLoop
    split
    · rename_i hr; rw [hr] at hg; exact hg
    · rename_i s1 hr; rw [hr] at hg; exact grow_trans hg (ih s1)

theorem updateCRLLoop_none (env : Env) (pki : String) (l : UserMap) (s s' : State)
    (h : updateCRLLoop env pki l s = (none, s')) :
    ∀ u crts, (u, crts) ∈ l → ∀ c ∈ toRevoke crts false, c.SerialNumber ∈ s'.revoked := by
  induction l generalizing s with
  | nil => intro u crts hm; cases hm
  | cons kv rest ih =>
    obtain ⟨u0, crts0⟩ := kv
    unfold updateCRLLoop at h
    split at h
    · cases h
    · rename_i s1 hr
      intro u crts hm c hc
      rcases List.mem_cons.mp hm with heq | hrest
      · cases heq
        rw [revokeUserCertificates_eq_runRevokes] at hr
        have hs1 := runRevokes_none env pki _ s s1 hr
        have hin : c.SerialNumber ∈ s1.revoked := by
          rw [hs1, afterRevokes_revoked]
          exact List.mem_append_right _ (List.mem_map.mpr ⟨c, hc, rfl⟩)
        have hg := updateCRLLoop_grow env pki rest s1
        rw [h] at hg
        exact hg.1 _ hin
      · exact ih s1 h u crts hrest c hc

theorem GetCRL_ok (env : Env) (pki : String) (s s' : State) (crl : String)
    (h : GetCRL env pki s = (.ok crl, s')) :
    ∃ rerr, env.vaultReadRaw s ("/" ++ pki ++ "/crl/pem") = .ok (crl, rerr) ∧
      s' = s.record (.vaultReadRaw ("/" ++ pki ++ "/crl/pem")) := by
  unfold GetCRL at h
  dsimp only at h
  split at h
  · cases h
  · rename_i data rerr hraw
    cases h
    exact ⟨rerr, hraw, rfl⟩

theorem awsExport_ok (env : Env) (endpoint : String) (s s' : State) (g : Option String)
    (h : awsExport env endpoint s = (.ok g, s')) :
    g = s.gateway ∧ s' = s.record (.awsExport endpoint) := by
  unfold awsExport at h
  split at h
  · cases h
  · cases h; exact ⟨rfl, rfl⟩

theorem awsImport_none (env : Env) (endpoint crl : String) (s s' : State)
    (h : awsImport env endpoint crl s = (none, s')) :
    s' = { s.record (.awsImport endpoint crl) with gateway := some crl } := by
  unfold awsImport at h
  split at h
  · cases h
  · cases h; rfl

/-- What a successful `UpdateCRL` went through: a listing, a pass over the users
without error, a fetch of the CRL, the export and, unless the gateway already
held the fetched CRL, one import of it. -/
theorem UpdateCRL_ok (lib : Lib) (order : UserMap → UserMap) (env : Env)
    (r : UpdateCRLRequest) (s s' : State) (crl : String)
    (h : UpdateCRL lib order env r s = (.ok crl, s')) :
    ∃ users s1 s2 rerr,
      ListUsers lib env ⟨r.VaultPKIPath, r.ClientVPNEndpointID⟩ s = (.ok users, s1) ∧
      updateCRLLoop env r.VaultPKIPath (order users) s1 = (none, s2) ∧
      env.vaultReadRaw s2 ("/" ++ r.VaultPKIPath ++ "/crl/pem") = .ok (crl, rerr) ∧
      s'.revoked = s2.revoked ∧ s'.gateway = some crl ∧
      s'.trace = s2.trace ++
        [.vaultReadRaw ("/" ++ r.VaultPKIPath ++ "/crl/pem"), .awsLoadConfig,
          .awsExport r.ClientVPNEndpointID] ++
        (if s2.gateway = some crl then [] else [.awsImport r.ClientVPNEndpointID crl]) := by
  unfold UpdateCRL at h
  split at h
  · cases h
  · cases h
  · rename_i users s1 hlist
    split at h
    · cases h
    · rename_i s2 hloop
      split at h
      · cases h
      · rename_i crl0 s3 hget
        obtain ⟨rerr, hraw, hs3⟩ := GetCRL_ok env _ _ _ _ hget
        split at h
        · cases h
        · split at h
          · cases h
          · rename_i current s4 hexp
            obtain ⟨hcur, hs4⟩ := awsExport_ok env _ _ _ _ hexp
            have hgw : s2.gateway = some current := by
              rw [hcur, hs3]; rfl
            split at h
            · rename_i hne
              split at h
              · cases h
              · rename_i s5 himp
                have hs5 := awsImport_none env _ _ _ _ himp
                cases h
                have hgw' : ¬ s2.gateway = some crl := by
                  rw [hgw]; intro hc; exact hne (Option.some.inj hc)
                refine ⟨users, s1, s2, rerr, hlist, hloop, hraw, ?_, ?_, ?_⟩
                · rw [hs5, hs4, hs3]; rfl
                · rw [hs5]
                · rw [hs5, hs4, hs3, if_neg hgw']; simp [State.record]
            · rename_i heq
              cases h
              have hgw' : s2.gateway = some crl := by
                rw [hgw]; exact congrArg some (not_not.mp heq)
              refine ⟨users, s1, s2, rerr, hlist, hloop, hraw, ?_, ?_, ?_⟩
              · rw [hs4, hs3]; rfl
              · rw [hs4, hs3]; exact hgw'
              · rw [hs4, hs3, if_pos hgw']; simp [State.record]
          · rename_i s4 hexp
            obtain ⟨hcur, hs4⟩ := awsExport_ok env _ _ _ _ hexp
            have hgw : s2.gateway = none := by
              rw [hcur, hs3]; rfl
            split at h
            · cases h
            · rename_i s5 himp
              have hs5 := awsImport_none env _ _ _ _ himp
              cases h
              have hgw' : ¬ s2.gateway = some crl := by
                rw [hgw]; intro hc; cases hc
              refine ⟨users, s1, s2, rerr, hlist, hloop, hraw, ?_, ?_, ?_⟩
              · rw [hs5, hs4, hs3]; rfl
              · rw [hs5]
              · rw [hs5, hs4, hs3, if_neg hgw']; simp [State.record]

/-- Up to the fetch of the CRL a successful `UpdateCRL` leaves the gateway alone. -/
theorem UpdateCRL_before_fetch (lib : Lib) (env : Env) (r : UpdateCRLRequest)
    (order : UserMap → UserMap) (s s1 s2 : State) (users : UserMap)
    (hlist : ListUsers lib env ⟨r.VaultPKIPath, r.ClientVPNEndpointID⟩ s = (.ok users, s1))
    (hloop : updateCRLLoop env r.VaultPKIPath (order users) s1 = (none, s2)) :
    Grow s s2 := by
  have h1 := quiet_grow (ListUsers_quiet lib env ⟨r.VaultPKIPath, r.ClientVPNEndpointID⟩ s)
  rw [hlist] at h1
  have h2 := updateCRLLoop_grow env r.VaultPKIPath (order users) s1
  rw [hloop] at h2
  exact grow_trans h1 h2

/-! ## CRLReconciler: the gateway side of `UpdateCRL` -/

/-- C5: a successful `UpdateCRL` that returns `crl` fetched `crl` from the backend
(in the state `s2` reached after the revocations, right before the export) and
adds to the trace exactly one import call, of `crl`, when the gateway held no CRL
or a different one, and no import call when the gateway held exactly `crl`; with
no CRL on the gateway the import happens whatever `crl` is, the empty document
included. -/
theorem UpdateCRL_import_iff_changed (lib : Lib) (order : UserMap → UserMap) (env : Env)
    (r : UpdateCRLRequest) (s s' : State) (crl : String)
    (h : UpdateCRL lib order env r s = (.ok crl, s')) :
    importCalls s'.trace =
      importCalls s.trace ++ (if s.gateway = some crl then [] else [crl]) ∧
    (s.gateway = none → importCalls s'.trace = importCalls s.trace ++ [crl]) ∧
    ∃ s2 rerr, env.vaultReadRaw s2 ("/" ++ r.VaultPKIPath ++ "/crl/pem") = .ok (crl, rerr) ∧
      s2.gateway = s.gateway ∧
      s'.trace = s2.trace ++
        [.vaultReadRaw ("/" ++ r.VaultPKIPath ++ "/crl/pem"), .awsLoadConfig,
          .awsExport r.ClientVPNEndpointID] ++
        (if s.gateway = some crl then [] else [.awsImport r.ClientVPNEndpointID crl]) := by
  obtain ⟨users, s1, s2, rerr, hlist, hloop, hraw, _, _, htrace⟩ :=
    UpdateCRL_ok lib order env r s s' crl h
  have hg := UpdateCRL_before_fetch lib env r order s s1 s2 users hlist hloop
  have hcount : importCalls s'.trace =
      importCalls s.trace ++ (if s.gateway = some crl then [] else [crl]) := by
    rw [htrace, hg.2.1, importCalls_append, importCalls_append, hg.2.2]
    by_cases hc : s.gateway = some crl <;> simp [hc, importCalls]
  refine ⟨hcount, ?_, s2, rerr, hraw, hg.2.1, ?_⟩
  · intro hnone
    rw [hcount, hnone]; simp
  · rw [htrace, hg.2.1]

/-- Witness for C5: the backend has no certificate and serves an empty CRL, the
gateway has none; the run imports the empty CRL once. -/
theorem UpdateCRL_import_iff_changed_witness :
    UpdateCRL demoLib id okEnv demoRequest State.init =
      (.ok "", { trace := [.vaultList "pki/certs", .vaultReadRaw "/pki/crl/pem",
                   .vaultReadRaw "/pki/crl/pem", .awsLoadConfig, .awsExport "cvpn-1",
                   .awsImport "cvpn-1" ""],
                 revoked := [], gateway := some "" }) ∧
    importCalls (UpdateCRL demoLib id okEnv demoRequest State.init).2.trace = [""] :=
  ⟨by decide,
   (UpdateCRL_import_iff_changed demoLib id okEnv demoRequest State.init _ ""
      (by decide)).2.1 rfl⟩

/-- C6: after a successful `UpdateCRL` that returns `crl`, the gateway holds a CRL
and it is exactly `crl`, and `crl` is the document the backend served to the fetch
made in that call, in the state `s2` right before the fetch (the trace of the call
ends with that fetch, the export and the import if any). -/
theorem UpdateCRL_gateway_equals_fetched (lib : Lib) (order : UserMap → UserMap) (env : Env)
    (r : UpdateCRLRequest) (s s' : State) (crl : String)
    (h : UpdateCRL lib order env r s = (.ok crl, s')) :
    s'.gateway = some crl ∧
    ∃ s2 rerr, env.vaultReadRaw s2 ("/" ++ r.VaultPKIPath ++ "/crl/pem") = .ok (crl, rerr) ∧
      GetCRL env r.VaultPKIPath s2 =
        (.ok crl, s2.record (.vaultReadRaw ("/" ++ r.VaultPKIPath ++ "/crl/pem"))) ∧
      s2.revoked = s'.revoked ∧
      ∃ imports, s'.trace = s2.trace ++
        [.vaultReadRaw ("/" ++ r.VaultPKIPath ++ "/crl/pem"), .awsLoadConfig,
          .awsExport r.ClientVPNEndpointID] ++ imports := by
  obtain ⟨users, s1, s2, rerr, hlist, hloop, hraw, hrev, hgw, htrace⟩ :=
    UpdateCRL_ok lib order env r s s' crl h
  refine ⟨hgw, s2, rerr, hraw, ?_, hrev.symm, _, htrace⟩
  unfold GetCRL
  simp only [hraw]

/-- Witness for C6: alice has three unrevoked certificates; after the run the
gateway holds the CRL the backend served after the revocations. -/
theorem UpdateCRL_gateway_equals_fetched_witness :
    (UpdateCRL demoLib id demoEnv demoRequest State.init).1 = .ok "crl:01-02" ∧
    (UpdateCRL demoLib id demoEnv demoRequest State.init).2.gateway = some "crl:01-02" :=
  ⟨by decide,
   (UpdateCRL_gateway_equals_fetched demoLib id demoEnv demoRequest State.init
      (UpdateCRL demoLib id demoEnv demoRequest State.init).2 "crl:01-02" (by decide)).1⟩

/-! ## CertificateCatalog: the map built by `ListUsers` -/

theorem UserMap.get_append (m : UserMap) (k u : String) (c : Certificate) :
    (m.append k c).get u = if u = k then m.get u ++ [c] else m.get u := by
  induction m with
  | nil =>
    by_cases h : u = k
    · simp [UserMap.append, UserMap.get, h]
    · have h' : ¬ k = u := fun e => h e.symm
      simp [UserMap.append, UserMap.get, h, h']
  | cons kv rest ih =>
    obtain ⟨k', v⟩ := kv
    by_cases hk : k' = k
    · by_cases hu : u = k
      · simp [UserMap.append, UserMap.get, hk, hu]
      · have h' : ¬ k = u := fun e => hu e.symm
        simp [UserMap.append, UserMap.get, hk, hu, h']
    · by_cases hu' : k' = u
      · have hne : ¬ u = k := fun e => hk (hu'.trans e)
        simp [UserMap.append, UserMap.get, hk, hu', hne]
      · simp [UserMap.append, UserMap.get, hk, hu', ih]

theorem UserMap.append_keys (m : UserMap) (k : String) (c : Certificate) :
    (m.append k c).map Prod.fst =
      if k ∈ m.map Prod.fst then m.map Prod.fst else m.map Prod.fst ++ [k] := by
  induction m with
  | nil => simp [UserMap.append]
  | cons kv rest ih =>
    obtain ⟨k', v⟩ := kv
    by_cases hk : k' = k
    · simp [UserMap.append, hk]
    · have hk' : ¬ k = k' := fun e => hk e.symm
      simp only [UserMap.append, if_neg hk, List.map_cons, ih, List.mem_cons, hk', false_or]
      split <;> simp

theorem UserMap.append_nodup (m : UserMap) (k : String) (c : Certificate)
    (h : (m.map Prod.fst).Nodup) : ((m.append k c).map Prod.fst).Nodup := by
  rw [UserMap.append_keys]
  split
  · exact h
  · rename_i hk
    exact List.nodup_append.mpr ⟨h, List.nodup_singleton k, by
      intro a ha hb
      rw [List.mem_singleton] at hb
      exact hk (hb ▸ ha)⟩

theorem UserMap.get_of_mem (m : UserMap) (u : String) (crts : List Certificate)
    (hnd : (m.map Prod.fst).Nodup) (h : (u, crts) ∈ m) : m.get u = crts := by
  induction m with
  | nil => cases h
  | cons kv rest ih =>
    obtain ⟨k', v⟩ := kv
    simp only [List.map_cons, List.nodup_cons] at hnd
    rcases List.mem_cons.mp h with heq | hrest
    · cases heq; simp [UserMap.get]
    · have hne : ¬ k' = u := by
        intro e
        apply hnd.1
        rw [e]
        exact List.mem_map.mpr ⟨(u, crts), hrest, rfl⟩
      simp [UserMap.get, hne, ih hnd.2 hrest]

theorem buildMap_nodup (entries : List (String × Certificate)) (m : UserMap)
    (h : (m.map Prod.fst).Nodup) : ((buildMap entries m).map Prod.fst).Nodup := by
  induction entries generalizing m with
  | nil => exact h
  | cons p ps ih => exact ih _ (UserMap.append_nodup m p.1 p.2 h)

theorem buildMap_get (entries : List (String × Certificate)) (m : UserMap) (u : String) :
    (buildMap entries m).get u = m.get u ++ appendedFor entries u := by
  induction entries generalizing m with
  | nil => simp [buildMap, appendedFor]
  | cons p ps ih =>
    have := ih (m.append p.1 p.2)
    simp only [buildMap, List.foldl_cons] at this ⊢
    rw [this, UserMap.get_append]
    by_cases hu : u = p.1
    · have hp : p.1 = u := hu.symm
      simp [appendedFor, List.filter_cons, hu]
    · have hp : ¬ p.1 = u := fun e => hu e.symm
      simp [appendedFor, List.filter_cons, hu, hp]

/-- Every sequence of the map built from the empty map is the sequence of the
entries appended for its user. -/
theorem buildMap_mem (entries : List (String × Certificate)) (u : String)
    (crts : List Certificate) (h : (u, crts) ∈ buildMap entries []) :
    crts = appendedFor entries u := by
  have hnd := buildMap_nodup entries [] (by simp)
  have hget := UserMap.get_of_mem _ u crts hnd h
  rw [buildMap_get] at hget
  simpa [UserMap.get] using hget.symm

/-- A loop that reaches the end of the keys has appended exactly `appended`. -/
theorem listUsersLoop_finished (lib : Lib) (env : Env) (pki crl : String)
    (keys : List String) (users users' : UserMap) (s s' : State)
    (h : listUsersLoop lib env pki crl keys users s = (.finished users', s')) :
    users' = buildMap (appended lib env pki crl keys s) users := by
  induction keys generalizing users s with
  | nil =>
    simp only [listUsersLoop] at h
    cases h
    rfl
  | cons key rest ih =>
    unfold listUsersLoop at h
    unfold appended
    dsimp only at h ⊢
    split at h
    · cases h
    · cases h
    · split at h
      · cases h
      · split at h
        · cases h
        · split at h
          · rename_i hca
            simp only [hca, if_true]
            exact ih _ _ h
          · rename_i hca
            simp only [hca, if_false]
            split at h
            · cases h
            · rename_i revoked hrev
              have := ih _ _ h
              simpa [buildMap, usernameOf, certificateOf, Time.Local] using this

/-- A loop that ends early returns an error or, at an undecodable entry, a nil
map with a nil error, or it faults. -/
theorem listUsersLoop_returned (lib : Lib) (env : Env) (pki crl : String)
    (keys : List String) (users : UserMap) (s s' : State) (res : Result UserMap)
    (h : listUsersLoop lib env pki crl keys users s = (.returned res, s')) :
    res = .ok [] ∨ (∃ e, res = .error e) ∨ res = .fault := by
  induction keys generalizing users s with
  | nil => simp only [listUsersLoop] at h; cases h
  | cons key rest ih =>
    unfold listUsersLoop at h
    dsimp only at h
    split at h
    · cases h; exact Or.inr (Or.inl ⟨_, rfl⟩)
    · cases h; exact Or.inr (Or.inr rfl)
    · split at h
      · cases h; exact Or.inl rfl
      · split at h
        · cases h; exact Or.inr (Or.inl ⟨_, rfl⟩)
        · split at h
          · exact ih _ _ h
          · split at h
            · cases h; exact Or.inr (Or.inl ⟨_, rfl⟩)
            · exact ih _ _ h

/-- A successful `ListUsers` returns the nil map (at an undecodable entry) or the
map of the entries appended, each sequence sorted. -/
theorem ListUsers_ok (lib : Lib) (env : Env) (r : ListUsersRequest) (s s' : State)
    (users : UserMap) (h : ListUsers lib env r s = (.ok users, s')) :
    users = [] ∨
    users = (buildMap (catalogEntries lib env r s) []).map
      fun kv => (kv.1, lib.sortSlice ListUsers.less kv.2) := by
  unfold ListUsers at h
  unfold catalogEntries
  dsimp only at h ⊢
  split at h
  · cases h
  · split at h
    · cases h
    · cases h
  · rename_i keys hkeys
    split at h
    · cases h
    · rename_i crl s1 hget
      split at h
      · rename_i res s2 hloop
        cases h
        rcases listUsersLoop_returned lib env _ _ _ _ _ _ _ hloop with h1 | ⟨e, h1⟩ | h1
        · cases h1; exact Or.inl rfl
        · cases h1
        · cases h1
      · rename_i built s2 hloop
        cases h
        right
        rw [listUsersLoop_finished lib env _ _ _ _ _ _ _ hloop]

/-- Every sequence of a successful listing is the sorted sequence of the entries
appended for its user. -/
theorem ListUsers_mem (lib : Lib) (env : Env) (r : ListUsersRequest) (s s' : State)
    (users : UserMap) (h : ListUsers lib env r s = (.ok users, s'))
    (u : String) (crts : List Certificate) (hm : (u, crts) ∈ users) :
    crts = lib.sortSlice ListUsers.less (appendedFor (catalogEntries lib env r s) u) := by
  rcases ListUsers_ok lib env r s s' users h with h0 | h1
  · rw [h0] at hm; cases hm
  · rw [h1] at hm
    obtain ⟨kv, hkv, heq⟩ := List.mem_map.mp hm
    obtain ⟨k, v⟩ := kv
    cases heq
    rw [buildMap_mem _ _ _ hkv]

theorem not_before_iff (a b : Certificate) :
    b.NotBefore.Before a.NotBefore = false ↔ a.NotBefore ≤ b.NotBefore := by
  simp [Time.Before]

/-- The closure of `ListUsers` meets the requirements of `sort.Slice`. -/
theorem ListUsers_less_contract : LessContract ListUsers.less := by
  refine ⟨fun a => ?_, fun a b c hab hbc => ?_, fun a b c hab hbc => ?_⟩
  · simp [ListUsers.less, Time.Before]
  · simp only [ListUsers.less, Time.Before, decide_eq_true_eq] at hab hbc ⊢
    exact lt_trans hab hbc
  · simp only [ListUsers.less, Time.Before, decide_eq_false_iff_not, not_lt] at hab hbc ⊢
    exact le_trans hbc hab

/-- With the closure of `ListUsers`, the contract of `sort.Slice` gives a
permutation in which no element is `Before` an earlier one. -/
theorem sliceContract_sortContract (lib : Lib) (h : lib.SliceContract) : lib.SortContract :=
  fun crts => h ListUsers.less ListUsers_less_contract crts

/-- The insertion sort of the sample library meets the contract of `sort.Slice`,
for every `less`. -/
theorem demoLib_sliceContract : demoLib.SliceContract := by
  intro less hless crts
  obtain ⟨hirr, htrans, hneg⟩ := hless
  haveI : IsTotal Certificate (fun a b => less b a = false) :=
    ⟨fun a b => by
      cases hba : less b a with
      | false => exact Or.inl rfl
      | true =>
        right
        cases hab : less a b with
        | false => rfl
        | true =>
          have := htrans b a b hba hab
          rw [hirr b] at this
          cases this⟩
  haveI : IsTrans Certificate (fun a b => less b a = false) :=
    ⟨fun a b c hab hbc => hneg c b a hbc hab⟩
  exact ⟨List.perm_insertionSort _ crts,
    List.sorted_insertionSort (fun a b : Certificate => less b a = false) crts⟩

/-- The insertion sort of the sample library sorts by `NotBefore`. -/
theorem demoLib_sortContract : demoLib.SortContract :=
  sliceContract_sortContract demoLib demoLib_sliceContract

/-- C10: when `sort.Slice` meets its contract (for every valid `less` it returns
a permutation in which no element is `less` than an earlier one), the closure
`crts[i].NotBefore.Before(crts[j].NotBefore)` that `ListUsers` hands to it makes
the sequence of every user in a successful result ascending by `NotBefore` (for
positions `i < j` the certificate at `j` is not before the one at `i`), a
permutation of the certificates appended for that user, and its last element has
the maximum `NotBefore`. -/
theorem ListUsers_sorted_by_NotBefore (lib : Lib) (env : Env) (r : ListUsersRequest)
    (s s' : State) (users : UserMap) (hsort : lib.SliceContract)
    (h : ListUsers lib env r s = (.ok users, s')) :
    ∀ u crts, (u, crts) ∈ users →
      (∀ (i j : Nat) (a b : Certificate), i < j → crts[i]? = some a → crts[j]? = some b →
        b.NotBefore.Before a.NotBefore = false) ∧
      crts.Perm (appendedFor (catalogEntries lib env r s) u) ∧
      (∀ last, crts.getLast? = some last → ∀ c ∈ crts, c.NotBefore ≤ last.NotBefore) := by
  intro u crts hm
  have hcrts := ListUsers_mem lib env r s s' users h u crts hm
  obtain ⟨hperm, hpw⟩ := hsort ListUsers.less ListUsers_less_contract
    (appendedFor (catalogEntries lib env r s) u)
  rw [← hcrts] at hperm hpw
  have hpw : crts.Pairwise (fun a b => b.NotBefore.Before a.NotBefore = false) := hpw
  refine ⟨?_, hperm, ?_⟩
  · intro i j a b hij ha hb
    obtain ⟨hi, hai⟩ := List.getElem?_eq_some.mp ha
    obtain ⟨hj, hbj⟩ := List.getElem?_eq_some.mp hb
    have := List.pairwise_iff_getElem.mp hpw i j hi hj hij
    rw [hai, hbj] at this
    exact this
  · intro last hlast c hc
    obtain ⟨ys, hys⟩ := List.getLast?_eq_some_iff.mp hlast
    rw [hys] at hpw hc
    rcases List.mem_append.mp hc with hin | hin
    · have := (List.pairwise_append.mp hpw).2.2 c hin last (by simp)
      exact (not_before_iff c last).mp this
    · rw [List.mem_singleton] at hin
      rw [hin]

/-- Witness for C10: the three certificates of alice are listed in the order
`02`, `03`, `01` and come out ordered by date. -/
theorem ListUsers_sorted_by_NotBefore_witness :
    demoLib.SliceContract ∧
    (ListUsers demoLib demoEnv ⟨"pki", "cvpn-1"⟩ State.init).1 =
      .ok [("alice", [certificateOf "alice-1" (demoCert 1 "alice@example.com" 100 false [2]) false,
                      certificateOf "alice-2" (demoCert 2 "alice@example.com" 200 false [2]) false,
                      certificateOf "alice-3" (demoCert 3 "alice@example.com" 300 false [2]) false])] ∧
    ∀ c ∈ [certificateOf "alice-1" (demoCert 1 "alice@example.com" 100 false [2]) false,
           certificateOf "alice-2" (demoCert 2 "alice@example.com" 200 false [2]) false,
           certificateOf "alice-3" (demoCert 3 "alice@example.com" 300 false [2]) false],
      c.NotBefore ≤
        (certificateOf "alice-3" (demoCert 3 "alice@example.com" 300 false [2]) false).NotBefore :=
  ⟨demoLib_sliceContract, by decide,
   (ListUsers_sorted_by_NotBefore demoLib demoEnv ⟨"pki", "cvpn-1"⟩ State.init
      (ListUsers demoLib demoEnv ⟨"pki", "cvpn-1"⟩ State.init).2 _ demoLib_sliceContract
      (by decide) "alice" _ (List.mem_singleton.mpr rfl)).2.2 _ (by decide)⟩

/-- The flag of every appended certificate is the answer of `isRevoked` on the
CRL of the listing. -/
theorem appended_flag (lib : Lib) (env : Env) (pki crl : String) (keys : List String)
    (s : State) : ∀ p ∈ appended lib env pki crl keys s,
      isRevoked lib p.2.SerialNumber crl = .ok p.2.Revoked := by
  induction keys generalizing s with
  | nil => intro p hp; simp [appended] at hp
  | cons key rest ih =>
    intro p hp
    unfold appended at hp
    split at hp
    · cases hp
    · cases hp
    · split at hp
      · cases hp
      · split at hp
        · cases hp
        · split at hp
          · exact ih _ p hp
          · split at hp
            · cases hp
            · rename_i revoked hrev
              rcases List.mem_cons.mp hp with heq | hrest
              · rw [heq]; exact hrev
              · exact ih _ p hrest

/-- The flags of a successful listing come from a CRL the backend served in a
state with the revoked set of the start. -/
theorem ListUsers_flag (lib : Lib) (env : Env) (r : ListUsersRequest) (s s' : State)
    (users : UserMap) (hsort : lib.SortContract)
    (h : ListUsers lib env r s = (.ok users, s'))
    (u : String) (crts : List Certificate) (hm : (u, crts) ∈ users) :
    ∀ c ∈ crts, ∃ st raw rerr,
      env.vaultReadRaw st ("/" ++ r.VaultPKIPath ++ "/crl/pem") = .ok (raw, rerr) ∧
      st.revoked = s.revoked ∧ isRevoked lib c.SerialNumber raw = .ok c.Revoked := by
  intro c hc
  rw [ListUsers_mem lib env r s s' users h u crts hm] at hc
  have hc' := ((hsort _).1.mem_iff).mp hc
  obtain ⟨p, hp, rfl⟩ := List.mem_map.mp hc'
  have hp' := (List.mem_filter.mp hp).1
  unfold catalogEntries at hp'
  split at hp'
  · cases hp'
  · cases hp'
  · split at hp'
    · cases hp'
    · rename_i crl s1 hget
      obtain ⟨rerr, hraw, hs1⟩ := GetCRL_ok env _ _ _ _ hget
      exact ⟨_, crl, rerr, hraw, rfl, appended_flag lib env _ crl _ s1 p hp'⟩

/-- In a sequence in which no element is before an earlier one, the last element
has the maximum `NotBefore`. -/
theorem last_is_newest (crts : List Certificate) (last : Certificate)
    (hpw : crts.Pairwise fun a b => b.NotBefore.Before a.NotBefore = false)
    (hlast : crts.getLast? = some last) : ∀ c ∈ crts, c.NotBefore ≤ last.NotBefore := by
  intro c hc
  obtain ⟨ys, hys⟩ := List.getLast?_eq_some_iff.mp hlast
  rw [hys] at hpw hc
  rcases List.mem_append.mp hc with hin | hin
  · have := (List.pairwise_append.mp hpw).2.2 c hin last (by simp)
    exact (not_before_iff c last).mp this
  · rw [List.mem_singleton] at hin
    rw [hin]

/-- An element of a sequence that is not in `dropLast` is its last element. -/
theorem eq_last_of_not_mem_dropLast (crts : List Certificate) (c : Certificate)
    (hc : c ∈ crts) (hn : c ∉ crts.dropLast) : crts.getLast? = some c := by
  have hne : crts ≠ [] := List.ne_nil_of_mem hc
  have hsplit := List.dropLast_append_getLast hne
  rw [← hsplit] at hc
  rcases List.mem_append.mp hc with h | h
  · exact absurd h hn
  · rw [List.mem_singleton] at h
    rw [h, List.getLast?_eq_getLast _ hne]

/-- After a successful `UpdateCRL`, with a backend whose CRL lists only revoked
serial numbers, every certificate but the last of every user is revoked. -/
theorem UpdateCRL_dropLast_revoked (lib : Lib) (order : UserMap → UserMap) (env : Env)
    (r : UpdateCRLRequest) (s s1 s' : State) (users : UserMap) (crl : String)
    (hsort : lib.SortContract) (horder : RangeOrder order)
    (hcrl : CRLSound lib env r.VaultPKIPath)
    (hlist : ListUsers lib env ⟨r.VaultPKIPath, r.ClientVPNEndpointID⟩ s = (.ok users, s1))
    (h : UpdateCRL lib order env r s = (.ok crl, s')) :
    ∀ u crts, (u, crts) ∈ users → ∀ c ∈ crts.dropLast, c.SerialNumber ∈ s'.revoked := by
  obtain ⟨users', s1', s2, rerr, hlist', hloop, _, hrev, _, _⟩ :=
    UpdateCRL_ok lib order env r s s' crl h
  rw [hlist] at hlist'
  cases hlist'
  intro u crts hm c hc
  have hgrow := updateCRLLoop_grow env r.VaultPKIPath (order users) s1
  rw [hloop] at hgrow
  have hquiet := ListUsers_quiet lib env ⟨r.VaultPKIPath, r.ClientVPNEndpointID⟩ s
  rw [hlist] at hquiet
  rw [hrev]
  cases hflag : c.Revoked with
  | false =>
    refine updateCRLLoop_none env _ _ _ _ hloop u crts ((horder users).mem_iff.mpr hm) c ?_
    simp [toRevoke, hc, hflag]
  | true =>
    obtain ⟨st, raw, rerr', hraw, hst, hrevoked⟩ :=
      ListUsers_flag lib env _ s s1 users hsort hlist u crts hm c (List.dropLast_subset _ hc)
    rw [hflag] at hrevoked
    have hin := hcrl st raw rerr' hraw _ hrevoked
    rw [hst] at hin
    exact hgrow.1 _ (by rw [hquiet.1]; exact hin)

/-! ## The invariant of reconciliation -/

/-- C1: with the backend as the set of its revoked serial numbers (a successful
revoke call adds its serial, and the CRL it serves lists only revoked serials),
after every successful `UpdateCRL`, for every user of the catalog built by
`ListUsers`, every certificate other than the last of the sorted sequence is
revoked; hence a certificate that is not revoked is the last one and has the
maximum `NotBefore`, and two certificates of a user that are not revoked are the
same. -/
theorem UpdateCRL_one_active_certificate (lib : Lib) (order : UserMap → UserMap) (env : Env)
    (r : UpdateCRLRequest) (s s1 s' : State) (users : UserMap) (crl : String)
    (hsort : lib.SortContract) (horder : RangeOrder order)
    (hcrl : CRLSound lib env r.VaultPKIPath)
    (hlist : ListUsers lib env ⟨r.VaultPKIPath, r.ClientVPNEndpointID⟩ s = (.ok users, s1))
    (h : UpdateCRL lib order env r s = (.ok crl, s')) :
    ∀ u crts, (u, crts) ∈ users →
      (∀ c ∈ crts.dropLast, c.SerialNumber ∈ s'.revoked) ∧
      (∀ c ∈ crts, c.SerialNumber ∉ s'.revoked →
        crts.getLast? = some c ∧ ∀ d ∈ crts, d.NotBefore ≤ c.NotBefore) ∧
      (∀ c ∈ crts, ∀ d ∈ crts, c.SerialNumber ∉ s'.revoked → d.SerialNumber ∉ s'.revoked →
        c = d) := by
  obtain ⟨users', s1', s2, rerr, hlist', hloop, _, hrev, _, _⟩ :=
    UpdateCRL_ok lib order env r s s' crl h
  rw [hlist] at hlist'
  cases hlist'
  intro u crts hm
  have hgrow := updateCRLLoop_grow env r.VaultPKIPath (order users) s1
  rw [hloop] at hgrow
  have hquiet := ListUsers_quiet lib env ⟨r.VaultPKIPath, r.ClientVPNEndpointID⟩ s
  rw [hlist] at hquiet
  have hdrop : ∀ c ∈ crts.dropLast, c.SerialNumber ∈ s'.revoked :=
    UpdateCRL_dropLast_revoked lib order env r s s1 s' users crl hsort horder hcrl hlist h u crts hm
  have hpw := (hsort (appendedFor (catalogEntries lib env
    ⟨r.VaultPKIPath, r.ClientVPNEndpointID⟩ s) u)).2
  rw [← ListUsers_mem lib env _ s s1 users hlist u crts hm] at hpw
  have hlast : ∀ c ∈ crts, c.SerialNumber ∉ s'.revoked → crts.getLast? = some c := by
    intro c hc hnot
    exact eq_last_of_not_mem_dropLast crts c hc (fun hin => hnot (hdrop c hin))
  refine ⟨hdrop, ?_, ?_⟩
  · intro c hc hnot
    exact ⟨hlast c hc hnot, last_is_newest crts c hpw (hlast c hc hnot)⟩
  · intro c hc d hd hnc hnd
    have h1 := hlast c hc hnc
    have h2 := hlast d hd hnd
    rw [h1] at h2
    exact Option.some.inj h2

/-- The CRL of the sample backend lists only revoked serial numbers. -/
theorem demoEnv_crlSound : CRLSound demoLib demoEnv "pki" := by
  intro st raw rerr hraw serial hrev
  have hfull : isRevoked demoLib serial "crl:01-02" =
      .ok (decide (serial = "01") || (decide (serial = "02") || false)) := rfl
  have hempty : isRevoked demoLib serial "crl:" = .ok false := rfl
  simp only [demoEnv] at hraw
  split at hraw
  · rename_i hboth
    cases hraw
    rw [hfull] at hrev
    simp at hrev
    rcases hrev with h1 | h2
    · rw [h1]; exact hboth.1
    · rw [h2]; exact hboth.2
  · cases hraw
    rw [hempty] at hrev
    cases hrev

/-- Witness for C1: alice has three unrevoked certificates dated 100, 200 and 300;
after `UpdateCRL` the first two are revoked and the third is not. -/
theorem UpdateCRL_one_active_certificate_witness :
    (UpdateCRL demoLib id demoEnv demoRequest State.init).1 = .ok "crl:01-02" ∧
    "01" ∈ (UpdateCRL demoLib id demoEnv demoRequest State.init).2.revoked ∧
    "02" ∈ (UpdateCRL demoLib id demoEnv demoRequest State.init).2.revoked ∧
    "03" ∉ (UpdateCRL demoLib id demoEnv demoRequest State.init).2.revoked ∧
    ∀ c ∈ [certificateOf "alice-1" (demoCert 1 "alice@example.com" 100 false [2]) false,
           certificateOf "alice-2" (demoCert 2 "alice@example.com" 200 false [2]) false],
      c.SerialNumber ∈ (UpdateCRL demoLib id demoEnv demoRequest State.init).2.revoked :=
  ⟨by decide, by decide, by decide, by decide,
   (UpdateCRL_one_active_certificate demoLib id demoEnv demoRequest State.init
      (ListUsers demoLib demoEnv ⟨"pki", "cvpn-1"⟩ State.init).2
      (UpdateCRL demoLib id demoEnv demoRequest State.init).2
      [("alice", [certificateOf "alice-1" (demoCert 1 "alice@example.com" 100 false [2]) false,
                  certificateOf "alice-2" (demoCert 2 "alice@example.com" 200 false [2]) false,
                  certificateOf "alice-3" (demoCert 3 "alice@example.com" 300 false [2]) false])]
      "crl:01-02" demoLib_sortContract (fun m => List.Perm.refl m) demoEnv_crlSound
      (by decide) (by decide) "alice" _ (List.mem_singleton.mpr rfl)).1⟩

/-! ## Running `UpdateCRL` a second time -/

/-- With stored certificates that do not change, a loop that reaches the end of
the keys with the CRL `crlB` appends the entries of a loop with the CRL `crlA`
that did not return an error, with the flags read from `crlB`; and that loop
reached the end of the keys too. -/
theorem listUsersLoop_rerun (lib : Lib) (env : Env) (pki crlA crlB : String)
    (hstable : ∀ st st' path, env.vaultRead st path = env.vaultRead st' path)
    (keys : List String) :
    ∀ (usersA usersB : UserMap) (sA sB : State) (usersB' : UserMap) (sB' : State),
      listUsersLoop lib env pki crlB keys usersB sB = (.finished usersB', sB') →
      (∀ e sA', listUsersLoop lib env pki crlA keys usersA sA ≠ (.returned (.error e), sA')) →
      (∃ usersA' sA', listUsersLoop lib env pki crlA keys usersA sA = (.finished usersA', sA')) ∧
      appended lib env pki crlB keys sB =
        (appended lib env pki crlA keys sA).map fun p => (p.1, reflag lib crlB p.2) := by
  induction keys with
  | nil =>
    intro usersA usersB sA sB usersB' sB' _ _
    exact ⟨⟨usersA, sA, rfl⟩, rfl⟩
  | cons key rest ih =>
    intro usersA usersB sA sB usersB' sB' hB hA
    have hrd := hstable sA sB (pki ++ "/cert/" ++ key)
    unfold listUsersLoop at hB hA ⊢
    unfold appended
    dsimp only at hB hA ⊢
    rw [hrd] at hA ⊢
    cases hread : env.vaultRead sB (pki ++ "/cert/" ++ key) with
    | error e => simp [hread] at hB
    | absent => simp [hread] at hB
    | ok raw =>
      simp only [hread] at hB hA ⊢
      cases hpem : lib.pemDecode raw with
      | none => simp [hpem] at hB
      | some block =>
        simp only [hpem] at hB hA ⊢
        cases hparse : lib.ParseCertificate block.Bytes with
        | error e => simp [hparse] at hB
        | ok cert =>
          simp only [hparse] at hB hA ⊢
          by_cases hca : (cert.IsCA || isServerCertificate cert) = true
          · simp only [hca, if_true] at hB hA ⊢
            exact ih _ _ _ _ _ _ hB hA
          · simp only [hca, Bool.false_eq_true, if_false] at hB hA ⊢
            cases hrB : isRevoked lib (TrimSpace (getHexFormatted cert.SerialNumber.Bytes))
                crlB with
            | error e => simp [hrB] at hB
            | ok revB =>
              cases hrA : isRevoked lib (TrimSpace (getHexFormatted cert.SerialNumber.Bytes))
                  crlA with
              | error e =>
                exfalso
                exact hA e (sA.record (Call.vaultRead (pki ++ "/cert/" ++ key))) (by rw [hrA])
              | ok revA =>
                simp only [hrA, hrB] at hB hA ⊢
                obtain ⟨hfin, happ⟩ := ih _ _ _ _ _ _ hB hA
                refine ⟨hfin, ?_⟩
                rw [happ]
                simp [reflag, certificateOf, hrB]

/-- A successful `ListUsers`, step by step: the keys listed, the CRL fetched, and
a loop that either returned the nil map with a nil error or reached the end of
the keys, in which case the result is the map built with every sequence sorted. -/
theorem ListUsers_inv (lib : Lib) (env : Env) (r : ListUsersRequest) (s s' : State)
    (users : UserMap) (h : ListUsers lib env r s = (.ok users, s')) :
    ∃ keys crl rerr,
      env.vaultList s (r.VaultPKIPath ++ "/certs") = .ok keys ∧
      env.vaultReadRaw (s.record (.vaultList (r.VaultPKIPath ++ "/certs")))
        ("/" ++ r.VaultPKIPath ++ "/crl/pem") = .ok (crl, rerr) ∧
      ((∃ t, listUsersLoop lib env r.VaultPKIPath crl keys []
          ((s.record (.vaultList (r.VaultPKIPath ++ "/certs"))).record
            (.vaultReadRaw ("/" ++ r.VaultPKIPath ++ "/crl/pem"))) = (.returned (.ok []), t) ∧
          users = []) ∨
       (∃ built t, listUsersLoop lib env r.VaultPKIPath crl keys []
          ((s.record (.vaultList (r.VaultPKIPath ++ "/certs"))).record
            (.vaultReadRaw ("/" ++ r.VaultPKIPath ++ "/crl/pem"))) = (.finished built, t) ∧
          users = built.map fun kv => (kv.1, lib.sortSlice ListUsers.less kv.2)) ) := by
  unfold ListUsers at h
  dsimp only at h
  split at h
  · cases h
  · split at h
    · cases h
    · cases h
  · rename_i keys hkeys
    split at h
    · cases h
    · rename_i crl s1 hget
      obtain ⟨rerr, hraw, hs1⟩ := GetCRL_ok env _ _ _ _ hget
      subst hs1
      refine ⟨keys, crl, rerr, hkeys, hraw, ?_⟩
      split at h
      · rename_i res s2 hloop
        cases h
        rcases listUsersLoop_returned lib env _ _ _ _ _ _ _ hloop with h1 | ⟨e, h1⟩ | h1
        · cases h1; exact Or.inl ⟨_, hloop, rfl⟩
        · cases h1
        · cases h1
      · rename_i built s2 hloop
        cases h
        exact Or.inr ⟨built, _, hloop, rfl⟩

theorem UserMap.mem_of_get_ne_nil (m : UserMap) (u : String) (h : m.get u ≠ []) :
    (u, m.get u) ∈ m := by
  induction m with
  | nil => simp [UserMap.get] at h
  | cons kv rest ih =>
    obtain ⟨k', v⟩ := kv
    by_cases hk : k' = u
    · simp [UserMap.get, hk]
    · simp only [UserMap.get, if_neg hk] at h ⊢
      exact List.mem_cons_of_mem _ (ih h)

/-- A user with an appended entry has its sequence in the map built. -/
theorem buildMap_mem_of_ne_nil (entries : List (String × Certificate)) (u : String)
    (h : appendedFor entries u ≠ []) : (u, appendedFor entries u) ∈ buildMap entries [] := by
  have hget := buildMap_get entries [] u
  simp only [UserMap.get, List.nil_append] at hget
  have := UserMap.mem_of_get_ne_nil (buildMap entries []) u (by rw [hget]; exact h)
  rwa [hget] at this

theorem appendedFor_map (entries : List (String × Certificate)) (f : Certificate → Certificate)
    (u : String) :
    appendedFor (entries.map fun p => (p.1, f p.2)) u = (appendedFor entries u).map f := by
  induction entries with
  | nil => rfl
  | cons p ps ih =>
    simp only [appendedFor, List.map_cons, List.filter_cons] at ih ⊢
    by_cases hp : p.1 = u
    · simp [hp, ih]
    · simp [hp, ih]


/-- The insertion sort of the sample library looks only at `NotBefore`. -/
theorem demoLib_sortByKey : demoLib.SortByKey := by
  intro f crts hf
  exact (List.map_insertionSort (fun a b : Certificate => ListUsers.less b a = false)
    (fun a b : Certificate => ListUsers.less b a = false) f crts
    (fun a _ b _ => by simp only [ListUsers.less, hf a, hf b])).symm

/-- C9, the code at the failing input: the backend lists a client certificate of
alice (it decodes and parses, it is not a CA and has no server-auth usage) and
then an entry that is not PEM; `ListUsers` returns a nil error with the nil map,
so the parsed client certificate is in no sequence of the catalog. -/
theorem ListUsers_undecodable_entry_drops_catalog :
    slipEnv.vaultList State.init "pki/certs" = .ok ["01", "06"] ∧
    slipEnv.vaultRead State.init "pki/cert/01" = .ok "alice-1" ∧
    demoLib.pemDecode "alice-1" = some ⟨"CERTIFICATE", [1]⟩ ∧
    demoLib.ParseCertificate [1] =
      .ok (demoCert 1 "alice@example.com" 100 false [ExtKeyUsageClientAuth]) ∧
    (demoCert 1 "alice@example.com" 100 false [ExtKeyUsageClientAuth]).IsCA = false ∧
    isServerCertificate (demoCert 1 "alice@example.com" 100 false [ExtKeyUsageClientAuth])
      = false ∧
    slipEnv.vaultRead State.init "pki/cert/06" = .ok "garbage" ∧
    demoLib.pemDecode "garbage" = none ∧
    (ListUsers demoLib slipEnv ⟨"pki", "cvpn-1"⟩ State.init).1 = .ok [] ∧
    (appended demoLib slipEnv "pki" "crl:" ["01", "06"] State.init).map (·.1) = ["alice"] := by
  decide

theorem isServerCertificate_fold (usages : List ExtKeyUsage) (flag : Bool) :
    usages.foldl (fun flag use => if use = ExtKeyUsageServerAuth then true else flag) flag =
      (flag || decide (ExtKeyUsageServerAuth ∈ usages)) := by
  induction usages generalizing flag with
  | nil => simp
  | cons use rest ih =>
    rw [List.foldl_cons, ih]
    by_cases h : use = ExtKeyUsageServerAuth
    · simp [h]
    · have h' : ¬ ExtKeyUsageServerAuth = use := fun e => h e.symm
      simp [h, h']

/-- The flag `isServerCertificate` says whether server authentication is among the
extended key usages. -/
theorem isServerCertificate_iff (cert : X509Certificate) :
    isServerCertificate cert = true ↔ ExtKeyUsageServerAuth ∈ cert.ExtKeyUsage := by
  unfold isServerCertificate
  rw [isServerCertificate_fold]
  simp

/-- Every appended entry comes from a stored document that decodes and parses to a
certificate that is neither a CA nor a server certificate, and is filed under the
username of that certificate. -/
theorem appended_client (lib : Lib) (env : Env) (pki crl : String) (keys : List String)
    (s : State) : ∀ p ∈ appended lib env pki crl keys s,
      ∃ block cert, lib.pemDecode p.2.CertificatePEM = some block ∧
        lib.ParseCertificate block.Bytes = .ok cert ∧
        cert.IsCA = false ∧ ExtKeyUsageServerAuth ∉ cert.ExtKeyUsage ∧
        p.1 = usernameOf cert ∧ p.2 = certificateOf p.2.CertificatePEM cert p.2.Revoked := by
  induction keys generalizing s with
  | nil => intro p hp; simp [appended] at hp
  | cons key rest ih =>
    intro p hp
    unfold appended at hp
    split at hp
    · cases hp
    · cases hp
    · split at hp
      · cases hp
      · rename_i raw _ _ block hpem
        split at hp
        · cases hp
        · rename_i cert hparse
          split at hp
          · exact ih _ p hp
          · rename_i hca
            split at hp
            · cases hp
            · rename_i revoked hrev
              rcases List.mem_cons.mp hp with heq | hrest
              · subst heq
                simp only [Bool.or_eq_true, not_or, Bool.not_eq_true] at hca
                refine ⟨block, cert, hpem, hparse, hca.1, ?_, rfl, rfl⟩
                intro hmem
                have := (isServerCertificate_iff cert).mpr hmem
                rw [hca.2] at this
                cases this
              · exact ih _ p hrest

/-- CA and server certificates are excluded: in a successful `ListUsers` result every
certificate of every sequence comes from a stored certificate that is not a CA
and has no server-authentication usage, filed under the username derived from
its subject CN. -/
theorem ListUsers_excludes_ca_and_server (lib : Lib) (env : Env) (r : ListUsersRequest)
    (s s' : State) (users : UserMap) (hsort : lib.SortContract)
    (h : ListUsers lib env r s = (.ok users, s')) :
    ∀ u crts, (u, crts) ∈ users → ∀ c ∈ crts,
      ∃ block cert, lib.pemDecode c.CertificatePEM = some block ∧
        lib.ParseCertificate block.Bytes = .ok cert ∧
        cert.IsCA = false ∧ ExtKeyUsageServerAuth ∉ cert.ExtKeyUsage ∧
        u = usernameOf cert := by
  intro u crts hm c hc
  rw [ListUsers_mem lib env r s s' users h u crts hm] at hc
  have hc' := ((hsort _).1.mem_iff).mp hc
  obtain ⟨p, hp, rfl⟩ := List.mem_map.mp hc'
  obtain ⟨hp', hpu⟩ := List.mem_filter.mp hp
  have hu : p.1 = u := by simpa using hpu
  unfold catalogEntries at hp'
  split at hp'
  · cases hp'
  · cases hp'
  · split at hp'
    · cases hp'
    · obtain ⟨block, cert, h1, h2, h3, h4, h5, _⟩ := appended_client lib env _ _ _ _ p hp'
      exact ⟨block, cert, h1, h2, h3, h4, hu ▸ h5⟩

/-! ## Username derivation -/

theorem splitChars_head (sep : Char) (l : List Char) :
    (splitChars sep l).headD [] = l.takeWhile fun c => decide (c ≠ sep) := by
  induction l with
  | nil => rfl
  | cons c cs ih =>
    unfold splitChars
    by_cases h : c = sep
    · simp [h]
    · rw [if_neg h]
      have htw : (c :: cs).takeWhile (fun c => decide (c ≠ sep)) =
          c :: cs.takeWhile (fun c => decide (c ≠ sep)) := by
        rw [List.takeWhile_cons]
        simp [h]
      rw [htw, ← ih]
      cases splitChars sep cs <;> rfl

/-- The first field of `strings.Split(s, sep)` is what comes before the first
`sep`. -/
theorem Split_head (s : String) (sep : Char) :
    (Split s sep).headD "" = String.mk (s.data.takeWhile fun c => decide (c ≠ sep)) := by
  unfold Split
  rw [← splitChars_head]
  cases splitChars sep s.data with
  | nil => rfl
  | cons x xs => rfl

/-- C11: for every subject CN, the username `ListUsers` files a certificate under
is the part of the CN before its first `@`: the CN is the username followed by
nothing or by text that starts with `@`, and the username contains no `@`; it is
the whole CN when the CN contains no `@`.  For `alice@example.com` it is `alice`,
for `bob` it is `bob`. -/
theorem usernameOf_before_first_at (cert : X509Certificate) :
    usernameOf cert =
      String.mk (cert.Subject.CommonName.data.takeWhile fun c => decide (c ≠ '@')) ∧
    (∃ rest, cert.Subject.CommonName.data = (usernameOf cert).data ++ rest ∧
      (rest = [] ∨ rest.head? = some '@')) ∧
    '@' ∉ (usernameOf cert).data ∧
    ('@' ∉ cert.Subject.CommonName.data → usernameOf cert = cert.Subject.CommonName) ∧
    usernameOf (demoCert 1 "alice@example.com" 100 false [ExtKeyUsageClientAuth]) = "alice" ∧
    usernameOf (demoCert 7 "bob" 100 false [ExtKeyUsageClientAuth]) = "bob" := by
  have hu : usernameOf cert =
      String.mk (cert.Subject.CommonName.data.takeWhile fun c => decide (c ≠ '@')) :=
    Split_head _ _
  refine ⟨hu, ?_, ?_, ?_, by decide, by decide⟩
  · refine ⟨cert.Subject.CommonName.data.dropWhile fun c => decide (c ≠ '@'), ?_, ?_⟩
    · rw [hu]
      exact (List.takeWhile_append_dropWhile _ _).symm
    · cases hd : cert.Subject.CommonName.data.dropWhile fun c => decide (c ≠ '@') with
      | nil => exact Or.inl rfl
      | cons x xs =>
        right
        have hx := List.head_dropWhile_not (fun c => decide (c ≠ '@'))
          cert.Subject.CommonName.data (by rw [hd]; simp)
        simp only [hd, List.head_cons] at hx
        simpa using hx
  · rw [hu]
    intro hmem
    have := List.mem_takeWhile_imp hmem
    simp at this
  · intro hno
    rw [hu]
    have hall : cert.Subject.CommonName.data.takeWhile (fun c => decide (c ≠ '@')) =
        cert.Subject.CommonName.data := by
      rw [List.takeWhile_eq_self_iff]
      intro c hc
      have : c ≠ '@' := fun e => hno (e ▸ hc)
      simpa using this
    rw [hall]

/-! ## Serial numbers and the revocation flag -/

theorem isRevoked_eq (lib : Lib) (serial crlPEM : String) :
    isRevoked lib serial crlPEM =
      match lib.ParseRevocationList (crlDER lib crlPEM) with
      | .error err => .error err
      | .ok list =>
        .ok (list.RevokedCertificateEntries.any fun entry =>
          decide (serial = TrimSpace (getHexFormatted entry.SerialNumber.Bytes))) := rfl

theorem hexDigit_inj : ∀ m < 16, ∀ n < 16, hexDigit m = hexDigit n → m = n := by decide

theorem hexDigit_not_space : ∀ n < 16, isSpace (hexDigit n) = false := by decide

theorem getHexFormatted_fold (bs : List Byte) (acc : String) (hacc : acc.length > 0) :
    (bs.foldl (fun ret cur => (if ret.length > 0 then ret ++ "-" else ret) ++ fmt02x cur)
      acc).data = acc.data ++ hexTail bs := by
  induction bs generalizing acc with
  | nil => simp [hexTail]
  | cons c cs ih =>
    rw [List.foldl_cons, if_pos hacc, ih]
    · simp [String.data_append, hexTail, fmt02x]
    · simp only [String.length_append]
      omega

/-- The text of `getHexFormatted`: two digits for the first byte, then a `-` and
two digits for every further byte. -/
theorem getHexFormatted_data (b : Byte) (bs : List Byte) :
    (getHexFormatted (b :: bs)).data =
      hexDigit (b.val / 16) :: hexDigit (b.val % 16) :: hexTail bs := by
  unfold getHexFormatted
  rw [List.foldl_cons, getHexFormatted_fold]
  · rfl
  · show 0 < (("" : String) ++ fmt02x b).length
    rw [String.length_append]
    exact Nat.lt_of_lt_of_le (by decide : 0 < 2) (Nat.le_add_left _ _)

theorem byte_eq_of_digits (a b : Byte) (h1 : hexDigit (a.val / 16) = hexDigit (b.val / 16))
    (h2 : hexDigit (a.val % 16) = hexDigit (b.val % 16)) : a = b := by
  have ha := a.isLt
  have hb := b.isLt
  have e1 := hexDigit_inj _ (by omega) _ (by omega) h1
  have e2 := hexDigit_inj _ (Nat.mod_lt _ (by decide)) _ (Nat.mod_lt _ (by decide)) h2
  apply Fin.ext
  omega

theorem hexTail_inj : ∀ as bs : List Byte, hexTail as = hexTail bs → as = bs
  | [], [], _ => rfl
  | [], _ :: _, h => by simp [hexTail] at h
  | _ :: _, [], h => by simp [hexTail] at h
  | a :: as, b :: bs, h => by
    simp only [hexTail, List.cons.injEq, true_and] at h
    rw [byte_eq_of_digits a b h.1 h.2.1, hexTail_inj as bs h.2.2]

/-- The function `getHexFormatted` is injective on byte sequences. -/
theorem getHexFormatted_inj (as bs : List Byte)
    (h : getHexFormatted as = getHexFormatted bs) : as = bs := by
  have hd := congrArg String.data h
  cases as with
  | nil =>
    cases bs with
    | nil => rfl
    | cons b bs =>
      rw [getHexFormatted_data] at hd
      exact absurd hd (by simp [getHexFormatted])
  | cons a as =>
    cases bs with
    | nil =>
      rw [getHexFormatted_data] at hd
      exact absurd hd (by simp [getHexFormatted])
    | cons b bs =>
      rw [getHexFormatted_data, getHexFormatted_data] at hd
      simp only [List.cons.injEq] at hd
      rw [byte_eq_of_digits a b hd.1 hd.2.1, hexTail_inj as bs hd.2.2]

theorem hexTail_not_space (bs : List Byte) : ∀ c ∈ hexTail bs, isSpace c = false := by
  induction bs with
  | nil => intro c hc; simp [hexTail] at hc
  | cons b bs ih =>
    intro c hc
    have hb := b.isLt
    simp only [hexTail, List.mem_cons] at hc
    rcases hc with h | h | h | h
    · rw [h]; decide
    · rw [h]; exact hexDigit_not_space _ (by omega)
    · rw [h]; exact hexDigit_not_space _ (Nat.mod_lt _ (by decide))
    · exact ih c h

theorem TrimSpace_of_no_space (s : String) (h : ∀ c ∈ s.data, isSpace c = false) :
    TrimSpace s = s := by
  have hdrop : ∀ l : List Char, (∀ c ∈ l, isSpace c = false) → l.dropWhile isSpace = l := by
    intro l hl
    cases l with
    | nil => rfl
    | cons x xs => simp [List.dropWhile, hl x (List.mem_cons_self _ _)]
  unfold TrimSpace
  rw [hdrop _ h, hdrop _ (fun c hc => h c (List.mem_reverse.mp hc)), List.reverse_reverse]

/-- The text of `getHexFormatted` has no white space: `TrimSpace` leaves it as it
is. -/
theorem TrimSpace_getHexFormatted (bs : List Byte) :
    TrimSpace (getHexFormatted bs) = getHexFormatted bs := by
  apply TrimSpace_of_no_space
  cases bs with
  | nil => intro c hc; simp [getHexFormatted] at hc
  | cons b bs =>
    rw [getHexFormatted_data]
    intro c hc
    have hb := b.isLt
    simp only [List.mem_cons] at hc
    rcases hc with h | h | h
    · rw [h]; exact hexDigit_not_space _ (by omega)
    · rw [h]; exact hexDigit_not_space _ (Nat.mod_lt _ (by decide))
    · exact hexTail_not_space bs c h

/-- C12: the function `getHexFormatted` is injective on byte sequences, and, when
`sort.Slice` meets its contract, for every certificate of a successful
`ListUsers` result, built from the stored certificate `cert`, the flag `Revoked`
is true if and only if the CRL fetched in that call (right after the listing)
has an entry whose serial-number bytes are those of `cert`. -/
theorem ListUsers_revoked_iff_serial_in_crl (lib : Lib) (env : Env) (r : ListUsersRequest)
    (s s' : State) (users : UserMap) (hsort : lib.SortContract)
    (h : ListUsers lib env r s = (.ok users, s')) :
    (∀ as bs : List Byte, getHexFormatted as = getHexFormatted bs → as = bs) ∧
    ∀ u crts, (u, crts) ∈ users → ∀ c ∈ crts,
      ∃ block cert crl rerr list,
        lib.pemDecode c.CertificatePEM = some block ∧
        lib.ParseCertificate block.Bytes = .ok cert ∧
        c.SerialNumber = getHexFormatted cert.SerialNumber.Bytes ∧
        env.vaultReadRaw (s.record (.vaultList (r.VaultPKIPath ++ "/certs")))
          ("/" ++ r.VaultPKIPath ++ "/crl/pem") = .ok (crl, rerr) ∧
        lib.ParseRevocationList (crlDER lib crl) = .ok list ∧
        (c.Revoked = true ↔
          ∃ entry ∈ list.RevokedCertificateEntries,
            entry.SerialNumber.Bytes = cert.SerialNumber.Bytes) := by
  refine ⟨getHexFormatted_inj, ?_⟩
  intro u crts hm c hc
  rw [ListUsers_mem lib env r s s' users h u crts hm] at hc
  have hc' := ((hsort _).1.mem_iff).mp hc
  obtain ⟨p, hp, rfl⟩ := List.mem_map.mp hc'
  have hp' := (List.mem_filter.mp hp).1
  unfold catalogEntries at hp'
  split at hp'
  · cases hp'
  · cases hp'
  · split at hp'
    · cases hp'
    · rename_i crl s1 hget
      obtain ⟨rerr, hraw, _⟩ := GetCRL_ok env _ _ _ _ hget
      obtain ⟨block, cert, h1, h2, _, _, _, h6⟩ := appended_client lib env _ _ _ _ p hp'
      have hflag := appended_flag lib env _ crl _ s1 p hp'
      have hserial : p.2.SerialNumber = getHexFormatted cert.SerialNumber.Bytes := by
        have := congrArg Certificate.SerialNumber h6
        rw [this]
        exact TrimSpace_getHexFormatted _
      rw [isRevoked_eq] at hflag
      cases hparse : lib.ParseRevocationList (crlDER lib crl) with
      | error e => rw [hparse] at hflag; cases hflag
      | ok list =>
        rw [hparse] at hflag
        have hany := Except.ok.inj hflag
        refine ⟨block, cert, crl, rerr, list, h1, h2, hserial, hraw, hparse, ?_⟩
        rw [← hany, List.any_eq_true]
        constructor
        · rintro ⟨entry, hentry, heq⟩
          refine ⟨entry, hentry, ?_⟩
          rw [decide_eq_true_eq, hserial, TrimSpace_getHexFormatted] at heq
          exact (getHexFormatted_inj _ _ heq).symm
        · rintro ⟨entry, hentry, heq⟩
          refine ⟨entry, hentry, ?_⟩
          rw [decide_eq_true_eq, hserial, TrimSpace_getHexFormatted, heq]

/-- Witness for C12: with `01` and `02` revoked the CRL has the entries `[1]` and
`[2]`; the certificate with serial `01` is flagged, the one with serial `03` is
not. -/
theorem ListUsers_revoked_iff_serial_in_crl_witness :
    demoLib.SortContract ∧
    (ListUsers demoLib demoEnv ⟨"pki", "cvpn-1"⟩ { State.init with revoked := ["01", "02"] }).1 =
      .ok [("alice", [certificateOf "alice-1" (demoCert 1 "alice@example.com" 100 false [2]) true,
                      certificateOf "alice-2" (demoCert 2 "alice@example.com" 200 false [2]) true,
                      certificateOf "alice-3" (demoCert 3 "alice@example.com" 300 false [2]) false])] ∧
    demoLib.ParseRevocationList (crlDER demoLib "crl:01-02") = .ok ⟨[⟨⟨[1]⟩⟩, ⟨⟨[2]⟩⟩]⟩ ∧
    ∀ c ∈ [certificateOf "alice-1" (demoCert 1 "alice@example.com" 100 false [2]) true,
           certificateOf "alice-2" (demoCert 2 "alice@example.com" 200 false [2]) true,
           certificateOf "alice-3" (demoCert 3 "alice@example.com" 300 false [2]) false],
      ∃ block cert crl rerr list,
        demoLib.pemDecode c.CertificatePEM = some block ∧
        demoLib.ParseCertificate block.Bytes = .ok cert ∧
        c.SerialNumber = getHexFormatted cert.SerialNumber.Bytes ∧
        demoEnv.vaultReadRaw
          (({ State.init with revoked := ["01", "02"] } : State).record
            (.vaultList ("pki" ++ "/certs")))
          ("/" ++ "pki" ++ "/crl/pem") = .ok (crl, rerr) ∧
        demoLib.ParseRevocationList (crlDER demoLib crl) = .ok list ∧
        (c.Revoked = true ↔
          ∃ entry ∈ list.RevokedCertificateEntries,
            entry.SerialNumber.Bytes = cert.SerialNumber.Bytes) :=
  ⟨demoLib_sortContract, by decide, by decide,
   (ListUsers_revoked_iff_serial_in_crl demoLib demoEnv ⟨"pki", "cvpn-1"⟩
      { State.init with revoked := ["01", "02"] }
      (ListUsers demoLib demoEnv ⟨"pki", "cvpn-1"⟩
        { State.init with revoked := ["01", "02"] }).2 _ demoLib_sortContract
      (by decide)).2 "alice" _ (List.mem_singleton.mpr rfl)⟩

/-! ## Error handling of the listing and of the CRL fetch -/

/-- C13, the code at the failing input: the second listed entry is not PEM.
`ListUsers` returns the nil map with a nil error, and `UpdateCRL`, seeing no
error, goes on with the empty catalog: it fetches the CRL, exports and imports. -/
theorem ListUsers_undecodable_entry_returns_nil_error :
    slipEnv.vaultRead State.init "pki/cert/06" = .ok "garbage" ∧
    demoLib.pemDecode "garbage" = none ∧
    ListUsers demoLib slipEnv ⟨"pki", "cvpn-1"⟩ State.init =
      (.ok [], { trace := [.vaultList "pki/certs", .vaultReadRaw "/pki/crl/pem",
                   .vaultRead "pki/cert/01", .vaultRead "pki/cert/06"],
                 revoked := [], gateway := none }) ∧
    UpdateCRL demoLib id slipEnv demoRequest State.init =
      (.ok "crl:", { trace := [.vaultList "pki/certs", .vaultReadRaw "/pki/crl/pem",
                       .vaultRead "pki/cert/01", .vaultRead "pki/cert/06",
                       .vaultReadRaw "/pki/crl/pem", .awsLoadConfig, .awsExport "cvpn-1",
                       .awsImport "cvpn-1" "crl:"],
                     revoked := [], gateway := some "crl:" }) := by
  decide

/-- With a CRL that does not parse and entries that all read, decode and parse,
the loop of `ListUsers` returns the parse error at the first client certificate
and reaches the end of the keys when there is none. -/
theorem afterReads_append (pki : String) (pre post : List String) :
    ∀ s : State, afterReads pki (pre ++ post) s = afterReads pki post (afterReads pki pre s) := by
  induction pre with
  | nil => intro s; rfl
  | cons key pre ih => intro s; exact ih _

theorem listUsersLoop_skip (lib : Lib) (env : Env) (pki crl : String) (pre rest : List String)
    (users : UserMap) :
    ∀ s : State, AllLeftOut lib env pki pre s →
      listUsersLoop lib env pki crl (pre ++ rest) users s =
        listUsersLoop lib env pki crl rest users (afterReads pki pre s) := by
  induction pre with
  | nil => intro s _; rfl
  | cons key pre ih =>
    intro s h
    obtain ⟨⟨raw, block, cert, hread, hpem, hparse, hca⟩, hrest⟩ := h
    rw [List.cons_append]
    conv_lhs => unfold listUsersLoop
    simp only [hread, hpem, hparse, hca, if_true]
    exact ih _ hrest

theorem listUsersLoop_client (lib : Lib) (env : Env) (pki crl : String) (e : Error)
    (hbad : lib.ParseRevocationList (crlDER lib crl) = .error e)
    (key : String) (post : List String) (users : UserMap) (s : State)
    (h : IsClient lib env pki key s) :
    listUsersLoop lib env pki crl (key :: post) users s =
      (.returned (.error e), s.record (.vaultRead (pki ++ "/cert/" ++ key))) := by
  obtain ⟨raw, block, cert, hread, hpem, hparse, hca⟩ := h
  have hrev : ∀ serial, isRevoked lib serial crl = .error e := by
    intro serial
    rw [isRevoked_eq, hbad]
  unfold listUsersLoop
  simp only [hread, hpem, hparse, hca, hrev, Bool.false_eq_true, if_false]

theorem listUsersLoop_fails (lib : Lib) (env : Env) (pki crl : String) (err : Error)
    (key : String) (post : List String) (users : UserMap) (s : State)
    (h : FailsWith lib env pki key s err) :
    listUsersLoop lib env pki crl (key :: post) users s =
      (.returned (.error err), s.record (.vaultRead (pki ++ "/cert/" ++ key))) := by
  unfold listUsersLoop
  rcases h with hread | ⟨raw, block, hread, hpem, hparse⟩
  · simp only [hread]
  · simp only [hread, hpem, hparse]

/-- C14 as amended: the CRL does not parse and the listing is answered with keys.
`ListUsers` reads the entries in turn and leaves out those that are CA or
server-auth certificates.  If the first entry it does not leave out is a client
certificate, it returns the CRL parse error and no catalog; if that entry fails to
be read or parsed, it returns that error and no catalog; in both cases the
entries that follow are not read, whatever they are.  If every listed entry is a
CA or server-auth certificate, the CRL is never parsed and `ListUsers` returns
the empty catalog with a nil error. -/
theorem ListUsers_malformed_crl (lib : Lib) (env : Env) (r : ListUsersRequest) (s : State)
    (keys : List String) (crl : String) (rerr : Option Error) (e : Error)
    (hkeys : env.vaultList s (r.VaultPKIPath ++ "/certs") = .ok keys)
    (hraw : env.vaultReadRaw (s.record (.vaultList (r.VaultPKIPath ++ "/certs")))
      ("/" ++ r.VaultPKIPath ++ "/crl/pem") = .ok (crl, rerr))
    (hbad : lib.ParseRevocationList (crlDER lib crl) = .error e) :
    (∀ pre key post, keys = pre ++ key :: post →
      AllLeftOut lib env r.VaultPKIPath pre (loopStart r s) →
      (IsClient lib env r.VaultPKIPath key (afterReads r.VaultPKIPath pre (loopStart r s)) →
        ListUsers lib env r s =
          (.error e, afterReads r.VaultPKIPath (pre ++ [key]) (loopStart r s))) ∧
      (∀ err,
        FailsWith lib env r.VaultPKIPath key (afterReads r.VaultPKIPath pre (loopStart r s))
          err →
        ListUsers lib env r s =
          (.error err, afterReads r.VaultPKIPath (pre ++ [key]) (loopStart r s)))) ∧
    (AllLeftOut lib env r.VaultPKIPath keys (loopStart r s) →
      ListUsers lib env r s = (.ok [], afterReads r.VaultPKIPath keys (loopStart r s))) := by
  have hstart : ∀ res : LoopExit × State,
      listUsersLoop lib env r.VaultPKIPath crl keys [] (loopStart r s) = res →
      ListUsers lib env r s =
        match res with
        | (.returned result, s2) => (result, s2)
        | (.finished users, s2) =>
          (.ok (users.map fun kv => (kv.1, lib.sortSlice ListUsers.less kv.2)), s2) := by
    intro res hres
    unfold ListUsers GetCRL
    simp only [hkeys, hraw]
    unfold loopStart at hres
    rw [hres]
  refine ⟨?_, ?_⟩
  · intro pre key post hsplit hpre
    constructor
    · intro hclient
      have hl : listUsersLoop lib env r.VaultPKIPath crl keys [] (loopStart r s) =
          (.returned (.error e), afterReads r.VaultPKIPath (pre ++ [key]) (loopStart r s)) := by
        rw [hsplit, listUsersLoop_skip lib env _ crl pre (key :: post) [] _ hpre,
          listUsersLoop_client lib env _ crl e hbad key post [] _ hclient, afterReads_append]
        rfl
      exact hstart _ hl
    · intro err hfail
      have hl : listUsersLoop lib env r.VaultPKIPath crl keys [] (loopStart r s) =
          (.returned (.error err), afterReads r.VaultPKIPath (pre ++ [key]) (loopStart r s)) := by
        rw [hsplit, listUsersLoop_skip lib env _ crl pre (key :: post) [] _ hpre,
          listUsersLoop_fails lib env _ crl err key post [] _ hfail, afterReads_append]
        rfl
      exact hstart _ hl
  · intro hall
    have hl : listUsersLoop lib env r.VaultPKIPath crl keys [] (loopStart r s) =
        (.finished [], afterReads r.VaultPKIPath keys (loopStart r s)) := by
      have := listUsersLoop_skip lib env r.VaultPKIPath crl keys [] [] _ hall
      rw [List.append_nil] at this
      rw [this]
      rfl
    exact hstart _ hl

/-- A listing answered with no secret: when the CRL is fetched, `ListUsers`
faults on reading the keys, in the state in which the loop would start. -/
theorem ListUsers_no_secret (lib : Lib) (env : Env) (r : ListUsersRequest) (s : State)
    (crl : String) (rerr : Option Error)
    (hkeys : env.vaultList s (r.VaultPKIPath ++ "/certs") = .absent)
    (hraw : env.vaultReadRaw (s.record (.vaultList (r.VaultPKIPath ++ "/certs")))
      ("/" ++ r.VaultPKIPath ++ "/crl/pem") = .ok (crl, rerr)) :
    ListUsers lib env r s = (.fault, loopStart r s) := by
  unfold ListUsers GetCRL
  simp only [hkeys, hraw]
  rfl

/-- Witness for C14 as amended: the CA, a client certificate of alice and then
an entry that is not PEM are listed, and the CRL is not PEM; `ListUsers` returns
the CRL parse error after reading the first two entries only.  With only the CA
and a server certificate listed it returns the empty catalog, and when the read of
the server certificate is refused it returns that error. -/
theorem ListUsers_malformed_crl_witness :
    demoLib.ParseRevocationList (crlDER demoLib "garbage") =
      .error "x509: malformed certificate revocation list" ∧
    ListUsers demoLib badCrlTailEnv ⟨"pki", "cvpn-1"⟩ State.init =
      (.error "x509: malformed certificate revocation list",
        { trace := [.vaultList "pki/certs", .vaultReadRaw "/pki/crl/pem",
            .vaultRead "pki/cert/04", .vaultRead "pki/cert/01"],
          revoked := [], gateway := none }) ∧
    ListUsers demoLib badCrlEnv ⟨"pki", "cvpn-1"⟩ State.init =
      (.ok [],
        { trace := [.vaultList "pki/certs", .vaultReadRaw "/pki/crl/pem",
            .vaultRead "pki/cert/04", .vaultRead "pki/cert/05"],
          revoked := [], gateway := none }) ∧
    ListUsers demoLib badCrlDeniedEnv ⟨"pki", "cvpn-1"⟩ State.init =
      (.error "permission denied",
        { trace := [.vaultList "pki/certs", .vaultReadRaw "/pki/crl/pem",
            .vaultRead "pki/cert/04", .vaultRead "pki/cert/05"],
          revoked := [], gateway := none }) := by
  have h1 := ((ListUsers_malformed_crl demoLib badCrlTailEnv ⟨"pki", "cvpn-1"⟩ State.init
    ["04", "01", "06"] "garbage" none "x509: malformed certificate revocation list"
    rfl rfl (by decide)).1 ["04"] "01" ["06"] rfl
    ⟨⟨"ca", ⟨"CERTIFICATE", [4]⟩, demoCert 4 "vpn-ca" 50 true [], rfl, by decide, by decide,
      by decide⟩, trivial⟩).1
    ⟨"alice-1", ⟨"CERTIFICATE", [1]⟩,
      demoCert 1 "alice@example.com" 100 false [ExtKeyUsageClientAuth], rfl, by decide,
      by decide, by decide⟩
  have h2 := (ListUsers_malformed_crl demoLib badCrlEnv ⟨"pki", "cvpn-1"⟩ State.init
    ["04", "05"] "garbage" none "x509: malformed certificate revocation list"
    rfl rfl (by decide)).2
    ⟨⟨"ca", ⟨"CERTIFICATE", [4]⟩, demoCert 4 "vpn-ca" 50 true [], rfl, by decide, by decide,
      by decide⟩,
     ⟨"server", ⟨"CERTIFICATE", [5]⟩,
      demoCert 5 "vpn.example.com" 60 false [ExtKeyUsageServerAuth], rfl, by decide,
      by decide, by decide⟩, trivial⟩
  have h3 := ((ListUsers_malformed_crl demoLib badCrlDeniedEnv ⟨"pki", "cvpn-1"⟩ State.init
    ["04", "05"] "garbage" none "x509: malformed certificate revocation list"
    rfl rfl (by decide)).1 ["04"] "05" [] rfl
    ⟨⟨"ca", ⟨"CERTIFICATE", [4]⟩, demoCert 4 "vpn-ca" 50 true [], rfl, by decide, by decide,
      by decide⟩, trivial⟩).2 "permission denied" (Or.inl rfl)
  exact ⟨by decide, h1.trans (by decide), h2.trans (by decide), h3.trans (by decide)⟩

/-- C14, the claim fails: the CRL of the backend is not PEM, so it does not
parse; yet `ListUsers` returns a nil error, with the empty catalog, when only the
CA and a server certificate are listed; and when nothing is listed, the listing
being answered with no secret, it returns neither error nor catalog: it faults. -/
theorem ListUsers_malformed_crl_unnoticed :
    badCrlEnv.vaultReadRaw (State.init.record (.vaultList "pki/certs")) "/pki/crl/pem" =
      .ok ("garbage", none) ∧
    demoLib.pemDecode "garbage" = none ∧
    demoLib.ParseRevocationList (crlDER demoLib "garbage") =
      .error "x509: malformed certificate revocation list" ∧
    (ListUsers demoLib badCrlEnv ⟨"pki", "cvpn-1"⟩ State.init).1 = .ok [] ∧
    (ListUsers demoLib { badCrlEnv with vaultList := fun _ _ => .absent } ⟨"pki", "cvpn-1"⟩
      State.init).1 = .fault := by
  decide

/-- A failed request for the CRL is returned by `GetCRL` as its error. -/
theorem GetCRL_request_error (env : Env) (pki : String) (s : State) (e : Error)
    (h : env.vaultReadRaw s ("/" ++ pki ++ "/crl/pem") = .error e) :
    GetCRL env pki s = (.error e, s.record (.vaultReadRaw ("/" ++ pki ++ "/crl/pem"))) := by
  unfold GetCRL
  simp only [h]

/-- C15, the code at the failing input: the request for the CRL succeeds and
reading the body fails after the bytes `crl:`.  `GetCRL` returns these bytes with
a nil error, and `UpdateCRL` goes on: it exports and imports the partial CRL. -/
theorem GetCRL_body_error_returns_nil_error :
    eofEnv.vaultReadRaw State.init "/pki/crl/pem" = .ok ("crl:", some "unexpected EOF") ∧
    GetCRL eofEnv "pki" State.init =
      (.ok "crl:", { trace := [.vaultReadRaw "/pki/crl/pem"], revoked := [], gateway := none }) ∧
    UpdateCRL demoLib id eofEnv demoRequest State.init =
      (.ok "crl:", { trace := [.vaultList "pki/certs", .vaultReadRaw "/pki/crl/pem",
                       .vaultReadRaw "/pki/crl/pem", .awsLoadConfig, .awsExport "cvpn-1",
                       .awsImport "cvpn-1" "crl:"],
                     revoked := [], gateway := some "crl:" }) := by
  decide

/-! ## Revoking a user -/

/-- What a pass over the users without error can have added to the revoked set:
serial numbers of certificates it had to revoke. -/
theorem updateCRLLoop_revoked_bound (env : Env) (pki : String) (l : UserMap) (s s' : State)
    (h : updateCRLLoop env pki l s = (none, s')) :
    ∀ x ∈ s'.revoked, x ∈ s.revoked ∨
      ∃ u crts c, (u, crts) ∈ l ∧ c ∈ toRevoke crts false ∧ c.SerialNumber = x := by
  induction l generalizing s with
  | nil =>
    simp only [updateCRLLoop] at h
    cases h
    intro x hx
    exact Or.inl hx
  | cons kv rest ih =>
    obtain ⟨u0, crts0⟩ := kv
    unfold updateCRLLoop at h
    split at h
    · cases h
    · rename_i s1 hr
      rw [revokeUserCertificates_eq_runRevokes] at hr
      have hs1 := runRevokes_none env pki _ s s1 hr
      intro x hx
      rcases ih s1 h x hx with h1 | ⟨u, crts, c, hm, hc, hcx⟩
      · rw [hs1, afterRevokes_revoked, List.mem_append] at h1
        rcases h1 with h1 | h1
        · exact Or.inl h1
        · obtain ⟨c, hc, hcx⟩ := List.mem_map.mp h1
          exact Or.inr ⟨u0, crts0, c, List.mem_cons_self _ _, hc, hcx⟩
      · exact Or.inr ⟨u, crts, c, List.mem_cons_of_mem _ hm, hc, hcx⟩

/-- With stored certificates that do not change, every sequence of a second
successful listing is a sequence of the first one with the flags read again from
the CRL of the second listing. -/
theorem listings_related (lib : Lib) (env : Env) (r : ListUsersRequest)
    (sA tA sB tB : State) (usersA usersB : UserMap)
    (hsort : lib.SortContract) (hkey : lib.SortByKey)
    (hstable : ∀ st st' path, env.vaultList st path = env.vaultList st' path ∧
      env.vaultRead st path = env.vaultRead st' path)
    (hA : ListUsers lib env r sA = (.ok usersA, tA))
    (hB : ListUsers lib env r sB = (.ok usersB, tB)) :
    ∀ w crts2, (w, crts2) ∈ usersB →
      ∃ crts1 crlB, crts2 = crts1.map (reflag lib crlB) ∧ (crts1 = [] ∨ (w, crts1) ∈ usersA) := by
  intro w crts2 hm2
  obtain ⟨keys1, crlA, rerrA, hkeys1, hrawA, hloopA⟩ := ListUsers_inv lib env _ sA tA usersA hA
  obtain ⟨keys2, crlB, rerrB, hkeys2, hrawB, hloopB⟩ := ListUsers_inv lib env _ sB tB usersB hB
  have hkeys : keys2 = keys1 := by
    rw [(hstable sB sA _).1, hkeys1] at hkeys2
    exact (Answer.ok.inj hkeys2).symm
  subst hkeys
  rcases hloopB with ⟨_, _, hnil⟩ | ⟨built2, tB', hfinB, husers2⟩
  · rw [hnil] at hm2; cases hm2
  · have hnoerr : ∀ e sA', listUsersLoop lib env r.VaultPKIPath crlA keys2 []
        ((sA.record (.vaultList (r.VaultPKIPath ++ "/certs"))).record
          (.vaultReadRaw ("/" ++ r.VaultPKIPath ++ "/crl/pem"))) ≠
        (.returned (.error e), sA') := by
      intro e sA' hcontra
      rcases hloopA with ⟨tA', hretA, _⟩ | ⟨built1, tA', hfinA, _⟩
      · rw [hretA] at hcontra; cases hcontra
      · rw [hfinA] at hcontra; cases hcontra
    obtain ⟨⟨built1, tA', hfinA⟩, happ⟩ :=
      listUsersLoop_rerun lib env r.VaultPKIPath crlA crlB (fun st st' p => (hstable st st' p).2)
        keys2 [] [] _ _ built2 tB' hfinB hnoerr
    have husers1 : usersA = built1.map fun kv => (kv.1, lib.sortSlice ListUsers.less kv.2) := by
      rcases hloopA with ⟨tA'', hretA, _⟩ | ⟨built1', tA'', hfinA', hu⟩
      · rw [hretA] at hfinA; cases hfinA
      · rw [hfinA'] at hfinA; cases hfinA; exact hu
    have hb1 := listUsersLoop_finished lib env _ _ _ _ _ _ _ hfinA
    have hb2 := listUsersLoop_finished lib env _ _ _ _ _ _ _ hfinB
    rw [husers2] at hm2
    obtain ⟨kv, hkv, heq⟩ := List.mem_map.mp hm2
    obtain ⟨k, v⟩ := kv
    cases heq
    rw [hb2] at hkv
    have hv := buildMap_mem _ _ _ hkv
    rw [happ, appendedFor_map] at hv
    refine ⟨lib.sortSlice ListUsers.less (appendedFor (appended lib env r.VaultPKIPath crlA keys2
      ((sA.record (.vaultList (r.VaultPKIPath ++ "/certs"))).record
        (.vaultReadRaw ("/" ++ r.VaultPKIPath ++ "/crl/pem")))) k), crlB, ?_, ?_⟩
    · show lib.sortSlice ListUsers.less v = _
      rw [hv, hkey (reflag lib crlB) _ (fun _ => rfl)]
    · by_cases hne : appendedFor (appended lib env r.VaultPKIPath crlA keys2
          ((sA.record (.vaultList (r.VaultPKIPath ++ "/certs"))).record
            (.vaultReadRaw ("/" ++ r.VaultPKIPath ++ "/crl/pem")))) k = []
      · left
        rw [hne]
        exact List.perm_nil.mp (hsort []).1
      · right
        have hmem := buildMap_mem_of_ne_nil _ k hne
        rw [← hb1] at hmem
        rw [husers1]
        exact List.mem_map.mpr ⟨_, hmem, rfl⟩

/-- What a successful `RevokeUser` went through. -/
theorem RevokeUser_ok (lib : Lib) (order : UserMap → UserMap) (env : Env)
    (r : RevokeUserRequest) (s s3 : State)
    (h : RevokeUser lib order env r s = (.ok (), s3)) :
    ∃ users s1 s2 crl,
      ListUsers lib env ⟨r.VaultPKIPath, r.ClientVPNEndpointID⟩ s = (.ok users, s1) ∧
      revokeUserCertificates env r.VaultPKIPath (users.get r.Username) true s1 = (none, s2) ∧
      UpdateCRL lib order env ⟨r.VaultPKIPath, r.ClientVPNEndpointID⟩ s2 = (.ok crl, s3) := by
  unfold RevokeUser at h
  split at h
  · cases h
  · cases h
  · rename_i users s1 hlist
    split at h
    · cases h
    · rename_i s2 hrev
      split at h
      · cases h
      · cases h
      · rename_i crl s3' hupd
        cases h
        exact ⟨users, s1, s2, crl, hlist, hrev, hupd⟩

/-- C16: with the backend as the set of its revoked serial numbers (the CRL it
serves lists only revoked serials), stored certificates that do not change during
the call and serial numbers that are unique, after a successful `RevokeUser` for
`u` every certificate of the catalog sequence of `u` is revoked, the newest
included; for every other user the newest certificate is revoked afterwards
exactly when it was before; and when `u` has no certificate in the catalog, the
call is the reconciliation run right after the listing, with no revoke call in
between. -/
theorem RevokeUser_revokes_user_only (lib : Lib) (order : UserMap → UserMap) (env : Env)
    (r : RevokeUserRequest) (s s1 s3 : State) (users : UserMap)
    (hsort : lib.SortContract) (hkey : lib.SortByKey) (horder : RangeOrder order)
    (hcrl : CRLSound lib env r.VaultPKIPath)
    (hstable : ∀ st st' path, env.vaultList st path = env.vaultList st' path ∧
      env.vaultRead st path = env.vaultRead st' path)
    (hlist : ListUsers lib env ⟨r.VaultPKIPath, r.ClientVPNEndpointID⟩ s = (.ok users, s1))
    (hunique : NewestSerialUnique users)
    (h : RevokeUser lib order env r s = (.ok (), s3)) :
    (∀ c ∈ users.get r.Username, c.SerialNumber ∈ s3.revoked) ∧
    (∀ v crts l, v ≠ r.Username → (v, crts) ∈ users → crts.getLast? = some l →
      (l.SerialNumber ∈ s3.revoked ↔ l.SerialNumber ∈ s.revoked)) ∧
    (users.get r.Username = [] →
      ∃ crl, UpdateCRL lib order env ⟨r.VaultPKIPath, r.ClientVPNEndpointID⟩ s1 =
        (.ok crl, s3)) := by
  obtain ⟨users', s1', s2, crl, hlist', hrev, hupd⟩ := RevokeUser_ok lib order env r s s3 h
  rw [hlist] at hlist'
  cases hlist'
  have hq1 := ListUsers_quiet lib env ⟨r.VaultPKIPath, r.ClientVPNEndpointID⟩ s
  rw [hlist] at hq1
  rw [revokeUserCertificates_eq_runRevokes] at hrev
  have hs2 := runRevokes_none env _ _ s1 s2 hrev
  have hs2rev : s2.revoked = s.revoked ++
      (toRevoke (users.get r.Username) true).map (·.SerialNumber) := by
    rw [hs2, afterRevokes_revoked, hq1.1]
  obtain ⟨users2, t1, t2, _, hlist2, hloop2, _, hrev3, _, _⟩ :=
    UpdateCRL_ok lib order env _ s2 s3 crl hupd
  have hgrow2 := UpdateCRL_before_fetch lib env _ order s2 t1 t2 users2 hlist2 hloop2
  have hmono : ∀ x ∈ s2.revoked, x ∈ s3.revoked := by
    intro x hx
    rw [hrev3]
    exact hgrow2.1 x hx
  refine ⟨?_, ?_, ?_⟩
  · intro c hc
    apply hmono
    rw [hs2rev, List.mem_append]
    cases hflag : c.Revoked with
    | false =>
      right
      refine List.mem_map.mpr ⟨c, ?_, rfl⟩
      simp [toRevoke, hc, hflag]
    | true =>
      left
      have hne : users.get r.Username ≠ [] := List.ne_nil_of_mem hc
      have hmem := UserMap.mem_of_get_ne_nil users r.Username hne
      obtain ⟨st, raw, rerr', hraw, hst, hrevoked⟩ :=
        ListUsers_flag lib env _ s s1 users hsort hlist _ _ hmem c hc
      rw [hflag] at hrevoked
      have hin := hcrl st raw rerr' hraw _ hrevoked
      rwa [hst] at hin
  · intro v crts l hv hm hlast
    constructor
    · intro hin
      rw [hrev3] at hin
      have hq2 := ListUsers_quiet lib env ⟨r.VaultPKIPath, r.ClientVPNEndpointID⟩ s2
      rw [hlist2] at hq2
      rcases updateCRLLoop_revoked_bound env _ _ t1 t2 hloop2 _ hin with
        h1 | ⟨w, crts2, c2, hm2, hc2, hser⟩
      · rw [hq2.1, hs2rev, List.mem_append] at h1
        rcases h1 with h1 | h1
        · exact h1
        · exfalso
          obtain ⟨c, hc, hcx⟩ := List.mem_map.mp h1
          have hcu : c ∈ users.get r.Username := by
            simp only [toRevoke, if_true] at hc
            exact (List.mem_filter.mp hc).1
          have hmemu := UserMap.mem_of_get_ne_nil users r.Username (List.ne_nil_of_mem hcu)
          exact (hunique (v, crts) hm l hlast _ hmemu).2 (fun e => hv e.symm) c hcu hcx
      · exfalso
        have hm2' : (w, crts2) ∈ users2 := (horder users2).mem_iff.mp hm2
        obtain ⟨crts1, crlB, hmap, hor⟩ :=
          listings_related lib env _ s s1 s2 t1 users users2 hsort hkey hstable hlist hlist2
            w crts2 hm2'
        have hc2' : c2 ∈ crts2.dropLast := by
          simp only [toRevoke, Bool.false_eq_true, if_false] at hc2
          exact (List.mem_filter.mp hc2).1
        rw [hmap, ← List.map_dropLast] at hc2'
        obtain ⟨c1, hc1, rfl⟩ := List.mem_map.mp hc2'
        rcases hor with hnil | hmem1
        · rw [hnil] at hc1; cases hc1
        · exact (hunique (v, crts) hm l hlast _ hmem1).1 c1 hc1 hser
    · intro hin
      apply hmono
      rw [hs2rev]
      exact List.mem_append_left _ hin
  · intro hnone
    have hs21 : s2 = s1 := by
      rw [hs2, hnone]
      rfl
    rw [hs21] at hupd
    exact ⟨crl, hupd⟩

/-- The sort of the second sample library is the one of the first. -/
theorem demoLib2_sortContract : demoLib2.SortContract := demoLib_sortContract

theorem demoLib2_sortByKey : demoLib2.SortByKey := demoLib_sortByKey

/-- The CRL of the second sample backend lists only revoked serial numbers. -/
theorem demoEnv2_crlSound : CRLSound demoLib2 demoEnv2 "pki" := by
  intro st raw rerr hraw serial hrev
  have hfull : isRevoked demoLib2 serial "crl:01-02" =
      .ok (decide (serial = "01") || (decide (serial = "02") || false)) := rfl
  have hempty : isRevoked demoLib2 serial "crl:" = .ok false := rfl
  simp only [demoEnv2, demoEnv] at hraw
  split at hraw
  · rename_i hboth
    cases hraw
    rw [hfull] at hrev
    simp at hrev
    rcases hrev with h1 | h2
    · rw [h1]; exact hboth.1
    · rw [h2]; exact hboth.2
  · cases hraw
    rw [hempty] at hrev
    cases hrev

theorem demoCatalog2_unique : NewestSerialUnique demoCatalog2 := by
  intro p hp l hl q hq
  simp only [demoCatalog2, List.mem_cons, List.mem_singleton, List.not_mem_nil, or_false]
    at hp hq
  rcases hp with rfl | rfl <;> rcases hq with rfl | rfl <;>
    (simp only [List.getLast?, List.getLast, Option.some.injEq] at hl; subst hl; decide)

/-- Witness for C16: alice has three certificates and bob one, none revoked;
after `RevokeUser` for alice her three serial numbers are revoked and bob's is
not. -/
theorem RevokeUser_revokes_user_only_witness :
    ListUsers demoLib2 demoEnv2 ⟨"pki", "cvpn-1"⟩ State.init =
      (.ok demoCatalog2, (ListUsers demoLib2 demoEnv2 ⟨"pki", "cvpn-1"⟩ State.init).2) ∧
    (RevokeUser demoLib2 id demoEnv2 ⟨"pki", "alice", "cvpn-1"⟩ State.init).1 = .ok () ∧
    (RevokeUser demoLib2 id demoEnv2 ⟨"pki", "alice", "cvpn-1"⟩ State.init).2.revoked =
      ["01", "02", "03"] ∧
    (∀ c ∈ demoCatalog2.get "alice",
      c.SerialNumber ∈
        (RevokeUser demoLib2 id demoEnv2 ⟨"pki", "alice", "cvpn-1"⟩ State.init).2.revoked) ∧
    ("07" ∈ (RevokeUser demoLib2 id demoEnv2 ⟨"pki", "alice", "cvpn-1"⟩ State.init).2.revoked ↔
      "07" ∈ State.init.revoked) := by
  have hlist : ListUsers demoLib2 demoEnv2 ⟨"pki", "cvpn-1"⟩ State.init =
      (.ok demoCatalog2, (ListUsers demoLib2 demoEnv2 ⟨"pki", "cvpn-1"⟩ State.init).2) := by
    decide
  have h := RevokeUser_revokes_user_only demoLib2 id demoEnv2 ⟨"pki", "alice", "cvpn-1"⟩
    State.init _ (RevokeUser demoLib2 id demoEnv2 ⟨"pki", "alice", "cvpn-1"⟩ State.init).2 _
    demoLib2_sortContract demoLib2_sortByKey (fun m => List.Perm.refl m) demoEnv2_crlSound
    (fun _ _ _ => ⟨rfl, rfl⟩) hlist demoCatalog2_unique (by decide)
  refine ⟨hlist, by decide, by decide, h.1, ?_⟩
  exact h.2.1 "bob" [certificateOf "bob-1" (demoCert 7 "bob@example.com" 150 false [2]) false]
    (certificateOf "bob-1" (demoCert 7 "bob@example.com" 150 false [2]) false)
    (by decide) (by decide) rfl

/-! ## IssueClientCertificate -/

theorem writeEffect_no_serial (path : String) (payload : Payload) (s : State)
    (h : payload.lookup "serial_number" = none) : writeEffect path payload s = s := by
  unfold writeEffect
  rw [h]
  split <;> rfl

theorem revokeCalls_no_serial (path : String) (payload : Payload)
    (h : payload.lookup "serial_number" = none) :
    revokeCalls [.vaultWrite path payload] = [] := by
  simp only [revokeCalls, h]
  split <;> rfl

theorem vaultWrite_no_serial (env : Env) (path : String) (payload : Payload) (s : State)
    (h : payload.lookup "serial_number" = none) :
    (vaultWrite env path payload s).2 = s.record (.vaultWrite path payload) := by
  unfold vaultWrite
  cases env.vaultWrite s path payload with
  | error e => rfl
  | ok data => exact writeEffect_no_serial _ _ _ h

theorem issueCertificate_state (env : Env) (r : IssueCertificateRequest) (s s1 : State)
    (res : StepResult (String × String)) (h : issueCertificate env r s = (res, s1))
    (hres : (∃ e, res = .failed e) ∨ ∃ v, res = .ok v) : s1 = s.record (issueCall r) := by
  unfold issueCertificate at h
  cases hl : r.VaultPKIPaths.getLast? with
  | none =>
    simp only [hl, Prod.mk.injEq] at h
    rcases hres with ⟨e, he⟩ | ⟨v, hv⟩
    · rw [he] at h; exact absurd h.1 (by simp)
    · rw [hv] at h; exact absurd h.1 (by simp)
  | some pki =>
    have hpki : r.VaultPKIPaths.getLastD "" = pki := by
      cases hp : r.VaultPKIPaths with
      | nil => rw [hp] at hl; simp at hl
      | cons a l =>
        rw [hp, List.getLast?_cons] at hl
        rw [List.getLastD_cons, List.getLastD_eq_getLast?]
        exact Option.some.inj hl
    have hw := vaultWrite_no_serial env (pki ++ "/issue/" ++ r.VaultPKIRole)
      [("common_name", .str r.Username)] s rfl
    simp only [hl] at h
    have h2 : (issueCertificate env r s).2 = s1 := by
      unfold issueCertificate
      simp only [hl]
      rw [h]
    rw [← h2]
    unfold issueCertificate
    simp only [hl]
    rw [issueCall, hpki, ← hw]
    split
    · rename_i e t he; rw [he]
    · rename_i crt t he
      rw [he]
      split <;> rfl

theorem fetchCAChainLoop_ok (env : Env) (paths : List String) :
    ∀ (caCerts : List String) (s s2 : State) (cas : List String),
      fetchCAChainLoop env paths caCerts s = (.ok cas, s2) →
      s2.trace = s.trace ++ caReads paths ∧ s2.revoked = s.revoked ∧ s2.gateway = s.gateway := by
  induction paths with
  | nil =>
    intro caCerts s s2 cas h
    simp only [fetchCAChainLoop, Prod.mk.injEq] at h
    rw [← h.2]
    simp [caReads]
  | cons path rest ih =>
    intro caCerts s s2 cas h
    unfold fetchCAChainLoop at h
    split at h
    · cases h
    · cases h
    · obtain ⟨ht, hr, hg⟩ := ih _ _ _ _ h
      refine ⟨?_, hr, hg⟩
      rw [ht]
      simp [State.record, caReads]

theorem fetchCAChainLoop_failed (env : Env) (paths : List String) :
    ∀ (caCerts : List String) (s s2 : State) (e : Error),
      fetchCAChainLoop env paths caCerts s = (.failed e, s2) →
      (∃ done path rest, paths = done ++ path :: rest ∧
        s2.trace = s.trace ++ caReads (done ++ [path])) ∧
      s2.revoked = s.revoked ∧ s2.gateway = s.gateway := by
  induction paths with
  | nil =>
    intro caCerts s s2 e h
    simp [fetchCAChainLoop] at h
  | cons path rest ih =>
    intro caCerts s s2 e h
    unfold fetchCAChainLoop at h
    split at h
    · simp only [Prod.mk.injEq] at h
      rw [← h.2]
      exact ⟨⟨[], path, rest, rfl, by simp [State.record, caReads]⟩, rfl, rfl⟩
    · simp only [Prod.mk.injEq] at h
      rw [← h.2]
      exact ⟨⟨[], path, rest, rfl, by simp [State.record, caReads]⟩, rfl, rfl⟩
    · obtain ⟨⟨done, p, rest2, hp, ht⟩, hr, hg⟩ := ih _ _ _ _ h
      refine ⟨⟨path :: done, p, rest2, by rw [hp]; rfl, ?_⟩, hr, hg⟩
      rw [ht]
      simp [State.record, caReads]

theorem fetchCAChainLoop_no_fault (env : Env) (paths : List String) :
    ∀ (caCerts : List String) (s : State),
      (fetchCAChainLoop env paths caCerts s).1 ≠ .fault := by
  induction paths with
  | nil => intro caCerts s; simp [fetchCAChainLoop]
  | cons path rest ih =>
    intro caCerts s
    unfold fetchCAChainLoop
    split
    · simp
    · simp
    · exact ih _ _

theorem fetchCAChain_ok (env : Env) (r : IssueCertificateRequest) (s s2 : State) (ca : String)
    (h : fetchCAChain env r s = (.ok ca, s2)) :
    s2.trace = s.trace ++ caReads r.VaultPKIPaths ∧ s2.revoked = s.revoked ∧
      s2.gateway = s.gateway := by
  unfold fetchCAChain at h
  split at h
  · rename_i cas t hl
    simp only [Prod.mk.injEq] at h
    rw [← h.2]
    exact fetchCAChainLoop_ok env _ _ _ _ _ hl
  · cases h
  · cases h

theorem fetchCAChain_failed (env : Env) (r : IssueCertificateRequest) (s s2 : State) (e : Error)
    (h : fetchCAChain env r s = (.failed e, s2)) :
    (∃ done path rest, r.VaultPKIPaths = done ++ path :: rest ∧
      s2.trace = s.trace ++ caReads (done ++ [path])) ∧
    s2.revoked = s.revoked ∧ s2.gateway = s.gateway := by
  unfold fetchCAChain at h
  split at h
  · cases h
  · rename_i e2 t hl
    simp only [Prod.mk.injEq] at h
    rw [← h.2]
    exact fetchCAChainLoop_failed env _ _ _ _ _ hl
  · cases h

theorem resolveDNSName_ok (env : Env) (r : IssueCertificateRequest) (s s3 : State)
    (name : String) (h : resolveDNSName env r s = (.ok name, s3)) :
    s3.trace = s.trace ++ [.awsLoadConfig, .awsDescribe r.ClientVPNEndpointID] ∧
      s3.revoked = s.revoked ∧ s3.gateway = s.gateway := by
  unfold resolveDNSName awsDescribe at h
  split at h
  · cases h
  · split at h
    · cases h
    · rename_i endpoints t hd
      simp only [Prod.mk.injEq] at hd
      split at h
      · cases h
      · split at h
        · cases h
        · simp only [Prod.mk.injEq] at h
          rw [← h.2, ← hd.2]
          simp [State.record]

theorem resolveDNSName_failed (env : Env) (r : IssueCertificateRequest) (s s3 : State)
    (e : Error) (h : resolveDNSName env r s = (.failed e, s3)) :
    (s3.trace = s.trace ++ [.awsLoadConfig] ∨
      s3.trace = s.trace ++ [.awsLoadConfig, .awsDescribe r.ClientVPNEndpointID]) ∧
      s3.revoked = s.revoked ∧ s3.gateway = s.gateway := by
  unfold resolveDNSName awsDescribe at h
  split at h
  · simp only [Prod.mk.injEq] at h
    rw [← h.2]
    exact ⟨Or.inl rfl, rfl, rfl⟩
  · split at h
    · rename_i err t hd
      simp only [Prod.mk.injEq] at hd h
      rw [← h.2, ← hd.2]
      exact ⟨Or.inr (by simp [State.record]), rfl, rfl⟩
    · split at h
      · cases h
      · split at h
        · cases h
        · cases h

theorem persistConfig_state (env : Env) (r : IssueCertificateRequest) (config : String)
    (s : State) : (persistConfig env r config s).2 = s.record (persistCall r config) := by
  have hw := vaultWrite_no_serial env
    (r.VaultKVPath ++ "/data/users/" ++ r.Username ++ "/config.ovpn")
    [("common_name", .str r.Username), ("data", .map [("content", config)])] s rfl
  unfold persistConfig
  rw [persistCall, ← hw]
  split
  · rename_i e t he; rw [he]
  · rename_i d t he; rw [he]

theorem persistCall_quiet (r : IssueCertificateRequest) (config : String) :
    revokeCalls [persistCall r config] = [] ∧ importCalls [persistCall r config] = [] :=
  ⟨revokeCalls_no_serial _ _ rfl, rfl⟩

theorem issueCall_quiet (r : IssueCertificateRequest) :
    revokeCalls [issueCall r] = [] ∧ importCalls [issueCall r] = [] :=
  ⟨revokeCalls_no_serial _ _ rfl, rfl⟩

theorem caReads_quiet (paths : List String) :
    revokeCalls (caReads paths) = [] ∧ importCalls (caReads paths) = [] := by
  induction paths with
  | nil => exact ⟨rfl, rfl⟩
  | cons p ps ih => exact ⟨by simpa [caReads, revokeCalls] using ih.1,
      by simpa [caReads, importCalls] using ih.2⟩

theorem issue_prefix_quiet (r : IssueCertificateRequest) :
    revokeCalls (issueCall r :: caReads r.VaultPKIPaths) = [] ∧
      importCalls (issueCall r :: caReads r.VaultPKIPaths) = [] := by
  constructor
  · have h := revokeCalls_append [issueCall r] (caReads r.VaultPKIPaths)
    rw [List.singleton_append] at h
    rw [h, (issueCall_quiet r).1, (caReads_quiet _).1]
    rfl
  · have h := importCalls_append [issueCall r] (caReads r.VaultPKIPaths)
    rw [List.singleton_append] at h
    rw [h, (issueCall_quiet r).2, (caReads_quiet _).2]
    rfl

/-- C17 (the code departs from the claim): `IssueClientCertificate` never reads the
config key of the request, so the same calls are made whatever key the caller
passes; for the request of alice with config key `client.ovpn` the call succeeds,
returns the rendered text, and the only configuration written holds that text but
lies under `secret/data/users/alice/config.ovpn`, not under the configured key
`secret/data/users/alice/client.ovpn`. -/
theorem IssueClientCertificate_ignores_config_key :
    (∀ (tl : TemplateLib) (lib : Lib) (order : UserMap → UserMap) (env : Env)
        (r : IssueCertificateRequest) (s : State) (k : String),
      IssueClientCertificate tl lib order env { r with VaultKVConfigKey := k } s =
        IssueClientCertificate tl lib order env r s) ∧
    (IssueClientCertificate demoTemplates demoLib id issueEnv issueRequest State.init).1 =
      .returned
        "remote alice.cvpn-1.prod.clientvpn.eu-west-1.amazonaws.com|ROOT-CA\nPKI-CA|CERT|KEY"
        none ∧
    configWrites
        (IssueClientCertificate demoTemplates demoLib id issueEnv issueRequest State.init).2.trace =
      [("secret/data/users/alice/config.ovpn",
        "remote alice.cvpn-1.prod.clientvpn.eu-west-1.amazonaws.com|ROOT-CA\nPKI-CA|CERT|KEY")] ∧
    configuredKey issueRequest = "secret/data/users/alice/client.ovpn" := by
  refine ⟨fun _ _ _ _ _ _ _ => rfl, ?_, ?_, ?_⟩ <;> decide

/-- C18: whichever step of `IssueClientCertificate` fails first (issue certificate,
fetch CA chain, resolve DNS name, render template, persist config, reconcile), the
function returns the error of that step with the empty text, in the state right
after the failing call, so that no later step runs.  When persisting the config
fails the calls made are the issue call, the CA reads, the two gateway lookups and
the failed write: no revoke call, no gateway import, the revoked set and the
gateway CRL are as before. -/
theorem IssueClientCertificate_aborts_at_first_failure (tl : TemplateLib) (lib : Lib)
    (order : UserMap → UserMap) (env : Env) (r : IssueCertificateRequest) (s : State) :
    (∀ e s1, issueCertificate env r s = (.failed e, s1) →
      IssueClientCertificate tl lib order env r s = (.returned "" (some e), s1) ∧
      s1.trace = s.trace ++ [issueCall r]) ∧
    (∀ crt key s1 e s2, issueCertificate env r s = (.ok (crt, key), s1) →
      fetchCAChain env r s1 = (.failed e, s2) →
      IssueClientCertificate tl lib order env r s = (.returned "" (some e), s2) ∧
      ∃ done path rest, r.VaultPKIPaths = done ++ path :: rest ∧
        s2.trace = s.trace ++ issueCall r :: caReads (done ++ [path])) ∧
    (∀ crt key s1 ca s2 e s3, issueCertificate env r s = (.ok (crt, key), s1) →
      fetchCAChain env r s1 = (.ok ca, s2) →
      resolveDNSName env r s2 = (.failed e, s3) →
      IssueClientCertificate tl lib order env r s = (.returned "" (some e), s3) ∧
      (s3.trace = s.trace ++ issueCall r :: caReads r.VaultPKIPaths ++ [.awsLoadConfig] ∨
        s3.trace = s.trace ++ issueCall r :: caReads r.VaultPKIPaths ++
          [.awsLoadConfig, .awsDescribe r.ClientVPNEndpointID])) ∧
    (∀ crt key s1 ca s2 dns s3 e, issueCertificate env r s = (.ok (crt, key), s1) →
      fetchCAChain env r s1 = (.ok ca, s2) →
      resolveDNSName env r s2 = (.ok dns, s3) →
      renderConfig tl r ⟨dns, r.Username, ca, crt, key⟩ = .failed e →
      IssueClientCertificate tl lib order env r s = (.returned "" (some e), s3) ∧
      s3.trace = s.trace ++ issueCall r :: caReads r.VaultPKIPaths ++
        [.awsLoadConfig, .awsDescribe r.ClientVPNEndpointID]) ∧
    (∀ crt key s1 ca s2 dns s3 config e s4, issueCertificate env r s = (.ok (crt, key), s1) →
      fetchCAChain env r s1 = (.ok ca, s2) →
      resolveDNSName env r s2 = (.ok dns, s3) →
      renderConfig tl r ⟨dns, r.Username, ca, crt, key⟩ = .ok config →
      persistConfig env r config s3 = (.failed e, s4) →
      IssueClientCertificate tl lib order env r s = (.returned "" (some e), s4) ∧
      s4.trace = s.trace ++ issueCall r :: caReads r.VaultPKIPaths ++
        [.awsLoadConfig, .awsDescribe r.ClientVPNEndpointID, persistCall r config] ∧
      revokeCalls s4.trace = revokeCalls s.trace ∧
      importCalls s4.trace = importCalls s.trace ∧
      s4.revoked = s.revoked ∧ s4.gateway = s.gateway) ∧
    (∀ crt key s1 ca s2 dns s3 config s4 e s5, issueCertificate env r s = (.ok (crt, key), s1) →
      fetchCAChain env r s1 = (.ok ca, s2) →
      resolveDNSName env r s2 = (.ok dns, s3) →
      renderConfig tl r ⟨dns, r.Username, ca, crt, key⟩ = .ok config →
      persistConfig env r config s3 = (.ok (), s4) →
      UpdateCRL lib order env ⟨r.VaultPKIPaths.getLastD "", r.ClientVPNEndpointID⟩ s4 =
        (.error e, s5) →
      IssueClientCertificate tl lib order env r s = (.returned "" (some e), s5)) := by
  refine ⟨?_, ?_, ?_, ?_, ?_, ?_⟩
  · intro e s1 h1
    have hs1 := issueCertificate_state env r s s1 _ h1 (Or.inl ⟨e, rfl⟩)
    refine ⟨?_, by rw [hs1]; rfl⟩
    unfold IssueClientCertificate
    rw [h1]
  · intro crt key s1 e s2 h1 h2
    have hs1 := issueCertificate_state env r s s1 _ h1 (Or.inr ⟨_, rfl⟩)
    obtain ⟨⟨done, path, rest, hp, ht⟩, -, -⟩ := fetchCAChain_failed env r s1 s2 e h2
    refine ⟨?_, done, path, rest, hp, ?_⟩
    · unfold IssueClientCertificate
      rw [h1]
      dsimp only
      rw [h2]
    · rw [ht, hs1]
      simp [State.record]
  · intro crt key s1 ca s2 e s3 h1 h2 h3
    have hs1 := issueCertificate_state env r s s1 _ h1 (Or.inr ⟨_, rfl⟩)
    obtain ⟨ht2, -, -⟩ := fetchCAChain_ok env r s1 s2 ca h2
    obtain ⟨ht3, -, -⟩ := resolveDNSName_failed env r s2 s3 e h3
    refine ⟨?_, ?_⟩
    · unfold IssueClientCertificate
      rw [h1]
      dsimp only
      rw [h2]
      dsimp only
      rw [h3]
    · rcases ht3 with ht3 | ht3
      · left; rw [ht3, ht2, hs1]; simp [State.record]
      · right; rw [ht3, ht2, hs1]; simp [State.record]
  · intro crt key s1 ca s2 dns s3 e h1 h2 h3 h4
    have hs1 := issueCertificate_state env r s s1 _ h1 (Or.inr ⟨_, rfl⟩)
    obtain ⟨ht2, -, -⟩ := fetchCAChain_ok env r s1 s2 ca h2
    obtain ⟨ht3, -, -⟩ := resolveDNSName_ok env r s2 s3 dns h3
    refine ⟨?_, ?_⟩
    · unfold IssueClientCertificate
      rw [h1]
      dsimp only
      rw [h2]
      dsimp only
      rw [h3]
      dsimp only
      rw [h4]
    · rw [ht3, ht2, hs1]; simp [State.record]
  · intro crt key s1 ca s2 dns s3 config e s4 h1 h2 h3 h4 h5
    have hs1 := issueCertificate_state env r s s1 _ h1 (Or.inr ⟨_, rfl⟩)
    obtain ⟨ht2, hr2, hg2⟩ := fetchCAChain_ok env r s1 s2 ca h2
    obtain ⟨ht3, hr3, hg3⟩ := resolveDNSName_ok env r s2 s3 dns h3
    have hs4 := persistConfig_state env r config s3
    rw [h5] at hs4
    dsimp only at hs4
    have ht4 : s4.trace = s.trace ++ issueCall r :: caReads r.VaultPKIPaths ++
        [.awsLoadConfig, .awsDescribe r.ClientVPNEndpointID, persistCall r config] := by
      rw [hs4]
      show s3.trace ++ [persistCall r config] = _
      rw [ht3, ht2, hs1]
      simp [State.record]
    refine ⟨?_, ht4, ?_, ?_, ?_, ?_⟩
    · unfold IssueClientCertificate
      rw [h1]
      dsimp only
      rw [h2]
      dsimp only
      rw [h3]
      dsimp only
      rw [h4]
      dsimp only
      rw [h5]
    · have h3 : revokeCalls [.awsLoadConfig, .awsDescribe r.ClientVPNEndpointID,
          persistCall r config] = [] := (persistCall_quiet r config).1
      rw [ht4, revokeCalls_append, revokeCalls_append, (issue_prefix_quiet r).1, h3]
      simp
    · have h3 : importCalls [.awsLoadConfig, .awsDescribe r.ClientVPNEndpointID,
          persistCall r config] = [] := rfl
      rw [ht4, importCalls_append, importCalls_append, (issue_prefix_quiet r).2, h3]
      simp
    · rw [hs4]
      show s3.revoked = _
      rw [hr3, hr2, hs1]; rfl
    · rw [hs4]
      show s3.gateway = _
      rw [hg3, hg2, hs1]; rfl
  · intro crt key s1 ca s2 dns s3 config s4 e s5 h1 h2 h3 h4 h5 h6
    unfold IssueClientCertificate
    rw [h1]
    dsimp only
    rw [h2]
    dsimp only
    rw [h3]
    dsimp only
    rw [h4]
    dsimp only
    rw [h5]
    dsimp only
    rw [h6]

theorem IssueClientCertificate_aborts_at_first_failure_witness :
    ∃ s4, IssueClientCertificate demoTemplates demoLib id kvDownEnv issueRequest State.init =
        (.returned "" (some "permission denied"), s4) ∧
      revokeCalls s4.trace = [] ∧ importCalls s4.trace = [] ∧
      s4.revoked = [] ∧ s4.gateway = none :=
  have h := (IssueClientCertificate_aborts_at_first_failure demoTemplates demoLib id kvDownEnv
    issueRequest State.init).2.2.2.2.1 "CERT" "KEY"
    (State.init.record (issueCall issueRequest))
    "ROOT-CA\nPKI-CA"
    ⟨issueCall issueRequest :: caReads ["root-pki", "pki"], [], none⟩
    "cvpn-1.prod.clientvpn.eu-west-1.amazonaws.com"
    ⟨issueCall issueRequest :: caReads ["root-pki", "pki"] ++
      [.awsLoadConfig, .awsDescribe "cvpn-1"], [], none⟩
    "remote alice.cvpn-1.prod.clientvpn.eu-west-1.amazonaws.com|ROOT-CA\nPKI-CA|CERT|KEY"
    "permission denied"
    ⟨issueCall issueRequest :: caReads ["root-pki", "pki"] ++
      [.awsLoadConfig, .awsDescribe "cvpn-1",
        persistCall issueRequest
          "remote alice.cvpn-1.prod.clientvpn.eu-west-1.amazonaws.com|ROOT-CA\nPKI-CA|CERT|KEY"],
      [], none⟩
    (by decide) (by decide) (by decide) (by decide) (by decide)
  ⟨_, h.1, h.2.2.1, h.2.2.2.1, h.2.2.2.2.1, h.2.2.2.2.2⟩

/-! ## The approle login loop -/

theorem login_error_no_secret (b : AuthBackend) :
    (login b).1.2 = none ∨ (login b).1.1 = none := by
  unfold login
  cases b.NewAppRoleAuth with
  | some e => exact Or.inr rfl
  | none =>
    rcases hb : b.Login with ⟨_ | secret, _ | e⟩
    · exact Or.inr rfl
    · exact Or.inr rfl
    · exact Or.inl rfl
    · exact Or.inr rfl

theorem loginLoopIteration_no_secret (b : AuthBackend) (h : (login b).1.1 = none) :
    (loginLoopIteration b).1 = .fault := by
  unfold loginLoopIteration
  rcases hl : login b with ⟨⟨resp, err⟩, logs⟩
  rw [hl] at h
  dsimp only at h
  subst h
  rfl

/-- C19 (the code departs from the claim): an iteration of the login loop whose
login fails does not complete.  `login` returns no secret whenever it returns an
error, and then `manageTokenLifecycle` is still called, with the nil secret, and
faults on reading `token.Auth.Renewable`.  For a server that refuses the login
the iteration logs the login error and faults, and a loop that would have had
a working server at its second iteration stops after one login attempt. -/
theorem loginLoopIteration_faults_on_failed_login :
    (∀ b : AuthBackend, (login b).1.2 = none ∨
      ((login b).1.1 = none ∧ (loginLoopIteration b).1 = .fault)) ∧
    (∀ b : AuthBackend, manageTokenLifecycle b none = (.fault, [])) ∧
    login downBackend =
      ((none, some "unable to login to AppRole auth method: connection refused"), []) ∧
    loginLoopIteration downBackend =
      (.fault, [.error (some "unable to login to AppRole auth method: connection refused")
        "unable to authenticate to Vault"]) ∧
    loginLoop [downBackend, upBackend] =
      (1, .fault, [.error (some "unable to login to AppRole auth method: connection refused")
        "unable to authenticate to Vault"]) ∧
    loginLoop [upBackend, upBackend] =
      (2, .returned (),
        [.info "Successfully logged into Vault using AppRole auth",
          .info "Token is not configured to be renewable. Re-attempting login.",
          .info "Successfully logged into Vault using AppRole auth",
          .info "Token is not configured to be renewable. Re-attempting login."]) := by
  refine ⟨fun b => ?_, fun _ => rfl, by decide, by decide, by decide, by decide⟩
  rcases login_error_no_secret b with h | h
  · exact Or.inl h
  · exact Or.inr ⟨h, loginLoopIteration_no_secret b h⟩

/-! ## The authorization middleware -/

theorem zEndpoint_append_z (s : String) : zEndpoint (s ++ "z") = true := by
  unfold zEndpoint
  rw [List.any_eq_true]
  refine ⟨['z'], ?_, rfl⟩
  rw [List.mem_tails, String.data_append]
  exact List.suffix_append _ _

theorem matchDotStarZ_last (t : List Char) (h : matchDotStarZ t = true) :
    t.getLast? = some 'z' := by
  induction t with
  | nil => simp [matchDotStarZ] at h
  | cons c rest ih =>
    unfold matchDotStarZ at h
    rw [Bool.or_eq_true, Bool.and_eq_true, Bool.and_eq_true] at h
    rcases h with ⟨hc, hr⟩ | ⟨-, hr⟩
    · have hc2 : c = 'z' := by simpa using hc
      have hr2 : rest = [] := by simpa using hr
      rw [hc2, hr2]
      rfl
    · have := ih hr
      cases rest with
      | nil => simp at this
      | cons d ds => rw [List.getLast?_cons_cons]; exact this

theorem zEndpoint_iff (path : String) :
    zEndpoint path = true ↔ path.data.getLast? = some 'z' := by
  constructor
  · intro h
    unfold zEndpoint at h
    rw [List.any_eq_true] at h
    obtain ⟨t, ht, hm⟩ := h
    rw [List.mem_tails] at ht
    obtain ⟨pre, hpre⟩ := ht
    have hl := matchDotStarZ_last t hm
    have hne : t ≠ [] := by
      intro h0
      rw [h0] at hl
      simp at hl
    rw [← hpre, List.getLast?_append_of_ne_nil _ hne]
    exact hl
  · intro h
    rw [List.getLast?_eq_some_iff] at h
    obtain ⟨ys, hys⟩ := h
    unfold zEndpoint
    rw [List.any_eq_true]
    refine ⟨['z'], ?_, rfl⟩
    rw [List.mem_tails, hys]
    exact List.suffix_append _ _

theorem authMiddleware_zEndpoint (cfg : Config) (githubAuth : githubAuthOpts → Option Error)
    (r : Request) (h : zEndpoint r.Path = true) :
    authMiddleware cfg githubAuth r = (.next, []) := by
  unfold authMiddleware
  rw [h]
  rfl

/-- C20 (the code departs from the claim): the middleware skips authorization for
every path that ends in `z`, not only for `/healthz` and `/readyz`.  With GitHub
authorization enabled and a GitHub that refuses every token, `POST /issue/liz` and
`POST /revoke/liz` (no Authorization header) are routed to the issue and revoke
handlers and reach them without any call to `githubAuth`, while `POST
/issue/alice` is answered with 401 after one call; the same holds for every
method, header and user name that ends in `z`. -/
theorem authMiddleware_skips_user_ending_in_z :
    route ⟨"POST", "/issue/liz", ""⟩ = some (.issueClientCertificateHandler "liz") ∧
    authMiddleware orgConfig denyAll ⟨"POST", "/issue/liz", ""⟩ = (.next, []) ∧
    servedBy orgConfig denyAll ⟨"POST", "/issue/liz", ""⟩ =
      some (.issueClientCertificateHandler "liz") ∧
    servedBy orgConfig denyAll ⟨"POST", "/revoke/liz", ""⟩ = some (.revokeUserHandler "liz") ∧
    authMiddleware orgConfig denyAll ⟨"POST", "/issue/alice", ""⟩ =
      (.answered ⟨401, [("msg", "unauthenticated"), ("error", "401 Bad credentials")]⟩,
        [⟨"", "3scale", [], []⟩]) ∧
    servedBy orgConfig denyAll ⟨"POST", "/issue/alice", ""⟩ = none ∧
    (∀ (cfg : Config) (githubAuth : githubAuthOpts → Option Error)
        (method user authorization : String),
      authMiddleware cfg githubAuth ⟨method, "/issue/" ++ user ++ "z", authorization⟩ =
        (.next, []) ∧
      authMiddleware cfg githubAuth ⟨method, "/revoke/" ++ user ++ "z", authorization⟩ =
        (.next, [])) := by
  refine ⟨by decide, by decide, by decide, by decide, by decide, by decide, ?_⟩
  intro cfg githubAuth method user authorization
  exact ⟨authMiddleware_zEndpoint _ _ _ (zEndpoint_append_z _),
    authMiddleware_zEndpoint _ _ _ (zEndpoint_append_z _)⟩

/-! ## reportHttpError -/

theorem reportHttpErrorLoop_even (keys : List String) (heven : keys.length % 2 = 0) :
    ∀ (ks : List String) (i : Nat) (rsp : List (String × String)),
      ks ≠ [] → i + ks.length = keys.length → reportHttpErrorLoop keys i ks rsp = none := by
  intro ks
  induction ks with
  | nil => intro i rsp h; exact absurd rfl h
  | cons k rest ih =>
    intro i rsp _ hlen
    simp only [List.length_cons] at hlen
    unfold reportHttpErrorLoop
    by_cases hi : i % 2 ≠ 0
    · rw [if_pos hi]
      cases hrest : rest with
      | nil =>
        rw [hrest] at hlen
        simp only [List.length_nil] at hlen
        have hget : keys.get? (i + 1) = none := by
          rw [List.get?_eq_none]
          omega
        rw [hget]
      | cons k2 rest2 =>
        rw [hrest] at hlen
        simp only [List.length_cons] at hlen
        have hlt : i + 1 < keys.length := by omega
        rw [List.get?_eq_get hlt]
        dsimp only
        rw [← hrest]
        apply ih
        · rw [hrest]; simp
        · rw [hrest]; simp only [List.length_cons]; omega
    · rw [if_neg hi]
      have hne : rest ≠ [] := by
        intro h0
        rw [h0] at hlen
        simp only [List.length_nil] at hlen
        omega
      apply ih _ _ hne
      omega

theorem reportHttpError_keys (msg : String) (err : Option Error) (statusCode : Nat)
    (keys : List String) : keys = [] ∨ reportHttpError msg err statusCode keys = .fault := by
  by_cases hk : keys = []
  · exact Or.inl hk
  · right
    unfold reportHttpError
    by_cases hodd : keys.length % 2 ≠ 0
    · rw [if_pos hodd]
    · rw [if_neg hodd]
      cases err with
      | none => rfl
      | some e =>
        have heven : keys.length % 2 = 0 := by omega
        dsimp only
        rw [reportHttpErrorLoop_even keys heven keys 0 _ hk (by simp)]

/-- C21 (the code departs from the claim): `reportHttpError` faults whenever extra
keys are passed.  On the failure path of `/healthz`, with the keys `status`, `ko`
and a non-nil error, the loop reads `keys[2]` at index 1 and faults, so no
response with `status: ko` is written, whether the failure comes from the Vault
client or from `ListUsers`; the function returns only for an empty key list, where
the response holds `msg` and `error`. -/
theorem reportHttpError_faults_on_extra_keys :
    reportHttpError "/healthz failed" (some "Vault is sealed") 500 ["status", "ko"] = .fault ∧
    reportHttpErrorLoop ["status", "ko"] 0 ["status", "ko"]
      [("msg", "/healthz failed"), ("error", "Vault is sealed")] = none ∧
    (healthzHandler demoLib okEnv (some "no client") ["pki"] State.init).1 = .fault ∧
    (healthzHandler demoLib sealedEnv none ["pki"] State.init).1 = .fault ∧
    (healthzHandler demoLib okEnv none ["pki"] State.init).1 =
      .returned ⟨200, [("status", "ok")]⟩ ∧
    (∀ (msg : String) (err : Option Error) (statusCode : Nat) (keys : List String),
      keys = [] ∨ reportHttpError msg err statusCode keys = .fault) ∧
    (∀ (msg : String) (e : Error) (statusCode : Nat),
      reportHttpError msg (some e) statusCode [] =
        .returned ⟨statusCode, [("msg", msg), ("error", e)]⟩) := by
  refine ⟨by decide, by decide, by decide, by decide, by decide, ?_, fun _ _ _ => rfl⟩
  exact reportHttpError_keys

theorem authMiddleware_malformed_header (cfg : Config)
    (githubAuth : githubAuthOpts → Option Error) (r : Request) :
    zEndpoint r.Path = true ∨ cfg.authGithubOrg = none ∨ r.Authorization = "" ∨
      bearerForm r.Authorization ∨ authMiddleware cfg githubAuth r = (.fault, []) := by
  by_cases hz : zEndpoint r.Path = true
  · exact Or.inl hz
  by_cases horg : cfg.authGithubOrg = none
  · exact Or.inr (Or.inl horg)
  by_cases hne : r.Authorization = ""
  · exact Or.inr (Or.inr (Or.inl hne))
  by_cases hform : bearerForm r.Authorization
  · exact Or.inr (Or.inr (Or.inr (Or.inl hform)))
  refine Or.inr (Or.inr (Or.inr (Or.inr ?_)))
  have hz2 : zEndpoint r.Path = false := by
    cases h : zEndpoint r.Path with
    | true => exact absurd h hz
    | false => rfl
  have horg2 : cfg.authGithubOrg.isSome = true := by
    cases h : cfg.authGithubOrg with
    | none => exact absurd h horg
    | some org => rfl
  unfold bearerForm at hform
  unfold authMiddleware
  rw [hz2, horg2]
  simp only [Bool.not_false, Bool.and_self, if_true, ne_eq, hne, not_false_eq_true, hform,
    if_false]
  rfl

/-- C22 (the code departs from the claim): with GitHub authorization enabled, a
request to a path that does not end in `z` whose Authorization header is not empty
and not of the form `Bearer <token>` is not answered with 401: the middleware calls
`reportHttpError` with the error variable still nil, and `err.Error()` faults.  So
it is for `Basic YWxpY2U6cHc=`, for a bare token and for three fields, whatever
GitHub would say; neither `githubAuth` nor the next handler is called.  A
header `Bearer tok` refused by GitHub is answered with 401 after one call. -/
theorem authMiddleware_malformed_header_faults :
    authMiddleware orgConfig denyAll ⟨"POST", "/issue/alice", "Basic YWxpY2U6cHc="⟩ =
      (.fault, []) ∧
    authMiddleware orgConfig allowAll ⟨"GET", "/users", "ghp_token"⟩ = (.fault, []) ∧
    authMiddleware orgConfig allowAll ⟨"POST", "/crl", "Bearer ghp token"⟩ = (.fault, []) ∧
    servedBy orgConfig allowAll ⟨"GET", "/users", "ghp_token"⟩ = none ∧
    reportHttpError "unauthenticated" none 401 [] = .fault ∧
    authMiddleware orgConfig denyAll ⟨"POST", "/issue/alice", "Bearer tok"⟩ =
      (.answered ⟨401, [("msg", "unauthenticated"), ("error", "401 Bad credentials")]⟩,
        [⟨"tok", "3scale", [], []⟩]) ∧
    (∀ (cfg : Config) (githubAuth : githubAuthOpts → Option Error) (r : Request),
      zEndpoint r.Path = true ∨ cfg.authGithubOrg = none ∨ r.Authorization = "" ∨
        bearerForm r.Authorization ∨ authMiddleware cfg githubAuth r = (.fault, [])) := by
  refine ⟨by decide, by decide, by decide, by decide, by decide, by decide, ?_⟩
  exact authMiddleware_malformed_header

end PKIManager
